import Mathlib

/-!
# VoteSim: a shallow embedding of the simulation-and-tally engine

The C sources embedded here are `confuzz.c` (bounded sampling),
`bit_functions.c` (Hamming weight), `election.c` (voter allocation and
candidate statistics) and the tallying part of `main` in `votesim.c`.

Conventions of the embedding:

* `unsigned` is 32 bits wide and `size_t` / `unsigned long` are 64 bits wide
  (LP64).  Machine integers are natural numbers; every operation that can
  wrap in C is written with an explicit reduction modulo `UINT_MOD` or
  `SIZE_MOD`.
* The stream of values returned by `rand()` is a list of natural numbers that
  is consumed from the front.
* A run that does not produce a value yields a `Fault`.
* `RAND_MAX` (from the C library), the table `HAMMING` and the global
  `MAX_LOOKUP_SIZE` (both defined outside the embedded sources) are
  parameters.
-/

namespace VoteSim

/-! ## Machine model -/

/-- Ways in which a run of the embedded C code fails to produce a value. -/
inductive Fault where
  /-- An integer division by zero. -/
  | div_by_zero
  /-- The list of `rand()` values ran out while a loop was still drawing. -/
  | out_of_draws
  /-- A loop was still running when its iteration budget ran out. -/
  | out_of_fuel
  /-- An array was indexed outside its bounds. -/
  | out_of_bounds
  /-- A shift of a signed `int` whose result is not representable. -/
  | undefined_shift
  deriving DecidableEq, Repr

deriving instance DecidableEq for Except

/-- Number of values of the C type `unsigned`. -/
def UINT_MOD : Nat := 2 ^ 32

/-- Number of values of the C types `size_t` and `unsigned long`. -/
def SIZE_MOD : Nat := 2 ^ 64

/-! ## confuzz.c -/

/-- The `do { rand_num = rand(); } while (rand_num >= reject);` loop of
`rand_ceiling` followed by its `return rand_num/reject_multiplier;`.  The
second component of the result is the part of the stream not yet drawn. -/
def rand_ceiling_loop (reject reject_multiplier : Nat) :
    List Nat → Except Fault (Nat × List Nat)
  | [] => .error .out_of_draws
  | rand_num :: rest =>
    if rand_num ≥ reject then rand_ceiling_loop reject reject_multiplier rest
    else .ok (rand_num / reject_multiplier, rest)

/-- The function `rand_ceiling` of `confuzz.c`. -/
def rand_ceiling (RAND_MAX : Nat) (ceiling : Nat) (draws : List Nat) :
    Except Fault (Nat × List Nat) :=
  if ceiling = 0 then .error .div_by_zero
  else
    let reject_multiplier := ((RAND_MAX + 1) % UINT_MOD) / ceiling
    let reject := (ceiling * reject_multiplier) % UINT_MOD
    rand_ceiling_loop reject reject_multiplier draws

/-! ## bit_functions.c -/

/-- The `do { weight += HAMMING[num & mask]; } while (num >>= slice_size);`
loop of `hamming_weight`.  `HAMMING` has 65536 entries, `weight` is an
`unsigned char`.  The first argument bounds the number of iterations. -/
def hamming_weight_loop (HAMMING : Nat → Nat) (slice_size mask : Nat) :
    Nat → Nat → Nat → Except Fault Nat
  | 0, _, _ => .error .out_of_fuel
  | fuel + 1, num, weight =>
    if num &&& mask < 65536 then
      let weight := (weight + HAMMING (num &&& mask)) % 256
      let num := num >>> slice_size
      if num ≠ 0 then hamming_weight_loop HAMMING slice_size mask fuel num weight
      else .ok weight
    else .error .out_of_bounds

/-- The function `hamming_weight` of `bit_functions.c`.  The argument is
converted to `unsigned` on entry; `sizeof(unsigned)` is 4.  A 32-bit word is
exhausted after at most 32 shifts by a positive amount, so the budget of 33
iterations runs out only when `slice_size` is 0 and the C loop does not
terminate. -/
def hamming_weight (HAMMING : Nat → Nat) (MAX_LOOKUP_SIZE : Nat) (num : Nat) :
    Except Fault Nat :=
  let num := num % UINT_MOD
  let MAX_LOOKUP_SIZE := if MAX_LOOKUP_SIZE ≥ 4 then 4 - 1 else MAX_LOOKUP_SIZE
  let slice_size := MAX_LOOKUP_SIZE * 8
  let mask := (UINT_MOD - 1) - ((UINT_MOD - 1) <<< slice_size) % UINT_MOD
  hamming_weight_loop HAMMING slice_size mask 33 num 0

/-! ## election.h, election.c -/

/-- The structure `Candidate` of `election.h`. -/
structure Candidate where
  contra : Nat
  medius : Nat
  pro : Nat
  sum_disapproval : Nat
  votes : Nat
  hitler : Nat
  id : Nat
  deriving DecidableEq, Repr, Inhabited

/-- The body of the `for(h = 0; h < num_candidates; h++)` loop of
`compute_candidate_statistics` once `disapproval` has been computed; `h` is
the entry `candidates[h]`.  The result is the updated `*candidate` and the
updated `max_disapproval`.  The comparisons of `(double)disapproval` with
`(double)num_issues/2.0` are exact in double precision and are written as
comparisons of `2 * disapproval` with `num_issues`. -/
def compute_candidate_statistics_body (num_issues disapproval : Nat) (h : Candidate)
    (candidate : Candidate) (max_disapproval : Nat) : Candidate × Nat :=
  let candidate :=
    if 2 * disapproval > num_issues then
      { candidate with contra := (candidate.contra + h.votes) % UINT_MOD }
    else if 2 * disapproval < num_issues then
      { candidate with pro := (candidate.pro + h.votes) % UINT_MOD }
    else
      { candidate with medius := (candidate.medius + h.votes) % UINT_MOD }
  let candidate :=
    if disapproval > max_disapproval then { candidate with hitler := h.id }
    else candidate
  let max_disapproval :=
    if disapproval > max_disapproval then disapproval else max_disapproval
  ({ candidate with
      sum_disapproval :=
        (candidate.sum_disapproval + (disapproval * h.votes) % UINT_MOD) % UINT_MOD },
    max_disapproval)

/-- The `for(h = 0; h < num_candidates; h++)` loop of
`compute_candidate_statistics`, run over the first `num_candidates` entries
of `candidates`. -/
def compute_candidate_statistics_loop (HAMMING : Nat → Nat) (MAX_LOOKUP_SIZE : Nat)
    (num_issues : Nat) : List Candidate → Candidate → Nat → Except Fault Candidate
  | [], candidate, _ => .ok candidate
  | h :: rest, candidate, max_disapproval =>
    match hamming_weight HAMMING MAX_LOOKUP_SIZE (candidate.id ^^^ h.id) with
    | .error e => .error e
    | .ok disapproval =>
      compute_candidate_statistics_loop HAMMING MAX_LOOKUP_SIZE num_issues rest
        (compute_candidate_statistics_body num_issues disapproval h candidate
          max_disapproval).1
        (compute_candidate_statistics_body num_issues disapproval h candidate
          max_disapproval).2

/-- The function `compute_candidate_statistics` of `election.c`; the list
`candidates` holds the `num_candidates` entries the loop ranges over.  When
`candidate` points into `candidates` the loop still reads the same values,
since it reads only `id` and `votes` and writes neither. -/
def compute_candidate_statistics (HAMMING : Nat → Nat) (MAX_LOOKUP_SIZE : Nat)
    (num_issues : Nat) (candidate : Candidate) (candidates : List Candidate) :
    Except Fault Candidate :=
  let candidate :=
    { candidate with
      sum_disapproval := 0, hitler := candidate.id, pro := 0, contra := 0, medius := 0 }
  compute_candidate_statistics_loop HAMMING MAX_LOOKUP_SIZE num_issues candidates
    candidate 0

/-- Reading `candidates[k]`. -/
def read_at (candidates : List Candidate) (k : Nat) : Except Fault Candidate :=
  match candidates[k]? with
  | some c => .ok c
  | none => .error .out_of_bounds

/-- The assignment `candidates[k].id = v`. -/
def write_id (candidates : List Candidate) (k v : Nat) : Except Fault (List Candidate) :=
  match candidates[k]? with
  | some c => .ok (candidates.set k { c with id := v })
  | none => .error .out_of_bounds

/-- The assignment `candidates[k].votes = v`. -/
def write_votes (candidates : List Candidate) (k v : Nat) :
    Except Fault (List Candidate) :=
  match candidates[k]? with
  | some c => .ok (candidates.set k { c with votes := v })
  | none => .error .out_of_bounds

/-- Subtraction of `size_t` values. -/
def size_sub (a b : Nat) : Nat := if b ≤ a then a - b else a + SIZE_MOD - b

/-- Subtraction of `unsigned` values. -/
def uint_sub (a b : Nat) : Nat := if b ≤ a then a - b else a + UINT_MOD - b

/-- State of `perform_election` when its loop is left. -/
structure ElectionState where
  voters_left : Nat
  num_candidates : Nat
  candidates : List Candidate
  draws : List Nat
  deriving DecidableEq, Repr

/-- One pass through the body of the loop of `perform_election`, for loop
counter `i`.  `pool_size-i` is computed in `size_t` and converted to
`unsigned` when it is passed to `rand_ceiling`; `rand_ceiling(..) + i` is an
`unsigned` sum. -/
def perform_election_body (RAND_MAX pool_size : Nat) (i : Nat) (st : ElectionState) :
    Except Fault ElectionState :=
  match rand_ceiling RAND_MAX (size_sub pool_size i % UINT_MOD) st.draws with
  | .error e => .error e
  | .ok (r, draws) =>
    let grab := (r + i) % UINT_MOD
    match read_at st.candidates st.num_candidates with
    | .error e => .error e
    | .ok slot =>
      let toss := slot.id
      match read_at st.candidates grab with
      | .error e => .error e
      | .ok grabbed =>
        match write_id st.candidates st.num_candidates grabbed.id with
        | .error e => .error e
        | .ok candidates =>
          match write_id candidates grab toss with
          | .error e => .error e
          | .ok candidates =>
            match rand_ceiling RAND_MAX ((st.voters_left + 1) % UINT_MOD) draws with
            | .error e => .error e
            | .ok (votes, draws) =>
              if votes ≠ 0 then
                match write_votes candidates st.num_candidates votes with
                | .error e => .error e
                | .ok candidates =>
                  .ok { voters_left := uint_sub st.voters_left votes,
                        num_candidates := st.num_candidates + 1,
                        candidates := candidates, draws := draws }
              else
                .ok { st with candidates := candidates, draws := draws }

/-- The loop `for(i = 0; voters_left && i < pool_size-1; i++)` of
`perform_election`.  `i` is an `unsigned`; `pool_size-1` is computed in
`size_t`.  Every iteration draws from the stream, so a budget of one
iteration per draw (plus one) is never the first to run out. -/
def perform_election_loop (RAND_MAX pool_size : Nat) :
    Nat → Nat → ElectionState → Except Fault ElectionState
  | 0, _, _ => .error .out_of_fuel
  | fuel + 1, i, st =>
    if st.voters_left ≠ 0 ∧ i < size_sub pool_size 1 then
      match perform_election_body RAND_MAX pool_size i st with
      | .error e => .error e
      | .ok st => perform_election_loop RAND_MAX pool_size fuel ((i + 1) % UINT_MOD) st
    else .ok st

/-- The function `perform_election` of `election.c`.  The result holds the
final `*num_candidates`, the array `candidates` and the rest of the stream
(its `voters_left` is the value left when the loop ended). -/
def perform_election (RAND_MAX : Nat) (voters_left pool_size : Nat)
    (candidates : List Candidate) (draws : List Nat) : Except Fault ElectionState :=
  match perform_election_loop RAND_MAX pool_size (draws.length + 1) 0
      { voters_left := voters_left, num_candidates := 0,
        candidates := candidates, draws := draws } with
  | .error e => .error e
  | .ok st =>
    if st.voters_left ≠ 0 then
      match read_at st.candidates (size_sub pool_size 1) with
      | .error e => .error e
      | .ok last =>
        match write_id st.candidates st.num_candidates last.id with
        | .error e => .error e
        | .ok candidates =>
          match write_votes candidates st.num_candidates st.voters_left with
          | .error e => .error e
          | .ok candidates =>
            .ok { st with num_candidates := st.num_candidates + 1, candidates := candidates }
    else .ok st

/-- The active list: the entries `candidates[0..num_candidates-1]`. -/
def ElectionState.active (st : ElectionState) : List Candidate :=
  st.candidates.take st.num_candidates

/-! ## Bit counts, the table `HAMMING` and the platform distance -/

/-- Number of 1 bits among the low `width` bits of `n`. -/
def bit_sum : Nat → Nat → Nat
  | 0, _ => 0
  | width + 1, n => n % 2 + bit_sum width (n / 2)

/-- Population count: the number of 1 bits of `n`. -/
def popcount (n : Nat) : Nat := bit_sum (n.log2 + 1) n

/-- Modelled from the spec: the table `HAMMING`, which is declared in
`hamming_table.h` and defined outside the embedded sources.  The header
documents it as the "Hamming weight lookup table for the integers 0-65535",
so entry `i` is the number of 1 bits of the 16-bit value `i`. -/
def HAMMING_table (i : Nat) : Nat := bit_sum 16 i

/-- The platform distance computed by `compute_candidate_statistics` and by the
two-party loop of `main`: `hamming_weight((a)^(b))`, with 0 standing in when
`hamming_weight` does not return. -/
def distance (HAMMING : Nat → Nat) (MAX_LOOKUP_SIZE : Nat) (a b : Nat) : Nat :=
  match hamming_weight HAMMING MAX_LOOKUP_SIZE (a ^^^ b) with
  | .ok d => d
  | .error _ => 0

/-! ## votesim.c: the tallying part of `main` -/

/-- The entry `candidates[i]` of the active list (`i < num_candidates`). -/
def cand (candidates : List Candidate) (i : Nat) : Candidate :=
  candidates.getD i default

/-- The three winner arrays of `main` with their counts.  An entry of
`elected`, `elected_a` or `elected_h` is a pointer `candidates+i`, kept as the
index `i`. -/
structure Winners where
  elected : Nat → Nat
  num_winners : Nat
  elected_a : Nat → Nat
  num_a_winners : Nat
  elected_h : Nat → Nat
  num_h_winners : Nat

/-- The "approval winners" statements, which occur in both winner loops of
`main` with the same text. -/
def approval_winners_step (candidates : List Candidate) (i : Nat) (w : Winners) : Winners :=
  if (cand candidates i).sum_disapproval
      < (cand candidates (w.elected_a 0)).sum_disapproval then
    { w with elected_a := Function.update w.elected_a 0 i, num_a_winners := 1 }
  else if (cand candidates i).sum_disapproval
      = (cand candidates (w.elected_a 0)).sum_disapproval then
    { w with elected_a := Function.update w.elected_a w.num_a_winners i,
             num_a_winners := w.num_a_winners + 1 }
  else w

/-- The "hitler election winners" statements, which occur in both winner loops
of `main` with the same text. -/
def hitler_winners_step (candidates : List Candidate) (hitler_table : Nat → Nat)
    (i : Nat) (w : Winners) : Winners :=
  if hitler_table (cand candidates i).id
      < hitler_table (cand candidates (w.elected_h 0)).id then
    { w with elected_h := Function.update w.elected_h 0 i, num_h_winners := 1 }
  else if hitler_table (cand candidates i).id
      = hitler_table (cand candidates (w.elected_h 0)).id then
    { w with elected_h := Function.update w.elected_h w.num_h_winners i,
             num_h_winners := w.num_h_winners + 1 }
  else w

/-- The loop `for(i = 1; i < num_candidates; i++)` of `main` that finds the
traditional winners, run over the values `i` still to be visited.  On `break`
the result holds the values of `i` not yet visited, the current one first. -/
def find_winners_first (candidates : List Candidate) (hitler_table : Nat → Nat) :
    List Nat → Winners → List Nat × Winners
  | [], w => ([], w)
  | i :: rest, w =>
    if (cand candidates i).votes = (cand candidates (w.elected 0)).votes then
      let w := { w with elected := Function.update w.elected w.num_winners i,
                        num_winners := w.num_winners + 1 }
      let w := approval_winners_step candidates i w
      let w := hitler_winners_step candidates hitler_table i w
      find_winners_first candidates hitler_table rest w
    else (i :: rest, w)

/-- The loop `for(; i < num_candidates; i++)` of `main` that continues to find
approval winners and hitler election winners. -/
def find_winners_rest (candidates : List Candidate) (hitler_table : Nat → Nat) :
    List Nat → Winners → Winners
  | [], w => w
  | i :: rest, w =>
    find_winners_rest candidates hitler_table rest
      (hitler_winners_step candidates hitler_table i
        (approval_winners_step candidates i w))

/-- The "find election winners" part of `main`; `candidates` is the sorted
active list and `w` holds the previous contents of the three arrays. -/
def find_winners (candidates : List Candidate) (hitler_table : Nat → Nat)
    (w : Winners) : Winners :=
  let w : Winners :=
    { elected := Function.update w.elected 0 0, num_winners := 1,
      elected_a := Function.update w.elected_a 0 0, num_a_winners := 1,
      elected_h := Function.update w.elected_h 0 0, num_h_winners := 1 }
  let first := find_winners_first candidates hitler_table
    (List.range' 1 (candidates.length - 1)) w
  find_winners_rest candidates hitler_table first.1 first.2

/-- The traditional winners `elected[0..num_winners-1]`. -/
def Winners.traditional (w : Winners) : List Nat :=
  (List.range w.num_winners).map w.elected

/-- The approval winners `elected_a[0..num_a_winners-1]`. -/
def Winners.approval (w : Winners) : List Nat :=
  (List.range w.num_a_winners).map w.elected_a

/-- The hitler election winners `elected_h[0..num_h_winners-1]`. -/
def Winners.hitler (w : Winners) : List Nat :=
  (List.range w.num_h_winners).map w.elected_h

/-- The loop `for(i = 0; i < num_issues; i++)` of `main` that builds
`washington.id`, run over the values of `i`.  `population_size -
stance_poll[i]` is computed in `unsigned long`; `1<<i` is a shift of the `int`
1, which is defined only for `i < 31`; the sum is a `size_t`. -/
def find_washington_loop (population_size : Nat) (stance_poll : Nat → Nat) :
    List Nat → Nat → Except Fault Nat
  | [], id => .ok id
  | i :: rest, id =>
    let stance_0 := size_sub population_size (stance_poll i)
    if stance_poll i ≥ stance_0 then
      if i < 31 then
        find_washington_loop population_size stance_poll rest ((id + 2 ^ i) % SIZE_MOD)
      else .error .undefined_shift
    else find_washington_loop population_size stance_poll rest id

/-- The "find washington candidate" part of `main`: the id of the consensus
candidate. -/
def find_washington (population_size num_issues : Nat) (stance_poll : Nat → Nat) :
    Except Fault Nat :=
  find_washington_loop population_size stance_poll (List.range' 0 num_issues) 0

/-- The "record votes" loop of the two-party system election of `main`, run
over the active list; `status_quo_0` and `status_quo_1` are the two entries of
the local array `status_quo`. -/
def two_party_loop (HAMMING : Nat → Nat) (MAX_LOOKUP_SIZE : Nat) :
    List Candidate → Candidate → Candidate → Except Fault (Candidate × Candidate)
  | [], status_quo_0, status_quo_1 => .ok (status_quo_0, status_quo_1)
  | c :: rest, status_quo_0, status_quo_1 =>
    match hamming_weight HAMMING MAX_LOOKUP_SIZE (status_quo_0.id ^^^ c.id) with
    | .error e => .error e
    | .ok disapproval_0 =>
      match hamming_weight HAMMING MAX_LOOKUP_SIZE (status_quo_1.id ^^^ c.id) with
      | .error e => .error e
      | .ok disapproval_1 =>
        if disapproval_0 < disapproval_1 then
          two_party_loop HAMMING MAX_LOOKUP_SIZE rest
            { status_quo_0 with votes := (status_quo_0.votes + c.votes) % UINT_MOD }
            status_quo_1
        else if disapproval_0 > disapproval_1 then
          two_party_loop HAMMING MAX_LOOKUP_SIZE rest status_quo_0
            { status_quo_1 with votes := (status_quo_1.votes + c.votes) % UINT_MOD }
        else
          two_party_loop HAMMING MAX_LOOKUP_SIZE rest status_quo_0 status_quo_1

/-- The two-party system election of `main` up to the sort of the two poles:
the poles (copies of two candidates) have their votes reset and then collect
the votes of the active list. -/
def two_party (HAMMING : Nat → Nat) (MAX_LOOKUP_SIZE : Nat)
    (status_quo_0 status_quo_1 : Candidate) (candidates : List Candidate) :
    Except Fault (Candidate × Candidate) :=
  two_party_loop HAMMING MAX_LOOKUP_SIZE candidates
    { status_quo_0 with votes := 0 } { status_quo_1 with votes := 0 }

/-- The comparator `sort_candidates` of `votesim.c`, applied to the two
`Candidate` structures its arguments point to. -/
def sort_candidates (a b : Candidate) : Int :=
  if a.votes > b.votes then -1
  else if a.votes < b.votes then 1
  else 0

/-- Contract of the C library function `qsort` called with `sort_candidates`:
the output holds the elements of the input, and the comparator orders no
element before one that precedes it.  The order of elements that compare
equal is unspecified. -/
def qsort_result (input output : List Candidate) : Prop :=
  output.Perm input ∧ output.Pairwise (fun a b => sort_candidates a b ≤ 0)

/-- State of the antagonist search of `compute_candidate_statistics` after the
members `pre` of the comparison list: either no member at a positive distance
has been seen and `hitler` still is the candidate's own id `own`, or `hitler`
is the id of the first member of `pre` at the maximal distance `m`. -/
def HitlerInv (D : Candidate → Nat) (own : Nat) (pre : List Candidate)
    (hitler m : Nat) : Prop :=
  (m = 0 ∧ hitler = own ∧ ∀ y ∈ pre, D y = 0) ∨
  (0 < m ∧ ∃ l1 x l2, pre = l1 ++ x :: l2 ∧ hitler = x.id ∧ D x = m ∧
    (∀ y ∈ l1, D y < m) ∧ ∀ y ∈ l2, D y ≤ m)

/-- The tallies and the candidate array that `compute_election_statistics`
works on. -/
structure ElectionStatistics where
  candidates : List Candidate
  stance_poll : Nat → Nat
  hitler_table : Nat → Nat

/-- The loop `for(w = 0; w < num_issues; w++)` of `compute_election_statistics`
for the candidate `c = candidates[i]`, run over the values of `w`.  The id is a
`size_t`, so the shift `id>>w` is defined only for `w < 64`. -/
def stance_poll_loop (c : Candidate) : List Nat → (Nat → Nat) → Except Fault (Nat → Nat)
  | [], stance_poll => .ok stance_poll
  | w :: rest, stance_poll =>
    if w < 64 then
      let stance := ((c.id >>> w) &&& 1) % UINT_MOD
      stance_poll_loop c rest
        (Function.update stance_poll w
          ((stance_poll w + (stance * c.votes) % UINT_MOD) % UINT_MOD))
    else .error .undefined_shift

/-- The loop `for(i = 0; i < num_candidates; i++)` of
`compute_election_statistics`, run over the values of `i`.  The statistics are
written into `candidates[i]`, and `compute_candidate_statistics` is given the
array in its current state. -/
def compute_election_statistics_loop (HAMMING : Nat → Nat) (MAX_LOOKUP_SIZE : Nat)
    (num_issues : Nat) : List Nat → ElectionStatistics → Except Fault ElectionStatistics
  | [], s => .ok s
  | i :: rest, s =>
    match read_at s.candidates i with
    | .error e => .error e
    | .ok c =>
      match compute_candidate_statistics HAMMING MAX_LOOKUP_SIZE num_issues c
          s.candidates with
      | .error e => .error e
      | .ok r =>
        let hitler_table := Function.update s.hitler_table r.hitler
          ((s.hitler_table r.hitler + r.votes) % UINT_MOD)
        match stance_poll_loop r (List.range' 0 num_issues) s.stance_poll with
        | .error e => .error e
        | .ok stance_poll =>
          compute_election_statistics_loop HAMMING MAX_LOOKUP_SIZE num_issues rest
            { candidates := s.candidates.set i r, stance_poll := stance_poll,
              hitler_table := hitler_table }

/-- The function `compute_election_statistics` of `election.c`; the list
`candidates` holds the `num_candidates` entries the function works on. -/
def compute_election_statistics (HAMMING : Nat → Nat) (MAX_LOOKUP_SIZE : Nat)
    (num_issues : Nat) (stance_poll hitler_table : Nat → Nat)
    (candidates : List Candidate) : Except Fault ElectionStatistics :=
  compute_election_statistics_loop HAMMING MAX_LOOKUP_SIZE num_issues
    (List.range' 0 candidates.length)
    { candidates := candidates, stance_poll := stance_poll, hitler_table := hitler_table }

/-- The initialisation `Candidate status_quo[2] = {candidates[0], candidates[1]};`
of the two-party system election of `main`; `candidates` is the whole array of
`pool_size` entries. -/
def status_quo_init (candidates : List Candidate) : Except Fault (Candidate × Candidate) :=
  match read_at candidates 0 with
  | .error e => .error e
  | .ok status_quo_0 =>
    match read_at candidates 1 with
    | .error e => .error e
    | .ok status_quo_1 => .ok (status_quo_0, status_quo_1)

/-- The candidate `c` with the statistics that `compute_candidate_statistics`
gives it against the comparison list `cs` (`c` itself when the call does not
return). -/
def score (HAMMING : Nat → Nat) (MAX_LOOKUP_SIZE num_issues : Nat) (cs : List Candidate)
    (c : Candidate) : Candidate :=
  match compute_candidate_statistics HAMMING MAX_LOOKUP_SIZE num_issues c cs with
  | .ok r => r
  | .error _ => c

/-- Votes of the members of `cs` whose id has bit `w` set: the exact value of
the stance tally for issue `w`. -/
def stance_votes (cs : List Candidate) (w : Nat) : Nat :=
  ((cs.filter fun c => c.id.testBit w).map Candidate.votes).sum

/-- The id and the votes of a candidate, the two fields that the scoring
loops read from a member of the comparison list. -/
def Candidate.ballot (c : Candidate) : Nat × Nat := (c.id, c.votes)

/-- The "perform two-party system election" block of `main` up to the sort of
the two poles, on the array `candidates` with `num_candidates` active entries.
`status_quo` is a local array initialised with copies of `candidates[0]` and
`candidates[1]`, and every assignment of the block is to `status_quo`; the
result is the array `candidates` as the block leaves it together with
`status_quo[0]` and `status_quo[1]`. -/
def two_party_block (HAMMING : Nat → Nat) (MAX_LOOKUP_SIZE : Nat) (num_candidates : Nat)
    (candidates : List Candidate) : Except Fault (List Candidate × Candidate × Candidate) :=
  match status_quo_init candidates with
  | .error e => .error e
  | .ok (status_quo_0, status_quo_1) =>
    match two_party HAMMING MAX_LOOKUP_SIZE status_quo_0 status_quo_1
        (candidates.take num_candidates) with
    | .error e => .error e
    | .ok (status_quo_0, status_quo_1) => .ok (candidates, status_quo_0, status_quo_1)

/-- The `while(num){ num >>= 1; bit_count++; }` loop of `bit_count`;
`bit_count` is an `unsigned char`.  The first argument bounds the number of
iterations. -/
def bit_count_loop : Nat → Nat → Nat → Except Fault Nat
  | 0, _, _ => .error .out_of_fuel
  | fuel + 1, num, bit_count =>
    if num ≠ 0 then bit_count_loop fuel (num >>> 1) ((bit_count + 1) % 256)
    else .ok bit_count

/-- The function `bit_count` of `bit_functions.c`.  The argument is an
`unsigned`; a 32-bit word is zero after at most 32 shifts, so the budget of 33
iterations does not run out. -/
def bit_count (num : Nat) : Except Fault Nat :=
  bit_count_loop 33 (num % UINT_MOD) 0

/-- The computation of `MAX_ISSUES` from `MAX_POPULATION` at the start of
`main`:
`MAX_ISSUES = hamming_weight(MAX_POPULATION);
if((MAX_POPULATION | (MAX_POPULATION>>1)) != MAX_POPULATION)
MAX_ISSUES = bit_count(MAX_POPULATION>>1);`.  `MAX_POPULATION` is an
`unsigned`. -/
def max_issues (HAMMING : Nat → Nat) (MAX_LOOKUP_SIZE : Nat) (MAX_POPULATION : Nat) :
    Except Fault Nat :=
  match hamming_weight HAMMING MAX_LOOKUP_SIZE MAX_POPULATION with
  | .error e => .error e
  | .ok MAX_ISSUES =>
    if (MAX_POPULATION ||| (MAX_POPULATION >>> 1)) ≠ MAX_POPULATION then
      bit_count (MAX_POPULATION >>> 1)
    else .ok MAX_ISSUES

/-- The arguments of the calls of `rand_ceiling` that the loop of
`perform_election` makes, in the order of the calls, for a run started at loop
counter `i` in state `st`: in every pass first `pool_size-i`, then, when that
call has returned, `voters_left+1` (listed also when the embedding stops at an
array access between the two calls); the run goes on with the state that the
loop body returns.  (The part of `perform_election` after the loop makes no
call.) -/
def perform_election_ceilings (RAND_MAX pool_size : Nat) :
    Nat → Nat → ElectionState → List Nat
  | 0, _, _ => []
  | fuel + 1, i, st =>
    if st.voters_left ≠ 0 ∧ i < size_sub pool_size 1 then
      match rand_ceiling RAND_MAX (size_sub pool_size i % UINT_MOD) st.draws with
      | .error _ => [size_sub pool_size i % UINT_MOD]
      | .ok _ =>
        size_sub pool_size i % UINT_MOD :: (st.voters_left + 1) % UINT_MOD ::
          (match perform_election_body RAND_MAX pool_size i st with
           | .error _ => []
           | .ok st => perform_election_ceilings RAND_MAX pool_size fuel
               ((i + 1) % UINT_MOD) st)
    else []

/-! ## votesim.c: one iteration of the simulation loop of `main` -/

/-- The loop `for(i = 0; i < pool_size; i++) candidates[i].id = i;` of `main`,
run over the values of `i`. -/
def init_pool : List Nat → List Candidate → Except Fault (List Candidate)
  | [], candidates => .ok candidates
  | i :: rest, candidates =>
    match write_id candidates i i with
    | .error e => .error e
    | .ok candidates => init_pool rest candidates

/-- The loop `for(i = 0; i < num_candidates; i++)
hitler_table[candidates[i].id] = 0;` of `main`, run over the entries
`candidates[i]` of the active list. -/
def zero_hitler_table : List Candidate → (Nat → Nat) → (Nat → Nat)
  | [], hitler_table => hitler_table
  | c :: rest, hitler_table => zero_hitler_table rest (Function.update hitler_table c.id 0)

/-- The loop `for(i = 0; i < num_issues; i++) stance_poll[i] = 0;` of `main`,
run over the values of `i`. -/
def zero_stance_poll : List Nat → (Nat → Nat) → (Nat → Nat)
  | [], stance_poll => stance_poll
  | i :: rest, stance_poll => zero_stance_poll rest (Function.update stance_poll i 0)

/-- What one iteration of the simulation loop hands to
`print_election_statistics`: `num_candidates`, the sorted active list
`candidates[0..num_candidates-1]` with its statistics, the three winner lists
(as indices into that list), the consensus candidate `washington`, and the
sorted array `status_quo` of the two poles. -/
structure Report where
  num_candidates : Nat
  candidates : List Candidate
  elected : List Nat
  elected_a : List Nat
  elected_h : List Nat
  washington : Candidate
  status_quo : List Candidate
  deriving DecidableEq, Repr

/-- The part of one iteration of the simulation loop of `main` that follows
`perform_election`: the two tallies are zeroed (the hitler table only at the
ids of the active candidates), the statistics are computed, the active list is
sorted, the winners are found, the consensus candidate is built and scored,
and the two-party election is held and its two poles are sorted.  `qsort` is
the C library function with the comparator `sort_candidates`, a parameter;
`washington` is the local variable of that name as it is before its `id` is
assigned; `winners` holds the previous contents of the winner arrays. -/
def main_tally (HAMMING : Nat → Nat) (MAX_LOOKUP_SIZE : Nat)
    (qsort : List Candidate → List Candidate) (population_size num_issues : Nat)
    (washington : Candidate) (st : ElectionState) (hitler_table stance_poll : Nat → Nat)
    (winners : Winners) : Except Fault Report :=
  let hitler_table := zero_hitler_table st.active hitler_table
  let stance_poll := zero_stance_poll (List.range' 0 num_issues) stance_poll
  match compute_election_statistics HAMMING MAX_LOOKUP_SIZE num_issues stance_poll
      hitler_table st.active with
  | .error e => .error e
  | .ok s =>
    let sorted := qsort s.candidates
    let candidates := sorted ++ st.candidates.drop st.num_candidates
    let w := find_winners sorted s.hitler_table winners
    match find_washington population_size num_issues s.stance_poll with
    | .error e => .error e
    | .ok id =>
      match compute_candidate_statistics HAMMING MAX_LOOKUP_SIZE num_issues
          { washington with id := id } sorted with
      | .error e => .error e
      | .ok washington =>
        match two_party_block HAMMING MAX_LOOKUP_SIZE st.num_candidates candidates with
        | .error e => .error e
        | .ok (_, status_quo_0, status_quo_1) =>
          .ok { num_candidates := st.num_candidates, candidates := sorted,
                elected := w.traditional, elected_a := w.approval, elected_h := w.hitler,
                washington := washington,
                status_quo := qsort [status_quo_0, status_quo_1] }

/-- One iteration of the simulation loop of `main` for `num_issues` issues
(`pool_size = 1<<num_issues`), started with the buffers `candidates`,
`hitler_table`, `stance_poll` and the winner arrays as the previous iteration
left them. -/
def main_iteration (RAND_MAX : Nat) (HAMMING : Nat → Nat) (MAX_LOOKUP_SIZE : Nat)
    (qsort : List Candidate → List Candidate) (population_size num_issues : Nat)
    (washington : Candidate) (candidates : List Candidate)
    (hitler_table stance_poll : Nat → Nat) (winners : Winners) (draws : List Nat) :
    Except Fault Report :=
  match init_pool (List.range' 0 (2 ^ num_issues)) candidates with
  | .error e => .error e
  | .ok candidates =>
    match perform_election RAND_MAX population_size (2 ^ num_issues) candidates draws with
    | .error e => .error e
    | .ok st =>
      main_tally HAMMING MAX_LOOKUP_SIZE qsort population_size num_issues washington st
        hitler_table stance_poll winners

/-! ## The allocation procedure in the words of the specification -/

/-- State of the allocation procedure of the specification (§4.3): the voters
still to be distributed, the working array of pool-slot identities, the
`(id, votes)` pairs emitted so far, and the stream of raw draws. -/
structure AllocState where
  voters_left : Nat
  slots : List Nat
  emitted : List (Nat × Nat)
  draws : List Nat
  deriving DecidableEq, Repr

/-- Swap of the identities held by slot `a` and slot `b`. -/
def swap_slots (slots : List Nat) (a b : Nat) : List Nat :=
  (slots.set a (slots.getD b 0)).set b (slots.getD a 0)

/-- One step of the allocation procedure for step counter `i`, with the swap
made between slot `slot` and slot `grab`: "draw `grab = uniform(pool_size - i)
+ i`; swap slot `slot` and slot `grab`; draw `votes = uniform(voters_left + 1)`;
if `votes > 0`, decrement `voters_left` by `votes`, emit
`(identity_at_slot, votes)`, else the slot receives no candidate".  `uniform`
is `rand_ceiling`. -/
def allocate_step (RAND_MAX pool_size : Nat) (slot i : Nat) (st : AllocState) :
    Except Fault AllocState :=
  match rand_ceiling RAND_MAX (pool_size - i) st.draws with
  | .error e => .error e
  | .ok (r, draws) =>
    let grab := r + i
    let slots := swap_slots st.slots slot grab
    match rand_ceiling RAND_MAX (st.voters_left + 1) draws with
    | .error e => .error e
    | .ok (votes, draws) =>
      if votes > 0 then
        .ok { voters_left := st.voters_left - votes, slots := slots,
              emitted := st.emitted ++ [(slots.getD slot 0, votes)], draws := draws }
      else .ok { st with slots := slots, draws := draws }

/-- The same steps with the swap made between the next output slot (the slot
whose index is the number of pairs emitted so far) and slot `grab`. -/
def allocate_compact_loop (RAND_MAX pool_size : Nat) :
    List Nat → AllocState → Except Fault AllocState
  | [], st => .ok st
  | i :: rest, st =>
    if st.voters_left = 0 then .ok st
    else
      match allocate_step RAND_MAX pool_size st.emitted.length i st with
      | .error e => .error e
      | .ok st => allocate_compact_loop RAND_MAX pool_size rest st

/-- The last step of the allocation procedure: "if `voters_left > 0` after the
loop, assign all remaining voters to the final untouched slot as one
additional active candidate". -/
def allocate_finish (pool_size : Nat) (st : AllocState) : List (Nat × Nat) :=
  if st.voters_left > 0 then
    st.emitted ++ [(st.slots.getD (pool_size - 1) 0, st.voters_left)]
  else st.emitted

/-- The procedure that differs from `allocate_reference` in one point: at
every step the swap is between the next output slot and slot `grab`, and the
identity emitted is the one then held by the next output slot. -/
def allocate_compact (RAND_MAX voters_left pool_size : Nat) (slots : List Nat)
    (draws : List Nat) : Except Fault (List (Nat × Nat)) :=
  match allocate_compact_loop RAND_MAX pool_size (List.range' 0 (pool_size - 1))
      { voters_left := voters_left, slots := slots, emitted := [], draws := draws } with
  | .error e => .error e
  | .ok st => .ok (allocate_finish pool_size st)

/-! ## The printed approval value (`election.c`, `print_candidate_statistics`) -/

/-- The divisor `MAX_SUM_DISAPPROVAL = population_size*num_issues` of
`print_candidate_statistics`: a product of two `unsigned` values. -/
def max_sum_disapproval (population_size num_issues : Nat) : Nat :=
  (population_size * num_issues) % UINT_MOD

/-- The value `(1.0-(candidate->sum_disapproval/MAX_SUM_DISAPPROVAL))*100` of
`print_candidate_statistics`, in exact arithmetic: the rounding of the `double`
operations is not represented. -/
def approval (population_size num_issues : Nat) (candidate : Candidate) : ℚ :=
  (1 - (candidate.sum_disapproval : ℚ)
    / (max_sum_disapproval population_size num_issues : ℚ)) * 100

/-! ## Notions used in the proofs -/

/-- The ids held in the first `pool_size` slots are below `pool_size` and
pairwise distinct. -/
def PoolIds (pool_size : Nat) (ids : List Nat) : Prop :=
  (∀ a, a < pool_size → ∃ x, ids[a]? = some x ∧ x < pool_size) ∧
  (∀ a b, a < pool_size → b < pool_size → a ≠ b → ids[a]? ≠ ids[b]?)

/-- One step of a scan that keeps the indices of minimal `key` seen so far in
an array with a count: a strictly smaller key restarts the array, an equal key
is appended. -/
def min_step (key : Nat → Nat) (s : (Nat → Nat) × Nat) (i : Nat) : (Nat → Nat) × Nat :=
  if key i < key (s.1 0) then (Function.update s.1 0 i, 1)
  else if key i = key (s.1 0) then (Function.update s.1 s.2 i, s.2 + 1)
  else s

/-- Invariant of a minimum scan that has visited the indices below `i`: the
array holds, in increasing order, exactly the visited indices of minimal key. -/
def MinInv (key : Nat → Nat) (i : Nat) (s : (Nat → Nat) × Nat) : Prop :=
  1 ≤ s.2 ∧
  (∀ p, p < s.2 → s.1 p < i ∧ key (s.1 p) = key (s.1 0)) ∧
  (∀ k, k < i → key (s.1 0) ≤ key k) ∧
  (∀ k, k < i → key k = key (s.1 0) → ∃ p, p < s.2 ∧ s.1 p = k) ∧
  (∀ p q, p < q → q < s.2 → s.1 p < s.1 q)

/-- The approval part of the winner arrays. -/
def Winners.a_state (w : Winners) : (Nat → Nat) × Nat := (w.elected_a, w.num_a_winners)

/-- The hitler-election part of the winner arrays. -/
def Winners.h_state (w : Winners) : (Nat → Nat) × Nat := (w.elected_h, w.num_h_winners)

/-- The state of `perform_election` seen as a state of the allocation
procedure: the ids held by the array are the slots, and the ids and votes of
the active list are the pairs emitted so far. -/
def ElectionState.alloc (st : ElectionState) : AllocState :=
  { voters_left := st.voters_left, slots := st.candidates.map Candidate.id,
    emitted := st.active.map Candidate.ballot, draws := st.draws }

/-- What two reports of one iteration have in common when they differ at most
in the statistics of one pole: the same `num_candidates`, active list, winner
lists and consensus candidate, and arrays `status_quo` that hold, in some
order, one common pole and a second pole with the same id and the same votes. -/
def Report.agree_up_to_pole_statistics (r1 r2 : Report) : Prop :=
  r2.num_candidates = r1.num_candidates ∧ r2.candidates = r1.candidates ∧
  r2.elected = r1.elected ∧ r2.elected_a = r1.elected_a ∧ r2.elected_h = r1.elected_h ∧
  r2.washington = r1.washington ∧
  ∃ a b1 b2, r1.status_quo.Perm [a, b1] ∧ r2.status_quo.Perm [a, b2] ∧
    b2.id = b1.id ∧ b2.votes = b1.votes

/-! ## Concrete runs used as witnesses -/

/-- The identity pool of `main` for two issues: `candidates[i].id = i` for
`i < 4`, all other fields zero. -/
def pool4 : List Candidate :=
  [⟨0, 0, 0, 0, 0, 0, 0⟩, ⟨0, 0, 0, 0, 0, 0, 1⟩, ⟨0, 0, 0, 0, 0, 0, 2⟩, ⟨0, 0, 0, 0, 0, 0, 3⟩]

/-- A stream of raw draws for `RAND_MAX = 32767`. -/
def draws9 : List Nat := [5, 20000, 9000, 100, 30000, 32767, 1, 2, 3]

/-- State in which `perform_election(10, 4, ..)` returns on `pool4` and
`draws9`: slot 0 keeps id 0 with 6 votes, slot 1 and slot 3 are swapped, and
the 4 trailing voters go to slot 1 with the id copied from slot 3. -/
def run4 : ElectionState :=
  { voters_left := 4, num_candidates := 2,
    candidates :=
      [⟨0, 0, 0, 0, 6, 0, 0⟩, ⟨0, 0, 0, 0, 4, 0, 1⟩, ⟨0, 0, 0, 0, 0, 0, 2⟩, ⟨0, 0, 0, 0, 0, 0, 1⟩],
    draws := [2, 3] }

/-- The active list of the worked scenario for two issues: ids 0, 1 and 3
with 3, 2 and 5 votes, statistics not yet computed. -/
def scenario3 : List Candidate :=
  [⟨0, 0, 0, 0, 3, 0, 0⟩, ⟨0, 0, 0, 0, 2, 0, 1⟩, ⟨0, 0, 0, 0, 5, 0, 3⟩]

/-- A scored active list of five candidates, sorted by votes descending
(5, 5, 3, 2, 2) with `sum_disapproval` 12, 7, 9, 7, 8 and ids 0 to 4. -/
def tally5 : List Candidate :=
  [⟨0, 0, 0, 12, 5, 0, 0⟩, ⟨0, 0, 0, 7, 5, 0, 1⟩, ⟨0, 0, 0, 9, 3, 0, 2⟩,
   ⟨0, 0, 0, 7, 2, 0, 3⟩, ⟨0, 0, 0, 8, 2, 0, 4⟩]

/-- A `hitler_table` for `tally5`: the ids 0 to 4 hold 4, 0, 9, 0 and 4. -/
def tally5_table (id : Nat) : Nat := [4, 0, 9, 0, 4].getD id 0

/-- Winner arrays as an earlier iteration may have left them. -/
def stale_winners : Winners :=
  { elected := fun _ => 3, num_winners := 2, elected_a := fun _ => 4, num_a_winners := 3,
    elected_h := fun _ => 2, num_h_winners := 1 }

/-- The identity pool of `main` for one issue: ids 0 and 1. -/
def pool2 : List Candidate :=
  [⟨0, 0, 0, 0, 0, 0, 0⟩, ⟨0, 0, 0, 0, 0, 0, 1⟩]

/-- State in which `perform_election(1, 2, ..)` returns on `pool2` when both
bounded draws are 1 (raw draws 20000 with `RAND_MAX = 32767`): the single voter
goes to the candidate with id 1, and slot 1 keeps the swapped-out id 0. -/
def run1 : ElectionState :=
  { voters_left := 0, num_candidates := 1,
    candidates := [⟨0, 0, 0, 0, 1, 0, 1⟩, ⟨0, 0, 0, 0, 0, 0, 0⟩],
    draws := [] }

/-- The active list of `run1` after `compute_election_statistics` for one
issue. -/
def scored1 : List Candidate := [⟨0, 0, 1, 0, 1, 1, 1⟩]

/-- An insertion sort with the comparator `sort_candidates`, used as the
library function `qsort` in concrete runs. -/
def insertion_qsort (l : List Candidate) : List Candidate :=
  l.insertionSort (fun a b => sort_candidates a b ≤ 0)

/-- The buffer `candidates` for one issue as an earlier iteration may have
left it: slot 1 holds statistics of an earlier election. -/
def stale_pool2 : List Candidate :=
  [⟨0, 0, 0, 0, 0, 0, 0⟩, ⟨4, 1, 3, 9, 2, 1, 0⟩]

/-- The buffer `candidates` for two issues as an earlier iteration may have
left it. -/
def stale_pool4 : List Candidate :=
  [⟨4, 1, 3, 9, 2, 1, 3⟩, ⟨0, 0, 0, 0, 7, 0, 1⟩, ⟨1, 1, 1, 1, 1, 1, 0⟩, ⟨2, 0, 5, 3, 0, 2, 2⟩]

/-! # Theorems -/

/-! ## Machine arithmetic: helper lemmas -/

theorem uint_mod_lt (num : Nat) : num % UINT_MOD < 2 ^ 32 := Nat.mod_lt _ (by decide)

theorem uint_sub_of_le {a b : Nat} (h : b ≤ a) : uint_sub a b = a - b := by
  simp [uint_sub, h]

theorem size_sub_of_le {a b : Nat} (h : b ≤ a) : size_sub a b = a - b := by
  simp [size_sub, h]

/-! ## Bounded sampling: helper lemmas -/

theorem rand_ceiling_loop_spec (reject m : Nat) (draws : List Nat) (v : Nat)
    (rest : List Nat) (h : rand_ceiling_loop reject m draws = .ok (v, rest)) :
    ∃ r, r < reject ∧ v = r / m ∧ rest.length < draws.length ∧
      ∃ skipped, draws = skipped ++ r :: rest ∧ ∀ x ∈ skipped, reject ≤ x := by
  induction draws with
  | nil => simp [rand_ceiling_loop] at h
  | cons d ds ih =>
    unfold rand_ceiling_loop at h
    by_cases hd : d ≥ reject
    · rw [if_pos hd] at h
      obtain ⟨r, hr, hv, hlen, sk, hsk, hall⟩ := ih h
      refine ⟨r, hr, hv, ?_, d :: sk, ?_, ?_⟩
      · simp only [List.length_cons]; omega
      · simp [hsk]
      · intro x hx
        rcases List.mem_cons.mp hx with rfl | hx
        · exact hd
        · exact hall x hx
    · rw [if_neg hd] at h
      injection h with h
      injection h with h1 h2
      subst h2
      exact ⟨d, by omega, h1.symm, by simp, [], by simp, by simp⟩

theorem rand_ceiling_spec (RAND_MAX ceiling : Nat) (draws : List Nat) (v : Nat)
    (rest : List Nat) (h : rand_ceiling RAND_MAX ceiling draws = .ok (v, rest)) :
    0 < ceiling ∧ v < ceiling ∧ rest.length < draws.length := by
  unfold rand_ceiling at h
  by_cases hc : ceiling = 0
  · simp [hc] at h
  · rw [if_neg hc] at h
    obtain ⟨r, hr, hv, hlen, -⟩ := rand_ceiling_loop_spec _ _ _ _ _ h
    refine ⟨Nat.pos_of_ne_zero hc, ?_, hlen⟩
    have hle : ceiling * ((RAND_MAX + 1) % UINT_MOD / ceiling) ≤ (RAND_MAX + 1) % UINT_MOD :=
      Nat.mul_div_le _ _
    have hlt : (RAND_MAX + 1) % UINT_MOD < UINT_MOD := Nat.mod_lt _ (by decide)
    rw [Nat.mod_eq_of_lt (by omega)] at hr
    have hm : 0 < (RAND_MAX + 1) % UINT_MOD / ceiling := by
      rcases Nat.eq_zero_or_pos ((RAND_MAX + 1) % UINT_MOD / ceiling) with h0 | h0
      · rw [h0] at hr; simp at hr
      · exact h0
    rw [hv]
    exact (Nat.div_lt_iff_lt_mul hm).mpr hr

theorem rand_ceiling_loop_error (reject m : Nat) (draws : List Nat) (e : Fault)
    (h : rand_ceiling_loop reject m draws = .error e) : e = .out_of_draws := by
  induction draws with
  | nil =>
    unfold rand_ceiling_loop at h
    injection h with h
    exact h.symm
  | cons d ds ih =>
    unfold rand_ceiling_loop at h
    split_ifs at h
    exact ih h

/-- `rand_ceiling` fails only by a division by zero or by exhausting the
stream. -/
theorem rand_ceiling_error (RAND_MAX ceiling : Nat) (draws : List Nat) (e : Fault)
    (h : rand_ceiling RAND_MAX ceiling draws = .error e) :
    e = .div_by_zero ∨ e = .out_of_draws := by
  unfold rand_ceiling at h
  split_ifs at h
  · injection h with h
    exact Or.inl h.symm
  · exact Or.inr (rand_ceiling_loop_error _ _ _ _ h)

/-! ## Hamming weight: helper lemmas -/

theorem bit_sum_zero (w : Nat) : bit_sum w 0 = 0 := by
  induction w with
  | zero => rfl
  | succ w ih => simp [bit_sum, ih]

theorem bit_sum_le (w n : Nat) : bit_sum w n ≤ w := by
  induction w generalizing n with
  | zero => simp [bit_sum]
  | succ w ih =>
    have := ih (n / 2)
    have : n % 2 < 2 := Nat.mod_lt _ (by decide)
    simp only [bit_sum]
    omega

/-- Widening the window beyond the size of the number adds no bits. -/
theorem bit_sum_of_lt (w k n : Nat) (h : n < 2 ^ w) : bit_sum (w + k) n = bit_sum w n := by
  induction w generalizing n with
  | zero =>
    have : n = 0 := by simpa using h
    subst this
    simp [bit_sum_zero, bit_sum]
  | succ w ih =>
    have h2 : n / 2 < 2 ^ w := by
      rw [Nat.pow_succ] at h
      omega
    rw [show w + 1 + k = (w + k) + 1 from by omega]
    simp only [bit_sum]
    rw [ih _ h2]

theorem popcount_eq_bit_sum (w n : Nat) (h : n < 2 ^ w) : popcount n = bit_sum w n := by
  have h1 : n < 2 ^ (n.log2 + 1) := Nat.lt_log2_self
  unfold popcount
  rcases Nat.le_total w (n.log2 + 1) with hle | hle
  · obtain ⟨k, hk⟩ := Nat.exists_eq_add_of_le hle
    rw [hk, bit_sum_of_lt w k n h]
  · obtain ⟨k, hk⟩ := Nat.exists_eq_add_of_le hle
    rw [hk, bit_sum_of_lt _ k n h1]

theorem popcount_le (w n : Nat) (h : n < 2 ^ w) : popcount n ≤ w := by
  rw [popcount_eq_bit_sum w n h]
  exact bit_sum_le w n

/-- The bits of a number are those of its low `s` bits and those above. -/
theorem bit_sum_split (s w n : Nat) :
    bit_sum (s + w) n = bit_sum s (n % 2 ^ s) + bit_sum w (n / 2 ^ s) := by
  induction s generalizing n with
  | zero => simp [bit_sum, Nat.mod_one]
  | succ s ih =>
    rw [show s + 1 + w = (s + w) + 1 from by omega]
    simp only [bit_sum]
    rw [ih (n / 2)]
    have e1 : n % 2 ^ (s + 1) % 2 = n % 2 := by
      rw [Nat.pow_succ, Nat.mul_comm]
      exact Nat.mod_mul_right_mod n 2 (2 ^ s)
    have e2 : n % 2 ^ (s + 1) / 2 = n / 2 % 2 ^ s := by
      rw [Nat.pow_succ, Nat.mul_comm, Nat.mod_mul_right_div_self]
    have e3 : n / 2 ^ (s + 1) = n / 2 / 2 ^ s := by
      rw [Nat.pow_succ, Nat.mul_comm, Nat.div_div_eq_div_mul]
    rw [e1, e2, e3]
    omega

theorem popcount_split (s n : Nat) :
    popcount n = popcount (n % 2 ^ s) + popcount (n / 2 ^ s) := by
  have h1 : n < 2 ^ (n.log2 + 1) := Nat.lt_log2_self
  have h2 : n < 2 ^ (s + (n.log2 + 1)) :=
    Nat.lt_of_lt_of_le h1 (Nat.pow_le_pow_right (by decide) (by omega))
  have h3 : n % 2 ^ s < 2 ^ s := Nat.mod_lt _ (Nat.pos_pow_of_pos _ (by decide))
  have h4 : n / 2 ^ s < 2 ^ (n.log2 + 1) :=
    Nat.lt_of_le_of_lt (Nat.div_le_self _ _) h1
  rw [popcount_eq_bit_sum _ n h2, popcount_eq_bit_sum _ _ h3, popcount_eq_bit_sum _ _ h4,
    bit_sum_split]

theorem popcount_zero : popcount 0 = 0 := by
  rw [popcount_eq_bit_sum 0 0 (by decide)]
  rfl

theorem shiftRight_lt_of_lt {num s e : Nat} (hnum : num < 2 ^ e) :
    num >>> s < 2 ^ (e - s) := by
  rw [Nat.shiftRight_eq_div_pow]
  rcases Nat.le_total s e with h | h
  · apply Nat.div_lt_of_lt_mul
    rw [← Nat.pow_add, Nat.add_sub_cancel' h]
    exact hnum
  · have h1 : 2 ^ e ≤ 2 ^ s := Nat.pow_le_pow_right (by decide) h
    rw [Nat.div_eq_of_lt (by omega)]
    exact Nat.pos_pow_of_pos _ (by decide)

theorem shiftRight_eq_zero_of_lt {num s e : Nat} (hnum : num < 2 ^ e) (he : e ≤ s) :
    num >>> s = 0 := by
  have h1 : 2 ^ e ≤ 2 ^ s := Nat.pow_le_pow_right (by decide) he
  rw [Nat.shiftRight_eq_div_pow]
  exact Nat.div_eq_of_lt (by omega)

/-- For a positive slice size and a mask that stays inside the table the loop
of `hamming_weight` returns once the word is exhausted. -/
theorem hamming_weight_loop_ok (HAMMING : Nat → Nat) (s mask : Nat)
    (hmask : mask < 65536) (k num w e : Nat) (hnum : num < 2 ^ e)
    (he : e ≤ s * (k + 1)) :
    ∃ d, hamming_weight_loop HAMMING s mask (k + 1) num w = .ok d := by
  induction k generalizing num w e with
  | zero =>
    unfold hamming_weight_loop
    have hidx : num &&& mask < 65536 := Nat.lt_of_le_of_lt Nat.and_le_right hmask
    have hz : num >>> s = 0 := shiftRight_eq_zero_of_lt hnum (by omega)
    simp [hidx, hz]
  | succ k ih =>
    unfold hamming_weight_loop
    have hidx : num &&& mask < 65536 := Nat.lt_of_le_of_lt Nat.and_le_right hmask
    have hlt : num >>> s < 2 ^ (e - s) := shiftRight_lt_of_lt hnum
    have he' : e - s ≤ s * (k + 1) := by
      have : s * (k + 1 + 1) = s * (k + 1) + s := by ring
      omega
    simp only [hidx, if_true]
    by_cases hz : num >>> s = 0
    · simp [hz]
    · simp only [ne_eq, hz, not_false_eq_true, if_true]
      exact ih _ _ _ hlt he'

/-- With a table that holds bit counts, the loop of `hamming_weight` adds the
bit count of the word to the weight (an `unsigned char`). -/
theorem hamming_weight_loop_popcount (HAMMING : Nat → Nat) (s : Nat)
    (hs16 : s ≤ 16) (htab : ∀ i, i < 65536 → HAMMING i = popcount i)
    (k num w e : Nat) (hnum : num < 2 ^ e) (he : e ≤ s * (k + 1)) :
    hamming_weight_loop HAMMING s (2 ^ s - 1) (k + 1) num w
      = .ok ((w + popcount num) % 256) := by
  have hpow : 2 ^ s ≤ 65536 := by
    have := Nat.pow_le_pow_right (by decide : 1 ≤ 2) hs16
    simpa using this
  have hmod : ∀ n, n % 2 ^ s < 65536 := fun n =>
    Nat.lt_of_lt_of_le (Nat.mod_lt _ (Nat.pos_pow_of_pos _ (by decide))) hpow
  induction k generalizing num w e with
  | zero =>
    unfold hamming_weight_loop
    have hz : num >>> s = 0 := shiftRight_eq_zero_of_lt hnum (by omega)
    have hz' : num / 2 ^ s = 0 := by rw [← Nat.shiftRight_eq_div_pow]; exact hz
    have hsplit := popcount_split s num
    rw [hz', popcount_zero] at hsplit
    rw [Nat.and_pow_two_sub_one_eq_mod]
    simp only [hmod num, if_true, htab _ (hmod num), hz, ne_eq, not_true_eq_false, if_false]
    rw [hsplit]
    simp
  | succ k ih =>
    unfold hamming_weight_loop
    have hlt : num >>> s < 2 ^ (e - s) := shiftRight_lt_of_lt hnum
    have he' : e - s ≤ s * (k + 1) := by
      have : s * (k + 1 + 1) = s * (k + 1) + s := by ring
      omega
    have hsplit := popcount_split s num
    rw [Nat.and_pow_two_sub_one_eq_mod]
    simp only [hmod num, if_true, htab _ (hmod num)]
    by_cases hz : num >>> s = 0
    · have hz' : num / 2 ^ s = 0 := by rw [← Nat.shiftRight_eq_div_pow]; exact hz
      simp only [hz, ne_eq, not_true_eq_false, if_false]
      rw [hsplit, hz', popcount_zero]
      simp
    · simp only [ne_eq, hz, not_false_eq_true, if_true]
      rw [ih _ _ _ hlt he', hsplit, Nat.shiftRight_eq_div_pow]
      congr 1
      omega

/-- The iteration budget of the loop of `hamming_weight` is not what stops it
once the slice size is positive. -/
theorem hamming_weight_loop_fuel (HAMMING : Nat → Nat) (s mask : Nat)
    (k num w e : Nat) (hnum : num < 2 ^ e) (he : e ≤ s * (k + 1)) :
    hamming_weight_loop HAMMING s mask (k + 1) num w ≠ .error .out_of_fuel := by
  induction k generalizing num w e with
  | zero =>
    unfold hamming_weight_loop
    have hz : num >>> s = 0 := shiftRight_eq_zero_of_lt hnum (by omega)
    split_ifs <;> simp_all
  | succ k ih =>
    unfold hamming_weight_loop
    have hlt : num >>> s < 2 ^ (e - s) := shiftRight_lt_of_lt hnum
    have he' : e - s ≤ s * (k + 1) := by
      have : s * (k + 1 + 1) = s * (k + 1) + s := by ring
      omega
    by_cases hidx : num &&& mask < 65536
    · simp only [hidx, if_true]
      by_cases hz : num >>> s = 0
      · simp [hz]
      · simp only [ne_eq, hz, not_false_eq_true, if_true]
        exact ih _ _ _ hlt he'
    · simp [hidx]

/-- `hamming_weight` exhausts its iteration budget only when `MAX_LOOKUP_SIZE`
is 0, the case in which the C loop shifts by 0 bits and does not terminate. -/
theorem hamming_weight_out_of_fuel (HAMMING : Nat → Nat) (MAX_LOOKUP_SIZE num : Nat)
    (h : hamming_weight HAMMING MAX_LOOKUP_SIZE num = .error .out_of_fuel) :
    MAX_LOOKUP_SIZE = 0 := by
  by_contra hne
  unfold hamming_weight at h
  have hs : 32 ≤ (if MAX_LOOKUP_SIZE ≥ 4 then 4 - 1 else MAX_LOOKUP_SIZE) * 8 * (32 + 1) := by
    split_ifs <;> omega
  exact hamming_weight_loop_fuel HAMMING _ _ 32 _ 0 32 (uint_mod_lt num) hs h

/-- `hamming_weight` returns whenever `MAX_LOOKUP_SIZE` is 1 or 2. -/
theorem hamming_weight_ok (HAMMING : Nat → Nat) (MAX_LOOKUP_SIZE : Nat)
    (hM : MAX_LOOKUP_SIZE = 1 ∨ MAX_LOOKUP_SIZE = 2) (num : Nat) :
    ∃ d, hamming_weight HAMMING MAX_LOOKUP_SIZE num = .ok d := by
  unfold hamming_weight
  rcases hM with h | h <;> subst h
  · exact hamming_weight_loop_ok HAMMING 8 _ (by decide) 32 _ 0 32 (uint_mod_lt num)
      (by decide)
  · exact hamming_weight_loop_ok HAMMING 16 _ (by decide) 32 _ 0 32 (uint_mod_lt num)
      (by decide)

/-- With a table that holds bit counts and `MAX_LOOKUP_SIZE` 1 or 2,
`hamming_weight` is the bit count of its argument as an `unsigned`. -/
theorem hamming_weight_eq_popcount (HAMMING : Nat → Nat) (MAX_LOOKUP_SIZE : Nat)
    (hM : MAX_LOOKUP_SIZE = 1 ∨ MAX_LOOKUP_SIZE = 2)
    (htab : ∀ i, i < 65536 → HAMMING i = popcount i) (num : Nat) :
    hamming_weight HAMMING MAX_LOOKUP_SIZE num = .ok (popcount (num % UINT_MOD)) := by
  have hle : popcount (num % UINT_MOD) ≤ 32 := popcount_le 32 _ (uint_mod_lt num)
  have hres : (0 + popcount (num % UINT_MOD)) % 256 = popcount (num % UINT_MOD) := by omega
  unfold hamming_weight
  rcases hM with h | h <;> subst h
  · have := hamming_weight_loop_popcount HAMMING 8 (by decide) htab 32
      (num % UINT_MOD) 0 32 (uint_mod_lt num) (by decide)
    rw [hres] at this
    exact this
  · have := hamming_weight_loop_popcount HAMMING 16 (by decide) htab 32
      (num % UINT_MOD) 0 32 (uint_mod_lt num) (by decide)
    rw [hres] at this
    exact this

/-! ## compute_candidate_statistics: helper lemmas -/

theorem distance_of_ok {HAMMING : Nat → Nat} {MAX_LOOKUP_SIZE a b d : Nat}
    (h : hamming_weight HAMMING MAX_LOOKUP_SIZE (a ^^^ b) = .ok d) :
    distance HAMMING MAX_LOOKUP_SIZE a b = d := by
  simp [distance, h]

/-- The fields of `*candidate` after one pass through the loop body. -/
theorem compute_candidate_statistics_body_spec (num_issues d : Nat) (h c : Candidate)
    (m : Nat) :
    let c' := (compute_candidate_statistics_body num_issues d h c m).1
    c'.id = c.id ∧ c'.votes = c.votes ∧
    c'.contra = (if 2 * d > num_issues then (c.contra + h.votes) % UINT_MOD else c.contra) ∧
    c'.pro = (if 2 * d < num_issues then (c.pro + h.votes) % UINT_MOD else c.pro) ∧
    c'.medius = (if 2 * d = num_issues then (c.medius + h.votes) % UINT_MOD else c.medius) ∧
    c'.sum_disapproval = (c.sum_disapproval + (d * h.votes) % UINT_MOD) % UINT_MOD := by
  unfold compute_candidate_statistics_body
  simp only
  refine ⟨?_, ?_, ?_, ?_, ?_, ?_⟩ <;> split_ifs <;> first | rfl | omega

/-- Closed form of the sums accumulated by the loop of
`compute_candidate_statistics`, started from counters that fit in an
`unsigned`. -/
theorem compute_candidate_statistics_loop_spec (HAMMING : Nat → Nat)
    (MAX_LOOKUP_SIZE num_issues : Nat) (cs : List Candidate) (c : Candidate)
    (m : Nat) (r : Candidate)
    (hc : c.contra < UINT_MOD ∧ c.pro < UINT_MOD ∧ c.medius < UINT_MOD ∧
      c.sum_disapproval < UINT_MOD)
    (h : compute_candidate_statistics_loop HAMMING MAX_LOOKUP_SIZE num_issues cs c m
      = .ok r) :
    r.id = c.id ∧ r.votes = c.votes ∧
    r.contra = (c.contra + (cs.map fun h =>
      if 2 * distance HAMMING MAX_LOOKUP_SIZE c.id h.id > num_issues then h.votes
      else 0).sum) % UINT_MOD ∧
    r.pro = (c.pro + (cs.map fun h =>
      if 2 * distance HAMMING MAX_LOOKUP_SIZE c.id h.id < num_issues then h.votes
      else 0).sum) % UINT_MOD ∧
    r.medius = (c.medius + (cs.map fun h =>
      if 2 * distance HAMMING MAX_LOOKUP_SIZE c.id h.id = num_issues then h.votes
      else 0).sum) % UINT_MOD ∧
    r.sum_disapproval = (c.sum_disapproval + (cs.map fun h =>
      distance HAMMING MAX_LOOKUP_SIZE c.id h.id * h.votes).sum) % UINT_MOD := by
  induction cs generalizing c m with
  | nil =>
    unfold compute_candidate_statistics_loop at h
    injection h with h
    subst h
    obtain ⟨h1, h2, h3, h4⟩ := hc
    simp [Nat.mod_eq_of_lt, h1, h2, h3, h4]
  | cons x rest ih =>
    unfold compute_candidate_statistics_loop at h
    split at h
    · simp at h
    · rename_i d hd
      have hdist := distance_of_ok hd
      have hM : 0 < UINT_MOD := by decide
      obtain ⟨h1, h2, h3, h4⟩ := hc
      obtain ⟨b1, b2, b3, b4, b5, b6⟩ :=
        compute_candidate_statistics_body_spec num_issues d x c m
      obtain ⟨i1, i2, i3, i4, i5, i6⟩ := ih _ _ (by
        rw [b3, b4, b5, b6]
        refine ⟨?_, ?_, ?_, ?_⟩
        · split_ifs <;> first | exact Nat.mod_lt _ hM | assumption
        · split_ifs <;> first | exact Nat.mod_lt _ hM | assumption
        · split_ifs <;> first | exact Nat.mod_lt _ hM | assumption
        · exact Nat.mod_lt _ hM) h
      rw [b1] at i1 i3 i4 i5 i6
      rw [b2] at i2
      rw [b3] at i3
      rw [b4] at i4
      rw [b5] at i5
      rw [b6] at i6
      simp only [List.map_cons, List.sum_cons, hdist]
      refine ⟨i1, i2, ?_, ?_, ?_, ?_⟩
      · rw [i3]; simp only [UINT_MOD]; split_ifs <;> omega
      · rw [i4]; simp only [UINT_MOD]; split_ifs <;> omega
      · rw [i5]; simp only [UINT_MOD]; split_ifs <;> omega
      · rw [i6]; simp only [UINT_MOD]; omega

theorem HAMMING_table_popcount (i : Nat) (h : i < 65536) : HAMMING_table i = popcount i :=
  (popcount_eq_bit_sum 16 i h).symm

theorem compute_candidate_statistics_loop_ok (HAMMING : Nat → Nat)
    (MAX_LOOKUP_SIZE : Nat) (hM : MAX_LOOKUP_SIZE = 1 ∨ MAX_LOOKUP_SIZE = 2)
    (num_issues : Nat) (cs : List Candidate) (c : Candidate) (m : Nat) :
    ∃ r, compute_candidate_statistics_loop HAMMING MAX_LOOKUP_SIZE num_issues cs c m
      = .ok r := by
  induction cs generalizing c m with
  | nil => exact ⟨c, rfl⟩
  | cons x rest ih =>
    obtain ⟨d, hd⟩ := hamming_weight_ok HAMMING MAX_LOOKUP_SIZE hM (c.id ^^^ x.id)
    unfold compute_candidate_statistics_loop
    rw [hd]
    exact ih _ _

/-- `compute_candidate_statistics` returns whenever `MAX_LOOKUP_SIZE` is 1 or 2. -/
theorem compute_candidate_statistics_ok (HAMMING : Nat → Nat)
    (MAX_LOOKUP_SIZE : Nat) (hM : MAX_LOOKUP_SIZE = 1 ∨ MAX_LOOKUP_SIZE = 2)
    (num_issues : Nat) (c : Candidate) (cs : List Candidate) :
    ∃ r, compute_candidate_statistics HAMMING MAX_LOOKUP_SIZE num_issues c cs = .ok r :=
  compute_candidate_statistics_loop_ok HAMMING MAX_LOOKUP_SIZE hM num_issues cs _ 0

/-- Closed form of the sums computed by `compute_candidate_statistics`. -/
theorem compute_candidate_statistics_spec (HAMMING : Nat → Nat)
    (MAX_LOOKUP_SIZE num_issues : Nat) (c : Candidate) (cs : List Candidate)
    (r : Candidate)
    (h : compute_candidate_statistics HAMMING MAX_LOOKUP_SIZE num_issues c cs = .ok r) :
    r.id = c.id ∧ r.votes = c.votes ∧
    r.contra = (cs.map fun h =>
      if 2 * distance HAMMING MAX_LOOKUP_SIZE c.id h.id > num_issues then h.votes
      else 0).sum % UINT_MOD ∧
    r.pro = (cs.map fun h =>
      if 2 * distance HAMMING MAX_LOOKUP_SIZE c.id h.id < num_issues then h.votes
      else 0).sum % UINT_MOD ∧
    r.medius = (cs.map fun h =>
      if 2 * distance HAMMING MAX_LOOKUP_SIZE c.id h.id = num_issues then h.votes
      else 0).sum % UINT_MOD ∧
    r.sum_disapproval = (cs.map fun h =>
      distance HAMMING MAX_LOOKUP_SIZE c.id h.id * h.votes).sum % UINT_MOD := by
  unfold compute_candidate_statistics at h
  have hM : 0 < UINT_MOD := by decide
  obtain ⟨h1, h2, h3, h4, h5, h6⟩ := compute_candidate_statistics_loop_spec HAMMING
    MAX_LOOKUP_SIZE num_issues cs _ 0 r ⟨hM, hM, hM, hM⟩ h
  simp only [Nat.zero_add] at h3 h4 h5 h6
  exact ⟨h1, h2, h3, h4, h5, h6⟩

/-- Every member's votes fall in exactly one of the three buckets. -/
theorem buckets_partition (D : Candidate → Nat) (num_issues : Nat) (cs : List Candidate) :
    (cs.map fun h => if 2 * D h > num_issues then h.votes else 0).sum
      + (cs.map fun h => if 2 * D h < num_issues then h.votes else 0).sum
      + (cs.map fun h => if 2 * D h = num_issues then h.votes else 0).sum
      = (cs.map Candidate.votes).sum := by
  induction cs with
  | nil => rfl
  | cons x rest ih =>
    simp only [List.map_cons, List.sum_cons]
    split_ifs <;> omega

theorem weighted_sum_le (D : Candidate → Nat) (bound : Nat) (cs : List Candidate)
    (h : ∀ x ∈ cs, D x ≤ bound) :
    (cs.map fun x => D x * x.votes).sum ≤ (cs.map Candidate.votes).sum * bound := by
  induction cs with
  | nil => simp
  | cons x rest ih =>
    simp only [List.map_cons, List.sum_cons]
    have h1 := ih (fun y hy => h y (List.mem_cons_of_mem _ hy))
    have h2 : D x * x.votes ≤ x.votes * bound := by
      rw [Nat.mul_comm]
      exact Nat.mul_le_mul_left _ (h x (List.mem_cons_self _ _))
    rw [Nat.add_mul]
    omega

/-- With a table of bit counts the distance between two ids below
`2 ^ num_issues` is at most `num_issues`. -/
theorem distance_le (HAMMING : Nat → Nat) (MAX_LOOKUP_SIZE : Nat)
    (hM : MAX_LOOKUP_SIZE = 1 ∨ MAX_LOOKUP_SIZE = 2)
    (htab : ∀ i, i < 65536 → HAMMING i = popcount i) (num_issues a b : Nat)
    (ha : a < 2 ^ num_issues) (hb : b < 2 ^ num_issues) :
    distance HAMMING MAX_LOOKUP_SIZE a b = popcount ((a ^^^ b) % UINT_MOD) ∧
      distance HAMMING MAX_LOOKUP_SIZE a b ≤ num_issues := by
  have h := hamming_weight_eq_popcount HAMMING MAX_LOOKUP_SIZE hM htab (a ^^^ b)
  have hd := distance_of_ok h
  refine ⟨hd, ?_⟩
  rw [hd]
  apply popcount_le
  exact Nat.lt_of_le_of_lt (Nat.mod_le _ _) (Nat.xor_lt_two_pow ha hb)

/-! ## Arrays of candidates: helper lemmas -/

theorem set_same {α : Type} (l : List α) (k : Nat) (a : α) (h : l[k]? = some a) :
    l.set k a = l := by
  apply List.ext_getElem?
  intro j
  rw [List.getElem?_set]
  by_cases hj : k = j
  · subst hj
    obtain ⟨hk, -⟩ := List.getElem?_eq_some.mp h
    simp [hk, h]
  · simp [hj]

theorem read_at_ok {l : List Candidate} {k : Nat} {c : Candidate}
    (h : read_at l k = .ok c) : l[k]? = some c := by
  unfold read_at at h
  split at h
  · injection h with h; subst h; assumption
  · simp at h

theorem write_id_ok {l l' : List Candidate} {k v : Nat}
    (h : write_id l k v = .ok l') :
    k < l.length ∧ l'.map Candidate.id = (l.map Candidate.id).set k v ∧
      l'.map Candidate.votes = l.map Candidate.votes := by
  unfold write_id at h
  split at h
  · rename_i c hc
    injection h with h
    subst h
    obtain ⟨hk, -⟩ := List.getElem?_eq_some.mp hc
    refine ⟨hk, by simp [List.map_set], ?_⟩
    rw [List.map_set]
    exact set_same _ _ _ (by simp [List.getElem?_map, hc])
  · simp at h

theorem write_votes_ok {l l' : List Candidate} {k v : Nat}
    (h : write_votes l k v = .ok l') :
    k < l.length ∧ l'.map Candidate.votes = (l.map Candidate.votes).set k v ∧
      l'.map Candidate.id = l.map Candidate.id := by
  unfold write_votes at h
  split at h
  · rename_i c hc
    injection h with h
    subst h
    obtain ⟨hk, -⟩ := List.getElem?_eq_some.mp hc
    refine ⟨hk, by simp [List.map_set], ?_⟩
    rw [List.map_set]
    exact set_same _ _ _ (by simp [List.getElem?_map, hc])
  · simp at h

theorem read_at_error {l : List Candidate} {k : Nat} {e : Fault}
    (h : read_at l k = .error e) : e = .out_of_bounds := by
  unfold read_at at h
  split at h
  · simp at h
  · injection h with h; exact h.symm

theorem write_id_error {l : List Candidate} {k v : Nat} {e : Fault}
    (h : write_id l k v = .error e) : e = .out_of_bounds := by
  unfold write_id at h
  split at h
  · simp at h
  · injection h with h; exact h.symm

theorem write_votes_error {l : List Candidate} {k v : Nat} {e : Fault}
    (h : write_votes l k v = .error e) : e = .out_of_bounds := by
  unfold write_votes at h
  split at h
  · simp at h
  · injection h with h; exact h.symm

/-! ## perform_election: helper lemmas -/

/-- What one successful pass through the loop body does, in terms of the
lists of ids and of votes held by the array. -/
theorem perform_election_body_spec {RAND_MAX pool_size i : Nat} {st st' : ElectionState}
    (h : perform_election_body RAND_MAX pool_size i st = .ok st') :
    ∃ r draws1 votes t g,
      rand_ceiling RAND_MAX (size_sub pool_size i % UINT_MOD) st.draws = .ok (r, draws1) ∧
      rand_ceiling RAND_MAX ((st.voters_left + 1) % UINT_MOD) draws1 = .ok (votes, st'.draws) ∧
      (st.candidates.map Candidate.id)[st.num_candidates]? = some t ∧
      (st.candidates.map Candidate.id)[(r + i) % UINT_MOD]? = some g ∧
      st'.candidates.map Candidate.id =
        ((st.candidates.map Candidate.id).set st.num_candidates g).set ((r + i) % UINT_MOD) t ∧
      st'.candidates.map Candidate.votes =
        (if votes ≠ 0 then (st.candidates.map Candidate.votes).set st.num_candidates votes
         else st.candidates.map Candidate.votes) ∧
      st'.voters_left = (if votes ≠ 0 then uint_sub st.voters_left votes else st.voters_left) ∧
      st'.num_candidates = (if votes ≠ 0 then st.num_candidates + 1 else st.num_candidates) := by
  unfold perform_election_body at h
  split at h
  · simp at h
  · rename_i r draws1 hr
    simp only at h
    split at h
    · simp at h
    · rename_i slot hslot
      split at h
      · simp at h
      · rename_i grabbed hgrabbed
        split at h
        · simp at h
        · rename_i c1 hc1
          split at h
          · simp at h
          · rename_i c2 hc2
            split at h
            · simp at h
            · rename_i votes draws2 hv
              have hslot' := read_at_ok hslot
              have hgrabbed' := read_at_ok hgrabbed
              obtain ⟨-, hi1, hv1⟩ := write_id_ok hc1
              obtain ⟨-, hi2, hv2⟩ := write_id_ok hc2
              have e1 : (st.candidates.map Candidate.id)[st.num_candidates]? = some slot.id := by
                simp [List.getElem?_map, hslot']
              have e2 : (st.candidates.map Candidate.id)[(r + i) % UINT_MOD]? =
                  some grabbed.id := by
                simp [List.getElem?_map, hgrabbed']
              by_cases hv0 : votes ≠ 0
              · rw [if_pos hv0] at h
                split at h
                · simp at h
                · rename_i c3 hc3
                  obtain ⟨-, hv3, hi3⟩ := write_votes_ok hc3
                  injection h with h
                  subst h
                  refine ⟨r, draws1, votes, slot.id, grabbed.id, hr, hv, e1, e2, ?_, ?_, ?_, ?_⟩
                  · simp only [hi3, hi2, hi1]
                  · simp only [hv3, hv2, hv1, if_pos hv0]
                  · simp only [if_pos hv0]
                  · simp only [if_pos hv0]
              · rw [if_neg hv0] at h
                injection h with h
                subst h
                refine ⟨r, draws1, votes, slot.id, grabbed.id, hr, hv, e1, e2, ?_, ?_, ?_, ?_⟩
                · simp only [hi2, hi1]
                · simp only [hv2, hv1, if_neg hv0]
                · simp only [if_neg hv0]
                · simp only [if_neg hv0]

/-- Invariant rule for the loop of `perform_election`: a predicate on the loop
counter and the state that holds on entry and is preserved by every pass
through the body holds when the loop is left, where the loop condition is
false. -/
theorem perform_election_loop_invariant {RAND_MAX pool_size : Nat}
    (P : Nat → ElectionState → Prop)
    (hstep : ∀ i st st', P i st → st.voters_left ≠ 0 → i < size_sub pool_size 1 →
      perform_election_body RAND_MAX pool_size i st = .ok st' →
      P ((i + 1) % UINT_MOD) st')
    (fuel i : Nat) (st fin : ElectionState) (h0 : P i st)
    (h : perform_election_loop RAND_MAX pool_size fuel i st = .ok fin) :
    ∃ j, P j fin ∧ ¬ (fin.voters_left ≠ 0 ∧ j < size_sub pool_size 1) := by
  induction fuel generalizing i st with
  | zero => simp [perform_election_loop] at h
  | succ fuel ih =>
    unfold perform_election_loop at h
    by_cases hc : st.voters_left ≠ 0 ∧ i < size_sub pool_size 1
    · rw [if_pos hc] at h
      split at h
      · simp at h
      · rename_i st' hb
        exact ih _ _ (hstep i st st' h0 hc.1 hc.2 hb) h
    · rw [if_neg hc] at h
      injection h with h
      subst h
      exact ⟨i, h0, hc⟩

/-- The loop body never reports an exhausted iteration budget. -/
theorem perform_election_body_fuel {RAND_MAX pool_size i : Nat} {st : ElectionState} :
    perform_election_body RAND_MAX pool_size i st ≠ .error .out_of_fuel := by
  intro h
  unfold perform_election_body at h
  split at h
  · rename_i e he
    injection h with h
    subst h
    rcases rand_ceiling_error _ _ _ _ he with h | h <;> cases h
  · dsimp only at h
    split at h
    · rename_i e he
      injection h with h
      subst h
      cases read_at_error he
    · split at h
      · rename_i e he
        injection h with h
        subst h
        cases read_at_error he
      · split at h
        · rename_i e he
          injection h with h
          subst h
          cases write_id_error he
        · split at h
          · rename_i e he
            injection h with h
            subst h
            cases write_id_error he
          · split at h
            · rename_i e he
              injection h with h
              subst h
              rcases rand_ceiling_error _ _ _ _ he with h | h <;> cases h
            · split_ifs at h
              split at h
              · rename_i e he
                injection h with h
                subst h
                cases write_votes_error he
              · simp at h

/-- Every pass through the loop body of `perform_election` draws from the
stream. -/
theorem perform_election_body_draws {RAND_MAX pool_size i : Nat} {st st' : ElectionState}
    (h : perform_election_body RAND_MAX pool_size i st = .ok st') :
    st'.draws.length < st.draws.length := by
  obtain ⟨r, draws1, votes, t, g, hr, hv, -⟩ := perform_election_body_spec h
  have h1 := (rand_ceiling_spec _ _ _ _ _ hr).2.2
  have h2 := (rand_ceiling_spec _ _ _ _ _ hv).2.2
  omega

/-- With one iteration per draw (plus one) the iteration budget of the loop of
`perform_election` is never what stops it. -/
theorem perform_election_loop_fuel {RAND_MAX pool_size : Nat} (fuel i : Nat)
    (st : ElectionState) (h : st.draws.length < fuel) :
    perform_election_loop RAND_MAX pool_size fuel i st ≠ .error .out_of_fuel := by
  induction fuel generalizing i st with
  | zero => omega
  | succ fuel ih =>
    unfold perform_election_loop
    split_ifs
    · split
      · rename_i e he
        intro h'
        injection h' with h'
        subst h'
        exact perform_election_body_fuel he
      · rename_i st' hb
        have := perform_election_body_draws hb
        exact ih _ _ (by omega)
    · simp

theorem take_set_self {α : Type} (l : List α) (n : Nat) (a : α) :
    (l.set n a).take n = l.take n := by
  apply List.ext_getElem?
  intro j
  by_cases hj : j < n
  · rw [List.getElem?_take_of_lt hj, List.getElem?_take_of_lt hj,
      List.getElem?_set_ne (by omega)]
  · simp [List.getElem?_take_eq_none (Nat.le_of_not_lt hj)]

theorem sum_take_succ_set (l : List Nat) (n v : Nat) (hn : n < l.length) :
    ((l.set n v).take (n + 1)).sum = (l.take n).sum + v := by
  rw [List.sum_take_succ _ _ (by simpa using hn), take_set_self]
  simp

theorem rand_ceiling_le {RAND_MAX n : Nat} {draws rest : List Nat} {v : Nat}
    (h : rand_ceiling RAND_MAX ((n + 1) % UINT_MOD) draws = .ok (v, rest)) : v ≤ n := by
  have h1 := (rand_ceiling_spec _ _ _ _ _ h).2.1
  have h2 : (n + 1) % UINT_MOD ≤ n + 1 := Nat.mod_le _ _
  omega

/-- The votes of the emitted candidates and the voters still to be placed add
up to the original number of voters throughout the loop. -/
theorem perform_election_loop_votes {RAND_MAX pool_size : Nat} (total : Nat)
    (fuel i : Nat) (st fin : ElectionState)
    (h0 : ((st.candidates.map Candidate.votes).take st.num_candidates).sum
      + st.voters_left = total)
    (h : perform_election_loop RAND_MAX pool_size fuel i st = .ok fin) :
    ((fin.candidates.map Candidate.votes).take fin.num_candidates).sum
      + fin.voters_left = total := by
  have hstep : ∀ i st st',
      ((st.candidates.map Candidate.votes).take st.num_candidates).sum
        + st.voters_left = total →
      st.voters_left ≠ 0 → i < size_sub pool_size 1 →
      perform_election_body RAND_MAX pool_size i st = .ok st' →
      ((st'.candidates.map Candidate.votes).take st'.num_candidates).sum
        + st'.voters_left = total := by
    intro i st st' hP _ _ hb
    obtain ⟨r, draws1, votes, t, g, -, hv, ht, -, -, hvotes, hvl, hn⟩ :=
      perform_election_body_spec hb
    have hle := rand_ceiling_le hv
    have hlen : st.num_candidates < (st.candidates.map Candidate.votes).length := by
      obtain ⟨hk, -⟩ := List.getElem?_eq_some.mp ht
      simpa using hk
    by_cases hv0 : votes ≠ 0
    · simp only [if_pos hv0] at hvotes hvl hn
      simp only [hvotes, hvl, hn]
      rw [sum_take_succ_set _ _ _ hlen, uint_sub_of_le hle]
      omega
    · simp only [if_neg hv0] at hvotes hvl hn
      simp only [hvotes, hvl, hn]
      exact hP
  obtain ⟨j, hj, -⟩ := perform_election_loop_invariant
    (fun _ s => ((s.candidates.map Candidate.votes).take s.num_candidates).sum
      + s.voters_left = total) hstep fuel i st fin h0 h
  exact hj

theorem getElem?_swap (ids : List Nat) (n grab t g : Nat)
    (ht : ids[n]? = some t) (hg : ids[grab]? = some g) (k : Nat) :
    ((ids.set n g).set grab t)[k]? =
      ids[if k = grab then n else if k = n then grab else k]? := by
  obtain ⟨hn, -⟩ := List.getElem?_eq_some.mp ht
  obtain ⟨hgr, -⟩ := List.getElem?_eq_some.mp hg
  rw [List.getElem?_set, List.getElem?_set]
  by_cases h1 : k = grab
  · subst h1
    simp [hgr, ht]
  · by_cases h2 : k = n
    · subst h2
      simp [h1, Ne.symm h1, hn, hg]
    · simp [h1, h2, Ne.symm h1, Ne.symm h2]

theorem PoolIds_swap {pool_size : Nat} {ids : List Nat} (h : PoolIds pool_size ids)
    (n grab t g : Nat) (hn : n < pool_size) (hgr : grab < pool_size)
    (ht : ids[n]? = some t) (hg : ids[grab]? = some g) :
    PoolIds pool_size ((ids.set n g).set grab t) := by
  have hσ : ∀ k, k < pool_size →
      (if k = grab then n else if k = n then grab else k) < pool_size := by
    intro k hk
    split_ifs <;> assumption
  constructor
  · intro a ha
    rw [getElem?_swap ids n grab t g ht hg]
    exact h.1 _ (hσ a ha)
  · intro a b ha hb hab
    rw [getElem?_swap ids n grab t g ht hg, getElem?_swap ids n grab t g ht hg]
    apply h.2 _ _ (hσ a ha) (hσ b hb)
    split_ifs <;> omega

/-- Loop invariant of `perform_election` for a non-empty pool: the number of
emitted candidates is at most the loop counter, the counter has not wrapped
and is below `pool_size`, and the slots still hold pairwise distinct ids. -/
theorem perform_election_loop_ids {RAND_MAX pool_size : Nat} (hpool : 1 ≤ pool_size)
    (fuel i : Nat) (st fin : ElectionState)
    (h0 : st.num_candidates ≤ i ∧ i ≤ pool_size % UINT_MOD ∧ i + 1 ≤ pool_size ∧
      PoolIds pool_size (st.candidates.map Candidate.id))
    (h : perform_election_loop RAND_MAX pool_size fuel i st = .ok fin) :
    fin.num_candidates + 1 ≤ pool_size ∧
      PoolIds pool_size (fin.candidates.map Candidate.id) := by
  have hstep : ∀ i st st',
      (st.num_candidates ≤ i ∧ i ≤ pool_size % UINT_MOD ∧ i + 1 ≤ pool_size ∧
        PoolIds pool_size (st.candidates.map Candidate.id)) →
      st.voters_left ≠ 0 → i < size_sub pool_size 1 →
      perform_election_body RAND_MAX pool_size i st = .ok st' →
      (st'.num_candidates ≤ (i + 1) % UINT_MOD ∧
        (i + 1) % UINT_MOD ≤ pool_size % UINT_MOD ∧
        (i + 1) % UINT_MOD + 1 ≤ pool_size ∧
        PoolIds pool_size (st'.candidates.map Candidate.id)) := by
    intro i st st' ⟨hn, hi, hi1, hids⟩ _ hlt hb
    obtain ⟨r, draws1, votes, t, g, hr, -, ht, hg, hids', -, -, hn'⟩ :=
      perform_election_body_spec hb
    obtain ⟨hc0, hrc, -⟩ := rand_ceiling_spec _ _ _ _ _ hr
    rw [size_sub_of_le hpool] at hlt
    rw [size_sub_of_le (by omega : i ≤ pool_size)] at hc0 hrc
    simp only [UINT_MOD] at *
    have e1 : (r + i) % 2 ^ 32 = r + i := by omega
    have e2 : (i + 1) % 2 ^ 32 = i + 1 := by omega
    rw [e2]
    rw [e1] at hg hids'
    refine ⟨?_, by omega, by omega, ?_⟩
    · rw [hn']; split_ifs <;> omega
    · rw [hids']
      exact PoolIds_swap hids _ _ _ _ (by omega) (by omega) ht hg
  obtain ⟨j, ⟨hn, -, hj, hids⟩, -⟩ := perform_election_loop_invariant
    (fun i s => s.num_candidates ≤ i ∧ i ≤ pool_size % UINT_MOD ∧ i + 1 ≤ pool_size ∧
      PoolIds pool_size (s.candidates.map Candidate.id)) hstep fuel i st fin h0 h
  exact ⟨by omega, hids⟩

/-- With an empty pool the loop of `perform_election` returns only when there
are no voters, and then emits nothing. -/
theorem perform_election_loop_empty_pool {RAND_MAX : Nat}
    (fuel : Nat) (st fin : ElectionState)
    (h : perform_election_loop RAND_MAX 0 fuel 0 st = .ok fin) :
    fin = st ∧ st.voters_left = 0 := by
  cases fuel with
  | zero => simp [perform_election_loop] at h
  | succ fuel =>
    unfold perform_election_loop at h
    by_cases hc : st.voters_left ≠ 0 ∧ 0 < size_sub 0 1
    · rw [if_pos hc] at h
      have hb : perform_election_body RAND_MAX 0 0 st = .error .div_by_zero := by
        simp [perform_election_body, size_sub, rand_ceiling]
      rw [hb] at h
      simp at h
    · rw [if_neg hc] at h
      injection h with h
      refine ⟨h.symm, ?_⟩
      have : 0 < size_sub 0 1 := by decide
      by_contra hv
      exact hc ⟨hv, this⟩

theorem PoolIds_take {pool_size : Nat} {ids : List Nat} (h : PoolIds pool_size ids)
    (n : Nat) (hn : n ≤ pool_size) :
    (ids.take n).Nodup ∧ ∀ x ∈ ids.take n, x < pool_size := by
  constructor
  · rw [List.nodup_iff_getElem?_ne_getElem?]
    intro a b hab hb
    have hb' : b < n := by
      have := List.length_take n ids
      omega
    rw [List.getElem?_take_of_lt (by omega), List.getElem?_take_of_lt hb']
    exact h.2 a b (by omega) (by omega) (by omega)
  · intro x hx
    obtain ⟨k, hk⟩ := List.mem_iff_getElem?.mp hx
    rw [List.getElem?_take] at hk
    split at hk
    · obtain ⟨y, hy, hlt⟩ := h.1 k (by omega)
      rw [hy] at hk
      injection hk with hk
      omega
    · simp at hk

/-- The trailing candidate: copying the id of the last slot into slot `n`
keeps the first `n + 1` ids pairwise distinct. -/
theorem PoolIds_take_trailing {pool_size : Nat} {ids : List Nat} (h : PoolIds pool_size ids)
    (n last : Nat) (hn : n + 1 ≤ pool_size) (hlast : ids[pool_size - 1]? = some last) :
    ((ids.set n last).take (n + 1)).Nodup ∧
      ∀ x ∈ (ids.set n last).take (n + 1), x < pool_size := by
  obtain ⟨y, hy, -⟩ := h.1 n (by omega)
  obtain ⟨hnlen, -⟩ := List.getElem?_eq_some.mp hy
  have hself : (ids.set n last)[n]? = ids[pool_size - 1]? := by
    rw [List.getElem?_set]; simp [hnlen, hlast]
  constructor
  · rw [List.nodup_iff_getElem?_ne_getElem?]
    intro a b hab hb
    have hb' : b < n + 1 := by
      have := List.length_take (n + 1) (ids.set n last)
      omega
    rw [List.getElem?_take_of_lt (by omega), List.getElem?_take_of_lt hb',
      List.getElem?_set_ne (by omega)]
    by_cases hbn : b = n
    · subst hbn
      rw [hself]
      exact h.2 a (pool_size - 1) (by omega) (by omega) (by omega)
    · rw [List.getElem?_set_ne (by omega)]
      exact h.2 a b (by omega) (by omega) (by omega)
  · intro x hx
    obtain ⟨k, hk⟩ := List.mem_iff_getElem?.mp hx
    rw [List.getElem?_take] at hk
    split at hk
    · by_cases hkn : k = n
      · subst hkn
        rw [hself] at hk
        obtain ⟨z, hz, hlt⟩ := h.1 (pool_size - 1) (by omega)
        rw [hz] at hk
        injection hk with hk
        omega
      · rw [List.getElem?_set_ne (by omega)] at hk
        obtain ⟨z, hz, hlt⟩ := h.1 k (by omega)
        rw [hz] at hk
        injection hk with hk
        omega
    · simp at hk

/-- On return the votes of the emitted candidates sum to the original number
of voters. -/
theorem perform_election_votes (RAND_MAX voters_left pool_size : Nat)
    (candidates : List Candidate) (draws : List Nat) (st : ElectionState)
    (hret : perform_election RAND_MAX voters_left pool_size candidates draws = .ok st) :
    (st.active.map Candidate.votes).sum = voters_left := by
  unfold perform_election at hret
  split at hret
  · simp at hret
  · rename_i fin hloop
    have hinv := perform_election_loop_votes voters_left _ _ _ _ (by simp) hloop
    by_cases hvl : fin.voters_left ≠ 0
    · rw [if_pos hvl] at hret
      split at hret
      · simp at hret
      · split at hret
        · simp at hret
        · rename_i c1 hc1
          split at hret
          · simp at hret
          · rename_i c2 hc2
            injection hret with hret
            subst hret
            obtain ⟨hk, -, hv1⟩ := write_id_ok hc1
            obtain ⟨-, hv2, -⟩ := write_votes_ok hc2
            simp only [ElectionState.active, ← List.map_take] 
            rw [show (List.map Candidate.votes (List.take (fin.num_candidates + 1) c2))
              = List.take (fin.num_candidates + 1) (List.map Candidate.votes c2) from by
                rw [List.map_take]]
            rw [hv2, hv1, sum_take_succ_set _ _ _ (by simpa using hk)]
            exact hinv
    · rw [if_neg hvl] at hret
      injection hret with hret
      subst hret
      have : fin.voters_left = 0 := by simpa using hvl
      simp only [ElectionState.active, List.map_take]
      omega

/-- Started from the identity pool, on return the emitted ids are pairwise
distinct and below `pool_size`. -/
theorem perform_election_ids (RAND_MAX voters_left pool_size : Nat)
    (candidates : List Candidate) (draws : List Nat) (st : ElectionState)
    (hid : ∀ k, k < pool_size → (candidates.map Candidate.id)[k]? = some k)
    (hret : perform_election RAND_MAX voters_left pool_size candidates draws = .ok st) :
    (st.active.map Candidate.id).Nodup ∧ ∀ x ∈ st.active.map Candidate.id, x < pool_size := by
  have hpool0 : PoolIds pool_size (candidates.map Candidate.id) := by
    constructor
    · intro a ha
      exact ⟨a, hid a ha, ha⟩
    · intro a b ha hb hab
      rw [hid a ha, hid b hb]
      simpa using hab
  unfold perform_election at hret
  split at hret
  · simp at hret
  · rename_i fin hloop
    rcases Nat.eq_zero_or_pos pool_size with hz | hpos
    · subst hz
      obtain ⟨hfin, hvl⟩ := perform_election_loop_empty_pool _ _ _ hloop
      subst hfin
      have hvl' : voters_left = 0 := hvl
      subst hvl'
      simp only [ne_eq, not_true_eq_false, if_false] at hret
      injection hret with hret
      subst hret
      simp [ElectionState.active]
    · obtain ⟨hn, hids⟩ := perform_election_loop_ids hpos _ _ _ _
        ⟨Nat.le_refl 0, Nat.zero_le _, hpos, hpool0⟩ hloop
      by_cases hvl : fin.voters_left ≠ 0
      · rw [if_pos hvl] at hret
        split at hret
        · simp at hret
        · rename_i last hlast
          split at hret
          · simp at hret
          · rename_i c1 hc1
            split at hret
            · simp at hret
            · rename_i c2 hc2
              injection hret with hret
              subst hret
              obtain ⟨-, hi1, -⟩ := write_id_ok hc1
              obtain ⟨-, -, hi2⟩ := write_votes_ok hc2
              have hl := read_at_ok hlast
              rw [size_sub_of_le hpos] at hl
              simp only [ElectionState.active, List.map_take, hi2, hi1]
              exact PoolIds_take_trailing hids _ _ hn
                (by simp [List.getElem?_map, hl])
      · rw [if_neg hvl] at hret
        injection hret with hret
        subst hret
        simp only [ElectionState.active, List.map_take]
        exact PoolIds_take hids _ (by omega)

/-! ## Winner scans: helper lemmas -/

theorem MinInv_step (key : Nat → Nat) (i : Nat) (s : (Nat → Nat) × Nat)
    (h : MinInv key i s) : MinInv key (i + 1) (min_step key s i) := by
  obtain ⟨ea, na⟩ := s
  obtain ⟨h1, h2, h3, h4, h5⟩ := h
  dsimp only at h1 h2 h3 h4 h5
  unfold min_step
  dsimp only
  by_cases hlt : key i < key (ea 0)
  · rw [if_pos hlt]
    refine ⟨Nat.le_refl 1, ?_, ?_, ?_, ?_⟩ <;> dsimp only
    · intro p hp
      have : p = 0 := by omega
      subst this
      simp
    · intro k hk
      simp only [Function.update_same]
      rcases Nat.lt_or_ge k i with hki | hki
      · have := h3 k hki; omega
      · have : k = i := by omega
        subst this; exact Nat.le_refl _
    · intro k hk hkey
      simp only [Function.update_same] at hkey
      rcases Nat.lt_or_ge k i with hki | hki
      · have := h3 k hki; omega
      · exact ⟨0, by omega, by simp; omega⟩
    · intro p q hpq hq
      omega
  · rw [if_neg hlt]
    by_cases heq : key i = key (ea 0)
    · rw [if_pos heq]
      have h0 : Function.update ea na i 0 = ea 0 :=
        Function.update_noteq (by omega) _ _
      have hold : ∀ p, p < na → Function.update ea na i p = ea p :=
        fun p hp => Function.update_noteq (by omega) _ _
      refine ⟨by simp, ?_, ?_, ?_, ?_⟩ <;> dsimp only
      · intro p hp
        rw [h0]
        rcases Nat.lt_or_ge p na with hps | hps
        · rw [hold p hps]
          have := h2 p hps
          exact ⟨by omega, this.2⟩
        · have : p = na := by omega
          subst this
          simp [heq]
      · intro k hk
        rw [h0]
        rcases Nat.lt_or_ge k i with hki | hki
        · exact h3 k hki
        · have : k = i := by omega
          subst this; omega
      · intro k hk hkey
        rw [h0] at hkey
        rcases Nat.lt_or_ge k i with hki | hki
        · obtain ⟨p, hp, hpk⟩ := h4 k hki hkey
          exact ⟨p, by omega, by rw [hold p hp]; exact hpk⟩
        · exact ⟨na, by omega, by simp; omega⟩
      · intro p q hpq hq
        rcases Nat.lt_or_ge q na with hqs | hqs
        · rw [hold p (by omega), hold q hqs]
          exact h5 p q hpq hqs
        · have : q = na := by omega
          subst this
          rw [hold p hpq]
          simp only [Function.update_same]
          exact (h2 p hpq).1
    · rw [if_neg heq]
      refine ⟨h1, ?_, ?_, ?_, h5⟩ <;> dsimp only
      · intro p hp
        have := h2 p hp
        exact ⟨by omega, this.2⟩
      · intro k hk
        rcases Nat.lt_or_ge k i with hki | hki
        · exact h3 k hki
        · have : k = i := by omega
          subst this; omega
      · intro k hk hkey
        rcases Nat.lt_or_ge k i with hki | hki
        · exact h4 k hki hkey
        · have : k = i := by omega
          subst this; exact absurd hkey heq

theorem MinInv_foldl (key : Nat → Nat) (len i : Nat) (s : (Nat → Nat) × Nat)
    (h : MinInv key i s) :
    MinInv key (i + len) ((List.range' i len).foldl (min_step key) s) := by
  induction len generalizing i s with
  | zero => simpa using h
  | succ len ih =>
    rw [List.range'_succ, List.foldl_cons]
    have := ih (i + 1) _ (MinInv_step key i s h)
    rw [show i + (len + 1) = i + 1 + len from by omega]
    exact this

/-- When the scan has visited all of `0..n-1`, the array holds exactly the
indices of minimal key, each once. -/
theorem MinInv_winners (key : Nat → Nat) (n : Nat) (s : (Nat → Nat) × Nat)
    (h : MinInv key n s) :
    ((List.range s.2).map s.1).Nodup ∧
      ∀ j, j ∈ (List.range s.2).map s.1 ↔ j < n ∧ ∀ k, k < n → key j ≤ key k := by
  obtain ⟨h1, h2, h3, h4, h5⟩ := h
  constructor
  · apply List.Nodup.map_on _ (List.nodup_range _)
    intro p hp q hq hpq
    rw [List.mem_range] at hp hq
    rcases Nat.lt_trichotomy p q with hlt | heq | hgt
    · have := h5 p q hlt hq; omega
    · exact heq
    · have := h5 q p hgt hp; omega
  · intro j
    rw [List.mem_map]
    constructor
    · rintro ⟨p, hp, rfl⟩
      rw [List.mem_range] at hp
      obtain ⟨hlt, hkey⟩ := h2 p hp
      exact ⟨hlt, fun k hk => by rw [hkey]; exact h3 k hk⟩
    · rintro ⟨hj, hmin⟩
      have h0 := h2 0 (by omega)
      have hle := hmin (s.1 0) h0.1
      have hge := h3 j hj
      obtain ⟨p, hp, hpj⟩ := h4 j hj (by omega)
      exact ⟨p, List.mem_range.mpr hp, hpj⟩

/-! ## The winner loops of `main`: helper lemmas -/

theorem approval_winners_step_spec (cs : List Candidate) (i : Nat) (w : Winners) :
    (approval_winners_step cs i w).a_state
        = min_step (fun j => (cand cs j).sum_disapproval) w.a_state i ∧
      (approval_winners_step cs i w).h_state = w.h_state ∧
      (approval_winners_step cs i w).elected = w.elected ∧
      (approval_winners_step cs i w).num_winners = w.num_winners := by
  unfold approval_winners_step min_step Winners.a_state Winners.h_state
  dsimp only
  split_ifs <;> simp

theorem hitler_winners_step_spec (cs : List Candidate) (ht : Nat → Nat) (i : Nat)
    (w : Winners) :
    (hitler_winners_step cs ht i w).h_state
        = min_step (fun j => ht (cand cs j).id) w.h_state i ∧
      (hitler_winners_step cs ht i w).a_state = w.a_state ∧
      (hitler_winners_step cs ht i w).elected = w.elected ∧
      (hitler_winners_step cs ht i w).num_winners = w.num_winners := by
  unfold hitler_winners_step min_step Winners.a_state Winners.h_state
  dsimp only
  split_ifs <;> simp

/-- The second winner loop applies the approval and the hitler-election scan
to every index it is given, in order, and leaves the traditional winners
alone. -/
theorem find_winners_rest_spec (cs : List Candidate) (ht : Nat → Nat) (l : List Nat)
    (w : Winners) :
    (find_winners_rest cs ht l w).a_state
        = l.foldl (min_step (fun j => (cand cs j).sum_disapproval)) w.a_state ∧
      (find_winners_rest cs ht l w).h_state
        = l.foldl (min_step (fun j => ht (cand cs j).id)) w.h_state ∧
      (find_winners_rest cs ht l w).elected = w.elected ∧
      (find_winners_rest cs ht l w).num_winners = w.num_winners := by
  induction l generalizing w with
  | nil => simp [find_winners_rest]
  | cons i rest ih =>
    unfold find_winners_rest
    obtain ⟨a1, a2, a3, a4⟩ := approval_winners_step_spec cs i w
    obtain ⟨b1, b2, b3, b4⟩ := hitler_winners_step_spec cs ht i (approval_winners_step cs i w)
    obtain ⟨c1, c2, c3, c4⟩ := ih (hitler_winners_step cs ht i (approval_winners_step cs i w))
    rw [c1, c2, c3, c4, b1, b2, b3, b4, a1, a2, a3, a4]
    simp

/-- The first winner loop, started at index `i` with the traditional winners
`0..i-1`: it stops at the first index `m` whose votes differ from those of
`candidates[0]` (or at the end), has then recorded `0..m-1` as traditional
winners and applied the two other scans to `i..m-1`, and hands `m` and the
indices after it to the second loop. -/
theorem find_winners_first_spec (cs : List Candidate) (ht : Nat → Nat) (len i : Nat)
    (w : Winners) (hi : 1 ≤ i) (hnum : w.num_winners = i)
    (hel : ∀ p, p < i → w.elected p = p)
    (hvotes : ∀ p, p < i → (cand cs p).votes = (cand cs 0).votes) :
    ∃ m, i ≤ m ∧ m ≤ i + len ∧
      (find_winners_first cs ht (List.range' i len) w).1 = List.range' m (i + len - m) ∧
      (find_winners_first cs ht (List.range' i len) w).2.num_winners = m ∧
      (∀ p, p < m → (find_winners_first cs ht (List.range' i len) w).2.elected p = p) ∧
      (∀ p, p < m → (cand cs p).votes = (cand cs 0).votes) ∧
      (m < i + len → (cand cs m).votes ≠ (cand cs 0).votes) ∧
      (find_winners_first cs ht (List.range' i len) w).2.a_state
        = (List.range' i (m - i)).foldl
            (min_step (fun j => (cand cs j).sum_disapproval)) w.a_state ∧
      (find_winners_first cs ht (List.range' i len) w).2.h_state
        = (List.range' i (m - i)).foldl
            (min_step (fun j => ht (cand cs j).id)) w.h_state := by
  induction len generalizing i w with
  | zero =>
    refine ⟨i, Nat.le_refl _, Nat.le_refl _, ?_, ?_, ?_, hvotes, ?_, ?_, ?_⟩
    · simp [find_winners_first]
    · simpa [find_winners_first] using hnum
    · simpa [find_winners_first] using hel
    · omega
    · simp [find_winners_first]
    · simp [find_winners_first]
  | succ len ih =>
    rw [List.range'_succ]
    unfold find_winners_first
    have h0 : w.elected 0 = 0 := hel 0 (by omega)
    rw [h0]
    by_cases hv : (cand cs i).votes = (cand cs 0).votes
    · rw [if_pos hv]
      dsimp only
      obtain ⟨a1, a2, a3, a4⟩ := approval_winners_step_spec cs i
        { w with elected := Function.update w.elected w.num_winners i,
                 num_winners := w.num_winners + 1 }
      obtain ⟨b1, b2, b3, b4⟩ := hitler_winners_step_spec cs ht i
        (approval_winners_step cs i
          { w with elected := Function.update w.elected w.num_winners i,
                   num_winners := w.num_winners + 1 })
      obtain ⟨m, m1, m2, m3, m4, m5, m6, m7, m8, m9⟩ := ih (i + 1)
        (hitler_winners_step cs ht i
          (approval_winners_step cs i
            { w with elected := Function.update w.elected w.num_winners i,
                     num_winners := w.num_winners + 1 }))
        (by omega)
        (by rw [b4, a4]; simp [hnum])
        (by
          intro p hp
          rw [b3, a3]
          dsimp only
          rw [hnum]
          rcases Nat.lt_or_ge p i with hpi | hpi
          · rw [Function.update_noteq (by omega)]
            exact hel p hpi
          · have : p = i := by omega
            subst this
            simp)
        (by
          intro p hp
          rcases Nat.lt_or_ge p i with hpi | hpi
          · exact hvotes p hpi
          · have : p = i := by omega
            subst this
            exact hv)
      refine ⟨m, by omega, by omega, ?_, m4, m5, m6, ?_, ?_, ?_⟩
      · rw [m3]; congr 1; omega
      · intro hm; exact m7 (by omega)
      · rw [m8, b2, a1]
        rw [show m - i = (m - (i + 1)) + 1 from by omega, List.range'_succ, List.foldl_cons]
        rfl
      · rw [m9, b1, a2]
        rw [show m - i = (m - (i + 1)) + 1 from by omega, List.range'_succ, List.foldl_cons]
        rfl
    · rw [if_neg hv]
      refine ⟨i, Nat.le_refl _, by omega, ?_, hnum, hel, hvotes, fun _ => hv, ?_, ?_⟩
      · dsimp only
        rw [show i + (len + 1) - i = len + 1 from by omega, List.range'_succ]
      · simp
      · simp

theorem MinInv_init (key : Nat → Nat) (ea : Nat → Nat) :
    MinInv key 1 (Function.update ea 0 0, 1) := by
  refine ⟨Nat.le_refl 1, ?_, ?_, ?_, ?_⟩ <;> dsimp only
  · intro p hp
    have : p = 0 := by omega
    subst this
    simp
  · intro k hk
    have : k = 0 := by omega
    subst this
    simp
  · intro k hk _
    exact ⟨0, by omega, by simp; omega⟩
  · intro p q hpq hq
    omega

/-- What the "find election winners" part of `main` leaves in the three
arrays, for a non-empty active list of length `n`: the traditional winners
are `0..m-1`, where `m` is the first index whose votes differ from those of
`candidates[0]`, and both other scans have visited every index below `n`
exactly once, in order. -/
theorem find_winners_spec (cs : List Candidate) (ht : Nat → Nat) (w0 : Winners)
    (hne : cs ≠ []) :
    ∃ m, 1 ≤ m ∧ m ≤ cs.length ∧
      (find_winners cs ht w0).num_winners = m ∧
      (∀ p, p < m → (find_winners cs ht w0).elected p = p) ∧
      (∀ p, p < m → (cand cs p).votes = (cand cs 0).votes) ∧
      (m < cs.length → (cand cs m).votes ≠ (cand cs 0).votes) ∧
      MinInv (fun j => (cand cs j).sum_disapproval) cs.length
        (find_winners cs ht w0).a_state ∧
      MinInv (fun j => ht (cand cs j).id) cs.length (find_winners cs ht w0).h_state := by
  have hlen : 1 ≤ cs.length := by
    cases cs with
    | nil => exact absurd rfl hne
    | cons x xs => simp
  unfold find_winners
  dsimp only
  obtain ⟨m, m1, m2, m3, m4, m5, m6, m7, m8, m9⟩ := find_winners_first_spec cs ht
    (cs.length - 1) 1
    { elected := Function.update w0.elected 0 0, num_winners := 1,
      elected_a := Function.update w0.elected_a 0 0, num_a_winners := 1,
      elected_h := Function.update w0.elected_h 0 0, num_h_winners := 1 }
    (Nat.le_refl 1) rfl
    (by intro p hp; have : p = 0 := by omega
        subst this; simp)
    (by intro p hp; have : p = 0 := by omega
        subst this; rfl)
  obtain ⟨r1, r2, r3, r4⟩ := find_winners_rest_spec cs ht
    (find_winners_first cs ht (List.range' 1 (cs.length - 1))
      { elected := Function.update w0.elected 0 0, num_winners := 1,
        elected_a := Function.update w0.elected_a 0 0, num_a_winners := 1,
        elected_h := Function.update w0.elected_h 0 0, num_h_winners := 1 }).1
    (find_winners_first cs ht (List.range' 1 (cs.length - 1))
      { elected := Function.update w0.elected 0 0, num_winners := 1,
        elected_a := Function.update w0.elected_a 0 0, num_a_winners := 1,
        elected_h := Function.update w0.elected_h 0 0, num_h_winners := 1 }).2
  have hsplit : List.range' 1 (m - 1) ++ List.range' m (1 + (cs.length - 1) - m)
      = List.range' 1 (cs.length - 1) := by
    have := List.range'_append_1 1 (m - 1) (1 + (cs.length - 1) - m)
    rw [show 1 + (m - 1) = m from by omega] at this
    rw [this]
    congr 1
    omega
  refine ⟨m, m1, by omega, ?_, ?_, m6, ?_, ?_, ?_⟩
  · rw [r4]; exact m4
  · intro p hp; rw [r3]; exact m5 p hp
  · intro hm; exact m7 (by omega)
  · rw [r1, m3, m8, ← List.foldl_append, hsplit]
    have := MinInv_foldl (fun j => (cand cs j).sum_disapproval) (cs.length - 1) 1 _
      (MinInv_init (fun j => (cand cs j).sum_disapproval) w0.elected_a)
    rw [show 1 + (cs.length - 1) = cs.length from by omega] at this
    exact this
  · rw [r2, m3, m9, ← List.foldl_append, hsplit]
    have := MinInv_foldl (fun j => ht (cand cs j).id) (cs.length - 1) 1 _
      (MinInv_init (fun j => ht (cand cs j).id) w0.elected_h)
    rw [show 1 + (cs.length - 1) = cs.length from by omega] at this
    exact this

theorem cand_eq_getElem (cs : List Candidate) (i : Nat) (h : i < cs.length) :
    cand cs i = cs[i] :=
  List.getD_eq_getElem cs default h

/-! ## The consensus candidate: helper lemmas -/

/-- The loop that builds `washington.id`, started at issue `a` with an id that
has no bits at positions `a` and above. -/
theorem find_washington_loop_spec (population_size : Nat) (stance_poll : Nat → Nat)
    (k a id : Nat) (hid : id < 2 ^ a) (hak : a + k ≤ 31)
    (hle : ∀ w, w < a + k → stance_poll w ≤ population_size) :
    ∃ r, find_washington_loop population_size stance_poll (List.range' a k) id = .ok r ∧
      r < 2 ^ (a + k) ∧
      ∀ w, r.testBit w =
        if w < a then id.testBit w
        else decide (w < a + k ∧ stance_poll w ≥ population_size - stance_poll w) := by
  induction k generalizing a id with
  | zero =>
    refine ⟨id, rfl, by simpa using hid, ?_⟩
    intro w
    by_cases hw : w < a
    · simp [hw]
    · have : id < 2 ^ w :=
        Nat.lt_of_lt_of_le hid (Nat.pow_le_pow_right (by decide) (by omega))
      simp [hw, Nat.testBit_lt_two_pow this]
  | succ k ih =>
    rw [List.range'_succ]
    unfold find_washington_loop
    have hsp := hle a (by omega)
    rw [size_sub_of_le hsp]
    dsimp only
    have hpow : (2 : Nat) ^ (a + 1) = 2 ^ a + 2 ^ a := by rw [Nat.pow_succ]; omega
    by_cases hc : stance_poll a ≥ population_size - stance_poll a
    · rw [if_pos hc, if_pos (by omega : a < 31)]
      have hlt : id + 2 ^ a < 2 ^ (a + 1) := by omega
      have hsize : (id + 2 ^ a) % SIZE_MOD = id + 2 ^ a := by
        apply Nat.mod_eq_of_lt
        have h1 : (2 : Nat) ^ (a + 1) ≤ 2 ^ 64 :=
          Nat.pow_le_pow_right (by decide) (by omega)
        exact Nat.lt_of_lt_of_le hlt h1
      rw [hsize]
      obtain ⟨r, hr, hrlt, hbits⟩ := ih (a + 1) (id + 2 ^ a) hlt (by omega)
        (fun w hw => hle w (by omega))
      refine ⟨r, hr, by rw [show a + (k + 1) = a + 1 + k from by omega]; exact hrlt, ?_⟩
      intro w
      rw [hbits w, Nat.add_comm id]
      rcases Nat.lt_trichotomy w a with hw | hw | hw
      · rw [if_pos (by omega), if_pos hw, Nat.testBit_two_pow_add_gt hw]
      · subst hw
        rw [if_pos (by omega), if_neg (by omega), Nat.testBit_two_pow_add_eq,
          Nat.testBit_lt_two_pow hid]
        simp [hc]
      · rw [if_neg (by omega), if_neg (by omega)]
        congr 1
        apply propext
        constructor
        · rintro ⟨h1, h2⟩; exact ⟨by omega, h2⟩
        · rintro ⟨h1, h2⟩; exact ⟨by omega, h2⟩
    · rw [if_neg hc]
      obtain ⟨r, hr, hrlt, hbits⟩ := ih (a + 1) id (by omega) (by omega)
        (fun w hw => hle w (by omega))
      refine ⟨r, hr, by rw [show a + (k + 1) = a + 1 + k from by omega]; exact hrlt, ?_⟩
      intro w
      rw [hbits w]
      rcases Nat.lt_trichotomy w a with hw | hw | hw
      · rw [if_pos (by omega), if_pos hw]
      · subst hw
        rw [if_pos (by omega), if_neg (by omega), Nat.testBit_lt_two_pow hid]
        simp [hc]
      · rw [if_neg (by omega), if_neg (by omega)]
        congr 1
        apply propext
        constructor
        · rintro ⟨h1, h2⟩; exact ⟨by omega, h2⟩
        · rintro ⟨h1, h2⟩; exact ⟨by omega, h2⟩

/-! ## The two-party system election: helper lemmas -/

/-- Closed form of the votes collected by the two poles. -/
theorem two_party_loop_spec (HAMMING : Nat → Nat) (MAX_LOOKUP_SIZE : Nat)
    (hM : MAX_LOOKUP_SIZE = 1 ∨ MAX_LOOKUP_SIZE = 2) (cs : List Candidate)
    (s0 s1 : Candidate) (h0 : s0.votes < UINT_MOD) (h1 : s1.votes < UINT_MOD) :
    two_party_loop HAMMING MAX_LOOKUP_SIZE cs s0 s1 = .ok
      ({ s0 with votes := (s0.votes + (cs.map fun c =>
            if distance HAMMING MAX_LOOKUP_SIZE s0.id c.id
              < distance HAMMING MAX_LOOKUP_SIZE s1.id c.id then c.votes else 0).sum)
            % UINT_MOD },
       { s1 with votes := (s1.votes + (cs.map fun c =>
            if distance HAMMING MAX_LOOKUP_SIZE s0.id c.id
              > distance HAMMING MAX_LOOKUP_SIZE s1.id c.id then c.votes else 0).sum)
            % UINT_MOD }) := by
  have hpos : 0 < UINT_MOD := by decide
  induction cs generalizing s0 s1 with
  | nil =>
    unfold two_party_loop
    simp [Nat.mod_eq_of_lt h0, Nat.mod_eq_of_lt h1]
  | cons c rest ih =>
    obtain ⟨d0, hd0⟩ := hamming_weight_ok HAMMING MAX_LOOKUP_SIZE hM (s0.id ^^^ c.id)
    obtain ⟨d1, hd1⟩ := hamming_weight_ok HAMMING MAX_LOOKUP_SIZE hM (s1.id ^^^ c.id)
    have e0 := distance_of_ok hd0
    have e1 := distance_of_ok hd1
    unfold two_party_loop
    rw [hd0, hd1]
    dsimp only
    simp only [List.map_cons, List.sum_cons, e0, e1]
    by_cases hlt : d0 < d1
    · have hng : ¬ d1 < d0 := by omega
      rw [if_pos hlt, ih _ _ (Nat.mod_lt _ hpos) h1]
      simp only [gt_iff_lt, if_pos hlt, if_neg hng, Nat.zero_add]
      congr 3
      simp only [UINT_MOD]; omega
    · rw [if_neg hlt]
      by_cases hgt : d1 < d0
      · rw [if_pos hgt, ih _ _ h0 (Nat.mod_lt _ hpos)]
        simp only [gt_iff_lt, if_pos hgt, if_neg hlt, Nat.zero_add]
        congr 3
        simp only [UINT_MOD]; omega
      · rw [if_neg hgt, ih _ _ h0 h1]
        simp only [gt_iff_lt, if_neg hgt, if_neg hlt, Nat.zero_add]

/-- Every candidate's votes go to the first pole, to the second pole, or to
neither. -/
theorem two_party_partition (D0 D1 : Candidate → Nat) (cs : List Candidate) :
    (cs.map fun c => if D0 c < D1 c then c.votes else 0).sum
      + (cs.map fun c => if D0 c > D1 c then c.votes else 0).sum
      + (cs.map fun c => if D0 c = D1 c then c.votes else 0).sum
      = (cs.map Candidate.votes).sum := by
  induction cs with
  | nil => rfl
  | cons x rest ih =>
    simp only [List.map_cons, List.sum_cons]
    split_ifs <;> omega

/-! ## Uniformity of the bounded sampler: helper lemmas -/

/-- What `rand_ceiling` does with a stream that holds the single raw value `r`,
for a generator range that fits in an `unsigned`. -/
theorem rand_ceiling_single (RAND_MAX ceiling r v : Nat) (hR : RAND_MAX + 1 < UINT_MOD)
    (hc : 0 < ceiling) :
    rand_ceiling RAND_MAX ceiling [r] = .ok (v, []) ↔
      (r < ceiling * ((RAND_MAX + 1) / ceiling) ∧ r / ((RAND_MAX + 1) / ceiling) = v) := by
  have hle : ceiling * ((RAND_MAX + 1) / ceiling) ≤ RAND_MAX + 1 := Nat.mul_div_le _ _
  unfold rand_ceiling
  rw [if_neg (by omega), Nat.mod_eq_of_lt hR]
  dsimp only
  rw [Nat.mod_eq_of_lt (by omega)]
  unfold rand_ceiling_loop
  by_cases hr : r ≥ ceiling * ((RAND_MAX + 1) / ceiling)
  · rw [if_pos hr]
    unfold rand_ceiling_loop
    constructor
    · intro h; simp at h
    · intro h; omega
  · rw [if_neg hr]
    constructor
    · intro h
      injection h with h
      injection h with h1 h2
      exact ⟨by omega, h1⟩
    · rintro ⟨-, h⟩
      rw [h]

/-- Number of values below `n` that lie in the interval `[a, b)`. -/
theorem length_filter_range_interval (n a b : Nat) :
    ((List.range n).filter (fun r => decide (a ≤ r ∧ r < b))).length
      = min b n - min a n := by
  induction n with
  | zero => simp
  | succ n ih =>
    rw [List.range_succ, List.filter_append, List.length_append, ih]
    by_cases h : a ≤ n ∧ n < b
    · simp only [List.filter_cons, h, and_self, decide_True, if_true, List.filter_nil,
        List.length_singleton]
      omega
    · simp only [List.filter_cons, h, decide_False, List.filter_nil, List.length_nil]
      simp only [Bool.false_eq_true, if_false, List.length_nil]
      omega

/-- Every value `v` below `ceiling` is the image of exactly `R / ceiling`
accepted raw values, `R = RAND_MAX + 1`. -/
theorem rand_ceiling_preimage_count (RAND_MAX ceiling v : Nat)
    (hR : RAND_MAX + 1 < UINT_MOD) (hc : 0 < ceiling) (hcR : ceiling ≤ RAND_MAX + 1)
    (hv : v < ceiling) :
    ((List.range (RAND_MAX + 1)).filter
        (fun r => decide (rand_ceiling RAND_MAX ceiling [r] = .ok (v, [])))).length
      = (RAND_MAX + 1) / ceiling := by
  have hm : 0 < (RAND_MAX + 1) / ceiling := Nat.div_pos hcR hc
  have hle : ceiling * ((RAND_MAX + 1) / ceiling) ≤ RAND_MAX + 1 := Nat.mul_div_le _ _
  have hv1 : (v + 1) * ((RAND_MAX + 1) / ceiling) ≤ ceiling * ((RAND_MAX + 1) / ceiling) :=
    Nat.mul_le_mul_right _ hv
  have hcongr : ∀ r ∈ List.range (RAND_MAX + 1),
      decide (rand_ceiling RAND_MAX ceiling [r] = .ok (v, []))
        = decide (v * ((RAND_MAX + 1) / ceiling) ≤ r ∧
            r < (v + 1) * ((RAND_MAX + 1) / ceiling)) := by
    intro r _
    apply decide_eq_decide.mpr
    rw [rand_ceiling_single RAND_MAX ceiling r v hR hc]
    constructor
    · rintro ⟨-, h2⟩
      have h3 : v ≤ r / ((RAND_MAX + 1) / ceiling) := by omega
      have h4 : r / ((RAND_MAX + 1) / ceiling) < v + 1 := by omega
      exact ⟨(Nat.le_div_iff_mul_le hm).mp h3, (Nat.div_lt_iff_lt_mul hm).mp h4⟩
    · rintro ⟨h1, h2⟩
      have h3 := (Nat.le_div_iff_mul_le hm).mpr h1
      have h4 := (Nat.div_lt_iff_lt_mul hm).mpr h2
      exact ⟨by omega, by omega⟩
  rw [List.filter_congr hcongr, length_filter_range_interval]
  have e : (v + 1) * ((RAND_MAX + 1) / ceiling)
      = v * ((RAND_MAX + 1) / ceiling) + (RAND_MAX + 1) / ceiling := by
    rw [Nat.add_mul, Nat.one_mul]
  omega

/-! ## Platform distance: helper lemmas -/

theorem bit_sum_eq_zero (w n : Nat) (hn : n < 2 ^ w) (h : bit_sum w n = 0) : n = 0 := by
  induction w generalizing n with
  | zero => simpa using hn
  | succ w ih =>
    simp only [bit_sum] at h
    have h2 : n / 2 < 2 ^ w := by
      rw [Nat.pow_succ] at hn
      omega
    have := ih (n / 2) h2 (by omega)
    omega

theorem popcount_eq_zero_iff (n : Nat) : popcount n = 0 ↔ n = 0 := by
  constructor
  · intro h
    exact bit_sum_eq_zero _ n Nat.lt_log2_self h
  · intro h
    subst h
    exact popcount_zero

/-- With a table of bit counts, the distance between two ids that fit in an
`unsigned` is the bit count of their XOR. -/
theorem distance_eq_popcount (HAMMING : Nat → Nat) (MAX_LOOKUP_SIZE : Nat)
    (hM : MAX_LOOKUP_SIZE = 1 ∨ MAX_LOOKUP_SIZE = 2)
    (htab : ∀ i, i < 65536 → HAMMING i = popcount i) (a b : Nat)
    (ha : a < 2 ^ 32) (hb : b < 2 ^ 32) :
    distance HAMMING MAX_LOOKUP_SIZE a b = popcount (a ^^^ b) := by
  have h := hamming_weight_eq_popcount HAMMING MAX_LOOKUP_SIZE hM htab (a ^^^ b)
  rw [distance_of_ok h]
  congr 1
  exact Nat.mod_eq_of_lt (Nat.xor_lt_two_pow ha hb)

/-- With a table of bit counts, two ids that fit in an `unsigned` are at
distance 0 exactly when they are equal. -/
theorem distance_eq_zero_iff (HAMMING : Nat → Nat) (MAX_LOOKUP_SIZE : Nat)
    (hM : MAX_LOOKUP_SIZE = 1 ∨ MAX_LOOKUP_SIZE = 2)
    (htab : ∀ i, i < 65536 → HAMMING i = popcount i) (a b : Nat)
    (ha : a < 2 ^ 32) (hb : b < 2 ^ 32) :
    distance HAMMING MAX_LOOKUP_SIZE a b = 0 ↔ a = b := by
  rw [distance_eq_popcount HAMMING MAX_LOOKUP_SIZE hM htab a b ha hb, popcount_eq_zero_iff]
  exact Nat.xor_eq_zero

/-! ## The comparator: helper lemmas -/

theorem sort_candidates_le_zero_iff (a b : Candidate) :
    sort_candidates a b ≤ 0 ↔ a.votes ≥ b.votes := by
  unfold sort_candidates
  split_ifs <;> constructor <;> intro h <;> omega

/-- The output of `qsort` is sorted by votes descending. -/
theorem qsort_result_sorted {input output : List Candidate}
    (h : qsort_result input output) :
    output.Pairwise (fun a b => a.votes ≥ b.votes) :=
  h.2.imp (fun {a b} hab => (sort_candidates_le_zero_iff a b).mp hab)

/-! ## perform_election: number and votes of the emitted candidates -/

theorem take_succ_set {α : Type} (l : List α) (n : Nat) (a : α) (hn : n < l.length) :
    (l.set n a).take (n + 1) = l.take n ++ [a] := by
  rw [List.take_succ, take_set_self, List.getElem?_set]
  simp [hn]

/-- Loop invariant of `perform_election` for a non-empty pool: the number of
emitted candidates stays below `pool_size` and within the array. -/
theorem perform_election_loop_count {RAND_MAX pool_size : Nat} (hpool : 1 ≤ pool_size)
    (fuel i : Nat) (st fin : ElectionState)
    (h0 : st.num_candidates ≤ i ∧ i ≤ pool_size % UINT_MOD ∧ i + 1 ≤ pool_size ∧
      st.num_candidates ≤ st.candidates.length)
    (h : perform_election_loop RAND_MAX pool_size fuel i st = .ok fin) :
    fin.num_candidates + 1 ≤ pool_size ∧ fin.num_candidates ≤ fin.candidates.length := by
  have hstep : ∀ i st st',
      (st.num_candidates ≤ i ∧ i ≤ pool_size % UINT_MOD ∧ i + 1 ≤ pool_size ∧
        st.num_candidates ≤ st.candidates.length) →
      st.voters_left ≠ 0 → i < size_sub pool_size 1 →
      perform_election_body RAND_MAX pool_size i st = .ok st' →
      (st'.num_candidates ≤ (i + 1) % UINT_MOD ∧
        (i + 1) % UINT_MOD ≤ pool_size % UINT_MOD ∧
        (i + 1) % UINT_MOD + 1 ≤ pool_size ∧
        st'.num_candidates ≤ st'.candidates.length) := by
    intro i st st' ⟨hn, hi, hi1, hlen⟩ _ hlt hb
    obtain ⟨r, draws1, votes, t, g, hr, -, ht, hg, hids', -, -, hn'⟩ :=
      perform_election_body_spec hb
    obtain ⟨hc0, hrc, -⟩ := rand_ceiling_spec _ _ _ _ _ hr
    obtain ⟨hnlen, -⟩ := List.getElem?_eq_some.mp ht
    have hlen' : st'.candidates.length = st.candidates.length := by
      have := congrArg List.length hids'
      simpa using this
    rw [size_sub_of_le hpool] at hlt
    rw [size_sub_of_le (by omega : i ≤ pool_size)] at hc0 hrc
    simp only [List.length_map] at hnlen
    simp only [UINT_MOD] at *
    have e2 : (i + 1) % 2 ^ 32 = i + 1 := by omega
    rw [e2]
    refine ⟨?_, by omega, by omega, ?_⟩
    · rw [hn']; split_ifs <;> omega
    · rw [hn', hlen']; split_ifs <;> omega
  obtain ⟨j, ⟨hn, -, hj, hlen⟩, -⟩ := perform_election_loop_invariant
    (fun i s => s.num_candidates ≤ i ∧ i ≤ pool_size % UINT_MOD ∧ i + 1 ≤ pool_size ∧
      s.num_candidates ≤ s.candidates.length) hstep fuel i st fin h0 h
  exact ⟨by omega, hlen⟩

/-- Loop invariant of `perform_election`: every emitted candidate holds at
least one vote. -/
theorem perform_election_loop_positive {RAND_MAX pool_size : Nat}
    (fuel i : Nat) (st fin : ElectionState)
    (h0 : ∀ v ∈ (st.candidates.map Candidate.votes).take st.num_candidates, 1 ≤ v)
    (h : perform_election_loop RAND_MAX pool_size fuel i st = .ok fin) :
    ∀ v ∈ (fin.candidates.map Candidate.votes).take fin.num_candidates, 1 ≤ v := by
  have hstep : ∀ i st st',
      (∀ v ∈ (st.candidates.map Candidate.votes).take st.num_candidates, 1 ≤ v) →
      st.voters_left ≠ 0 → i < size_sub pool_size 1 →
      perform_election_body RAND_MAX pool_size i st = .ok st' →
      (∀ v ∈ (st'.candidates.map Candidate.votes).take st'.num_candidates, 1 ≤ v) := by
    intro i st st' hP _ _ hb
    obtain ⟨r, draws1, votes, t, g, -, -, ht, -, -, hvotes, -, hn⟩ :=
      perform_election_body_spec hb
    have hlen : st.num_candidates < (st.candidates.map Candidate.votes).length := by
      obtain ⟨hk, -⟩ := List.getElem?_eq_some.mp ht
      simpa using hk
    by_cases hv0 : votes ≠ 0
    · simp only [if_pos hv0] at hvotes hn
      rw [hvotes, hn, take_succ_set _ _ _ hlen]
      intro v hv
      rcases List.mem_append.mp hv with h1 | h1
      · exact hP v h1
      · have : v = votes := by simpa using h1
        omega
    · simp only [if_neg hv0] at hvotes hn
      rw [hvotes, hn]
      exact hP
  obtain ⟨j, hj, -⟩ := perform_election_loop_invariant
    (fun _ s => ∀ v ∈ (s.candidates.map Candidate.votes).take s.num_candidates, 1 ≤ v)
    hstep fuel i st fin h0 h
  exact hj

/-- On return from `perform_election` with a non-empty pool: the active list
has `num_candidates ≤ pool_size` entries and each holds at least one vote. -/
theorem perform_election_count (RAND_MAX voters_left pool_size : Nat)
    (candidates : List Candidate) (draws : List Nat) (st : ElectionState)
    (hpool : 1 ≤ pool_size)
    (hret : perform_election RAND_MAX voters_left pool_size candidates draws = .ok st) :
    st.num_candidates ≤ pool_size ∧ st.active.length = st.num_candidates ∧
      ∀ c ∈ st.active, 1 ≤ c.votes := by
  unfold perform_election at hret
  split at hret
  · simp at hret
  · rename_i fin hloop
    obtain ⟨hn, hlen⟩ := perform_election_loop_count hpool _ _ _ _
      ⟨Nat.le_refl 0, Nat.zero_le _, hpool, Nat.zero_le _⟩ hloop
    have hpos := perform_election_loop_positive _ _ _ _ (by simp) hloop
    have hmem : ∀ (l : List Candidate) (n : Nat),
        (∀ v ∈ (l.map Candidate.votes).take n, 1 ≤ v) → ∀ c ∈ l.take n, 1 ≤ c.votes := by
      intro l n hl c hc
      apply hl
      rw [← List.map_take]
      exact List.mem_map_of_mem _ hc
    by_cases hvl : fin.voters_left ≠ 0
    · rw [if_pos hvl] at hret
      split at hret
      · simp at hret
      · split at hret
        · simp at hret
        · rename_i c1 hc1
          split at hret
          · simp at hret
          · rename_i c2 hc2
            injection hret with hret
            subst hret
            obtain ⟨hk, hi1, hv1⟩ := write_id_ok hc1
            obtain ⟨hk2, hv2, -⟩ := write_votes_ok hc2
            have hlen2 : c2.length = fin.candidates.length := by
              have h1 := congrArg List.length hv2
              have h2 := congrArg List.length hv1
              simp only [List.length_map, List.length_set] at h1 h2
              omega
            refine ⟨by simp only; omega, ?_, ?_⟩
            · simp only [ElectionState.active, List.length_take]
              omega
            · apply hmem
              simp only
              rw [hv2, hv1, take_succ_set _ _ _ (by simpa using hk)]
              intro v hv
              rcases List.mem_append.mp hv with h1 | h1
              · exact hpos v h1
              · have : v = fin.voters_left := by simpa using h1
                omega
    · rw [if_neg hvl] at hret
      injection hret with hret
      subst hret
      refine ⟨by omega, ?_, hmem _ _ hpos⟩
      simp only [ElectionState.active, List.length_take]
      omega

/-- Without voters `perform_election` returns at once and emits nothing. -/
theorem perform_election_no_voters (RAND_MAX pool_size : Nat)
    (candidates : List Candidate) (draws : List Nat) :
    perform_election RAND_MAX 0 pool_size candidates draws
      = .ok { voters_left := 0, num_candidates := 0, candidates := candidates,
              draws := draws } := by
  simp [perform_election, perform_election_loop]

/-! ## The antagonist of a candidate: helper lemmas -/

/-- The antagonist and the running maximum after one pass through the loop
body of `compute_candidate_statistics`. -/
theorem compute_candidate_statistics_body_hitler (num_issues d : Nat) (h c : Candidate)
    (m : Nat) :
    (compute_candidate_statistics_body num_issues d h c m).1.hitler
        = (if d > m then h.id else c.hitler) ∧
      (compute_candidate_statistics_body num_issues d h c m).2
        = (if d > m then d else m) := by
  unfold compute_candidate_statistics_body
  dsimp only
  constructor <;> split_ifs <;> rfl

theorem HitlerInv_step (D : Candidate → Nat) (own : Nat) (pre : List Candidate)
    (hitler m : Nat) (z : Candidate) (h : HitlerInv D own pre hitler m) :
    HitlerInv D own (pre ++ [z]) (if D z > m then z.id else hitler)
      (if D z > m then D z else m) := by
  by_cases hgt : D z > m
  · rw [if_pos hgt, if_pos hgt]
    right
    refine ⟨by omega, pre, z, [], rfl, rfl, rfl, ?_, by simp⟩
    intro y hy
    rcases h with ⟨h1, -, h3⟩ | ⟨h1, l1, x, l2, hpre, -, hx, hl1, hl2⟩
    · have := h3 y hy; omega
    · rw [hpre] at hy
      rcases List.mem_append.mp hy with hy1 | hy1
      · have := hl1 y hy1; omega
      · rcases List.mem_cons.mp hy1 with rfl | hy2
        · omega
        · have := hl2 y hy2; omega
  · rw [if_neg hgt, if_neg hgt]
    rcases h with ⟨h1, h2, h3⟩ | ⟨h1, l1, x, l2, hpre, hh, hx, hl1, hl2⟩
    · left
      refine ⟨h1, h2, ?_⟩
      intro y hy
      rcases List.mem_append.mp hy with hy1 | hy1
      · exact h3 y hy1
      · have : y = z := by simpa using hy1
        subst this; omega
    · right
      refine ⟨h1, l1, x, l2 ++ [z], by rw [hpre]; simp, hh, hx, hl1, ?_⟩
      intro y hy
      rcases List.mem_append.mp hy with hy1 | hy1
      · exact hl2 y hy1
      · have : y = z := by simpa using hy1
        subst this; omega

/-- The antagonist search of the loop of `compute_candidate_statistics`. -/
theorem compute_candidate_statistics_loop_hitler (HAMMING : Nat → Nat)
    (MAX_LOOKUP_SIZE num_issues own : Nat) (rest pre : List Candidate) (c : Candidate)
    (m : Nat) (r : Candidate) (hid : c.id = own)
    (hinv : HitlerInv (fun y => distance HAMMING MAX_LOOKUP_SIZE own y.id) own pre
      c.hitler m)
    (h : compute_candidate_statistics_loop HAMMING MAX_LOOKUP_SIZE num_issues rest c m
      = .ok r) :
    ∃ m', HitlerInv (fun y => distance HAMMING MAX_LOOKUP_SIZE own y.id) own (pre ++ rest)
      r.hitler m' := by
  induction rest generalizing pre c m with
  | nil =>
    unfold compute_candidate_statistics_loop at h
    injection h with h
    subst h
    exact ⟨m, by simpa using hinv⟩
  | cons z rest ih =>
    unfold compute_candidate_statistics_loop at h
    split at h
    · simp at h
    · rename_i d hd
      rw [hid] at hd
      have hdist := distance_of_ok hd
      obtain ⟨b1, -⟩ := compute_candidate_statistics_body_spec num_issues d z c m
      obtain ⟨e1, e2⟩ := compute_candidate_statistics_body_hitler num_issues d z c m
      have hstep := HitlerInv_step (fun y => distance HAMMING MAX_LOOKUP_SIZE own y.id) own
        pre c.hitler m z hinv
      dsimp only at hstep
      rw [hdist, ← e1, ← e2] at hstep
      obtain ⟨m', hm'⟩ := ih (pre ++ [z]) _ _ (by rw [b1, hid]) hstep h
      exact ⟨m', by simpa using hm'⟩

/-- After `compute_candidate_statistics`, `hitler` is the candidate's own id
when every member is at distance 0, and otherwise the id of the first member
at the maximal distance. -/
theorem compute_candidate_statistics_hitler (HAMMING : Nat → Nat)
    (MAX_LOOKUP_SIZE num_issues : Nat) (c : Candidate) (cs : List Candidate)
    (r : Candidate)
    (h : compute_candidate_statistics HAMMING MAX_LOOKUP_SIZE num_issues c cs = .ok r) :
    ∃ m, HitlerInv (fun y => distance HAMMING MAX_LOOKUP_SIZE c.id y.id) c.id cs
      r.hitler m := by
  unfold compute_candidate_statistics at h
  have := compute_candidate_statistics_loop_hitler HAMMING MAX_LOOKUP_SIZE num_issues c.id
    cs []
    { c with sum_disapproval := 0, hitler := c.id, pro := 0, contra := 0, medius := 0 }
    0 r rfl (Or.inl ⟨rfl, rfl, by simp⟩) h
  simpa using this

/-! ## compute_election_statistics: helper lemmas -/

/-- The loop body of `compute_candidate_statistics` reads only the id and the
votes of the member `h`. -/
theorem compute_candidate_statistics_body_congr (num_issues d : Nat) (h h' c : Candidate)
    (m : Nat) (hid : h.id = h'.id) (hvotes : h.votes = h'.votes) :
    compute_candidate_statistics_body num_issues d h c m
      = compute_candidate_statistics_body num_issues d h' c m := by
  unfold compute_candidate_statistics_body
  rw [hid, hvotes]

/-- `compute_candidate_statistics` reads only the ids and the votes of the
comparison list. -/
theorem compute_candidate_statistics_loop_congr (HAMMING : Nat → Nat)
    (MAX_LOOKUP_SIZE num_issues : Nat) (l l' : List Candidate) (c : Candidate) (m : Nat)
    (hid : l.map Candidate.id = l'.map Candidate.id)
    (hvotes : l.map Candidate.votes = l'.map Candidate.votes) :
    compute_candidate_statistics_loop HAMMING MAX_LOOKUP_SIZE num_issues l c m
      = compute_candidate_statistics_loop HAMMING MAX_LOOKUP_SIZE num_issues l' c m := by
  induction l generalizing l' c m with
  | nil =>
    cases l' with
    | nil => rfl
    | cons y ys => simp at hid
  | cons x xs ih =>
    cases l' with
    | nil => simp at hid
    | cons y ys =>
      simp only [List.map_cons, List.cons.injEq] at hid hvotes
      unfold compute_candidate_statistics_loop
      rw [hid.1]
      split
      · rfl
      · rename_i d _
        rw [compute_candidate_statistics_body_congr num_issues d x y c m hid.1 hvotes.1]
        exact ih ys _ _ hid.2 hvotes.2

theorem compute_candidate_statistics_congr (HAMMING : Nat → Nat)
    (MAX_LOOKUP_SIZE num_issues : Nat) (l l' : List Candidate) (c : Candidate)
    (hid : l.map Candidate.id = l'.map Candidate.id)
    (hvotes : l.map Candidate.votes = l'.map Candidate.votes) :
    compute_candidate_statistics HAMMING MAX_LOOKUP_SIZE num_issues c l
      = compute_candidate_statistics HAMMING MAX_LOOKUP_SIZE num_issues c l' := by
  unfold compute_candidate_statistics
  exact compute_candidate_statistics_loop_congr _ _ _ l l' _ _ hid hvotes

/-- When `compute_candidate_statistics` returns, it returns `score`. -/
theorem score_of_ok {HAMMING : Nat → Nat} {MAX_LOOKUP_SIZE num_issues : Nat}
    {cs : List Candidate} {c r : Candidate}
    (h : compute_candidate_statistics HAMMING MAX_LOOKUP_SIZE num_issues c cs = .ok r) :
    score HAMMING MAX_LOOKUP_SIZE num_issues cs c = r := by
  simp [score, h]

theorem compute_candidate_statistics_eq_score (HAMMING : Nat → Nat)
    (MAX_LOOKUP_SIZE : Nat) (hM : MAX_LOOKUP_SIZE = 1 ∨ MAX_LOOKUP_SIZE = 2)
    (num_issues : Nat) (c : Candidate) (cs : List Candidate) :
    compute_candidate_statistics HAMMING MAX_LOOKUP_SIZE num_issues c cs
      = .ok (score HAMMING MAX_LOOKUP_SIZE num_issues cs c) := by
  obtain ⟨r, hr⟩ := compute_candidate_statistics_ok HAMMING MAX_LOOKUP_SIZE hM num_issues c cs
  rw [score_of_ok hr, hr]

/-- Scoring keeps the id and the votes of a candidate. -/
theorem score_id_votes (HAMMING : Nat → Nat) (MAX_LOOKUP_SIZE num_issues : Nat)
    (cs : List Candidate) (c : Candidate) :
    (score HAMMING MAX_LOOKUP_SIZE num_issues cs c).id = c.id ∧
      (score HAMMING MAX_LOOKUP_SIZE num_issues cs c).votes = c.votes := by
  unfold score
  split
  · rename_i r hr
    obtain ⟨h1, h2, -⟩ := compute_candidate_statistics_spec _ _ _ _ _ _ hr
    exact ⟨h1, h2⟩
  · exact ⟨rfl, rfl⟩

theorem map_score_id (HAMMING : Nat → Nat) (MAX_LOOKUP_SIZE num_issues : Nat)
    (cs l : List Candidate) :
    (l.map (score HAMMING MAX_LOOKUP_SIZE num_issues cs)).map Candidate.id
      = l.map Candidate.id := by
  rw [List.map_map]
  apply List.map_congr_left
  intro c _
  exact (score_id_votes HAMMING MAX_LOOKUP_SIZE num_issues cs c).1

theorem map_score_votes (HAMMING : Nat → Nat) (MAX_LOOKUP_SIZE num_issues : Nat)
    (cs l : List Candidate) :
    (l.map (score HAMMING MAX_LOOKUP_SIZE num_issues cs)).map Candidate.votes
      = l.map Candidate.votes := by
  rw [List.map_map]
  apply List.map_congr_left
  intro c _
  exact (score_id_votes HAMMING MAX_LOOKUP_SIZE num_issues cs c).2

/-- The stance of a candidate on issue `w`, as the loop computes it, is 1
exactly when bit `w` of its id is set. -/
theorem stance_eq (id w : Nat) :
    ((id >>> w) &&& 1) % UINT_MOD = if id.testBit w then 1 else 0 := by
  rw [Nat.and_one_is_mod, Nat.shiftRight_eq_div_pow, Nat.testBit_to_div_mod]
  have h : id / 2 ^ w % 2 < 2 := Nat.mod_lt _ (by decide)
  have hM : (2 : Nat) < UINT_MOD := by decide
  rw [Nat.mod_eq_of_lt (by omega)]
  by_cases h1 : id / 2 ^ w % 2 = 1
  · simp [h1]
  · simp [h1]; omega

/-- The stance loop adds the votes of `c` to the tally of every issue
`a ≤ w < a + k` on which `c` has stance 1 and leaves the other entries alone. -/
theorem stance_poll_loop_spec (c : Candidate) (k a : Nat) (sp : Nat → Nat)
    (hak : a + k ≤ 64) :
    ∃ sp', stance_poll_loop c (List.range' a k) sp = .ok sp' ∧
      ∀ w, sp' w =
        if a ≤ w ∧ w < a + k then
          (sp w + (if c.id.testBit w then c.votes else 0) % UINT_MOD) % UINT_MOD
        else sp w := by
  induction k generalizing a sp with
  | zero =>
    refine ⟨sp, rfl, ?_⟩
    intro w
    rw [if_neg (by omega)]
  | succ k ih =>
    rw [List.range'_succ]
    unfold stance_poll_loop
    rw [if_pos (by omega)]
    dsimp only
    obtain ⟨sp', hsp', hw⟩ := ih (a + 1) _ (by omega)
    refine ⟨sp', hsp', ?_⟩
    intro w
    rw [hw w]
    by_cases hwa : w = a
    · subst hwa
      rw [if_neg (show ¬(w + 1 ≤ w ∧ w < w + 1 + k) by omega),
        if_pos (show w ≤ w ∧ w < w + (k + 1) by omega), Function.update_same, stance_eq]
      split_ifs <;> simp
    · rw [Function.update_noteq hwa]
      by_cases hin : a + 1 ≤ w ∧ w < a + 1 + k
      · rw [if_pos hin, if_pos (show a ≤ w ∧ w < a + (k + 1) by omega)]
      · rw [if_neg hin, if_neg (show ¬(a ≤ w ∧ w < a + (k + 1)) by omega)]

theorem uint_add_assoc (a b c : Nat) :
    ((a + b % UINT_MOD) % UINT_MOD + c) % UINT_MOD = (a + (b + c)) % UINT_MOD := by
  unfold UINT_MOD
  omega

/-- Invariant of the loop of `compute_election_statistics` on the array
`cs = pre ++ post` when the members of `pre` have been scored: the loop
returns, every member ends up scored against `cs`, and the two tallies have
grown by the votes of the members of `post`. -/
theorem compute_election_statistics_loop_spec (HAMMING : Nat → Nat)
    (MAX_LOOKUP_SIZE : Nat) (hM : MAX_LOOKUP_SIZE = 1 ∨ MAX_LOOKUP_SIZE = 2)
    (num_issues : Nat) (hni : num_issues ≤ 64) (cs : List Candidate) :
    ∀ (post pre : List Candidate) (s : ElectionStatistics),
      cs = pre ++ post →
      s.candidates = pre.map (score HAMMING MAX_LOOKUP_SIZE num_issues cs) ++ post →
      (∀ w, s.stance_poll w < UINT_MOD) → (∀ x, s.hitler_table x < UINT_MOD) →
      ∃ s', compute_election_statistics_loop HAMMING MAX_LOOKUP_SIZE num_issues
          (List.range' pre.length post.length) s = .ok s' ∧
        s'.candidates = cs.map (score HAMMING MAX_LOOKUP_SIZE num_issues cs) ∧
        (∀ w, s'.stance_poll w =
          if w < num_issues then
            (s.stance_poll w
              + (post.map fun c => if c.id.testBit w then c.votes else 0).sum) % UINT_MOD
          else s.stance_poll w) ∧
        (∀ x, s'.hitler_table x =
          (s.hitler_table x
            + (post.map fun c =>
                if (score HAMMING MAX_LOOKUP_SIZE num_issues cs c).hitler = x
                then c.votes else 0).sum) % UINT_MOD) := by
  intro post
  induction post with
  | nil =>
    intro pre s hcs hs hsp hht
    refine ⟨s, rfl, ?_, ?_, ?_⟩
    · rw [hs, hcs]; simp
    · intro w
      simp [Nat.mod_eq_of_lt (hsp w)]
    · intro x
      simp [Nat.mod_eq_of_lt (hht x)]
  | cons c rest ih =>
    intro pre s hcs hs hsp hht
    have hread : read_at s.candidates pre.length = .ok c := by
      unfold read_at
      rw [hs, List.getElem?_append_right (by simp)]
      simp
    have hids : s.candidates.map Candidate.id = cs.map Candidate.id := by
      rw [hs, hcs, List.map_append, List.map_append, map_score_id]
    have hvotes : s.candidates.map Candidate.votes = cs.map Candidate.votes := by
      rw [hs, hcs, List.map_append, List.map_append, map_score_votes]
    have hccs : compute_candidate_statistics HAMMING MAX_LOOKUP_SIZE num_issues c
        s.candidates = .ok (score HAMMING MAX_LOOKUP_SIZE num_issues cs c) := by
      rw [compute_candidate_statistics_congr _ _ _ _ _ _ hids hvotes]
      exact compute_candidate_statistics_eq_score HAMMING MAX_LOOKUP_SIZE hM num_issues c cs
    obtain ⟨hrid, hrvotes⟩ := score_id_votes HAMMING MAX_LOOKUP_SIZE num_issues cs c
    obtain ⟨sp', hsp', hspw⟩ := stance_poll_loop_spec
      (score HAMMING MAX_LOOKUP_SIZE num_issues cs c) num_issues 0 s.stance_poll (by omega)
    rw [List.length_cons, List.range'_succ]
    unfold compute_election_statistics_loop
    rw [hread]
    dsimp only
    rw [hccs]
    dsimp only
    rw [hsp']
    dsimp only
    have hset : s.candidates.set pre.length (score HAMMING MAX_LOOKUP_SIZE num_issues cs c)
        = (pre ++ [c]).map (score HAMMING MAX_LOOKUP_SIZE num_issues cs) ++ rest := by
      rw [hs, List.set_append_right _ _ (by simp)]
      simp
    obtain ⟨s', hs', hcand, hsp2, hht2⟩ := ih (pre ++ [c])
      { candidates := s.candidates.set pre.length
          (score HAMMING MAX_LOOKUP_SIZE num_issues cs c),
        stance_poll := sp',
        hitler_table := Function.update s.hitler_table
          (score HAMMING MAX_LOOKUP_SIZE num_issues cs c).hitler
          ((s.hitler_table (score HAMMING MAX_LOOKUP_SIZE num_issues cs c).hitler
            + (score HAMMING MAX_LOOKUP_SIZE num_issues cs c).votes) % UINT_MOD) }
      (by rw [hcs]; simp) hset
      (by
        intro w
        dsimp only
        rw [hspw w]
        split
        · exact Nat.mod_lt _ (by decide)
        · exact hsp w)
      (by
        intro x
        dsimp only
        by_cases hx : x = (score HAMMING MAX_LOOKUP_SIZE num_issues cs c).hitler
        · rw [hx, Function.update_same]
          exact Nat.mod_lt _ (by decide)
        · rw [Function.update_noteq hx]
          exact hht x)
    rw [List.length_append, List.length_singleton] at hs'
    refine ⟨s', hs', hcand, ?_, ?_⟩
    · intro w
      rw [hsp2 w]
      dsimp only
      rw [hspw w, hrid, hrvotes]
      by_cases hw : w < num_issues
      · rw [if_pos hw, if_pos hw, if_pos (show 0 ≤ w ∧ w < 0 + num_issues by omega),
          List.map_cons, List.sum_cons]
        exact uint_add_assoc _ _ _
      · rw [if_neg hw, if_neg hw, if_neg (show ¬(0 ≤ w ∧ w < 0 + num_issues) by omega)]
    · intro x
      rw [hht2 x]
      dsimp only
      rw [List.map_cons, List.sum_cons, hrvotes]
      by_cases hx : (score HAMMING MAX_LOOKUP_SIZE num_issues cs c).hitler = x
      · rw [if_pos hx, ← hx, Function.update_same]
        have := uint_add_assoc
          (s.hitler_table (score HAMMING MAX_LOOKUP_SIZE num_issues cs c).hitler) c.votes
        rw [← this]
        unfold UINT_MOD
        omega
      · rw [if_neg hx, Function.update_noteq (Ne.symm hx), Nat.zero_add]

/-- A sum of conditional terms is the sum over the filtered list. -/
theorem sum_ite_eq_sum_filter {α : Type} (p : α → Bool) (f : α → Nat) (l : List α) :
    (l.map fun c => if p c then f c else 0).sum = ((l.filter p).map f).sum := by
  induction l with
  | nil => rfl
  | cons c rest ih =>
    rw [List.map_cons, List.sum_cons, ih, List.filter_cons]
    by_cases hp : p c = true
    · rw [if_pos hp, if_pos hp, List.map_cons, List.sum_cons]
    · rw [if_neg hp, if_neg hp, Nat.zero_add]

theorem sum_filter_le {α : Type} (p : α → Bool) (f : α → Nat) (l : List α) :
    ((l.filter p).map f).sum ≤ (l.map f).sum := by
  induction l with
  | nil => exact Nat.le_refl _
  | cons c rest ih =>
    rw [List.filter_cons]
    by_cases hp : p c = true
    · rw [if_pos hp, List.map_cons, List.sum_cons, List.map_cons, List.sum_cons]
      omega
    · rw [if_neg hp, List.map_cons, List.sum_cons]
      omega

/-- `compute_election_statistics` returns; every member of the array is
replaced by its scored version, and the tallies grow, modulo `2^32`, by the
votes of the members with the given stance and the given antagonist. -/
theorem compute_election_statistics_spec (HAMMING : Nat → Nat)
    (MAX_LOOKUP_SIZE : Nat) (hM : MAX_LOOKUP_SIZE = 1 ∨ MAX_LOOKUP_SIZE = 2)
    (num_issues : Nat) (hni : num_issues ≤ 64) (stance_poll hitler_table : Nat → Nat)
    (hsp : ∀ w, stance_poll w < UINT_MOD) (hht : ∀ x, hitler_table x < UINT_MOD)
    (cs : List Candidate) :
    ∃ s, compute_election_statistics HAMMING MAX_LOOKUP_SIZE num_issues stance_poll
        hitler_table cs = .ok s ∧
      s.candidates = cs.map (score HAMMING MAX_LOOKUP_SIZE num_issues cs) ∧
      (∀ w, w < num_issues → s.stance_poll w =
        (stance_poll w
          + ((cs.filter fun c => c.id.testBit w).map Candidate.votes).sum) % UINT_MOD) ∧
      (∀ x, s.hitler_table x =
        (hitler_table x
          + ((s.candidates.filter fun c => decide (c.hitler = x)).map
              Candidate.votes).sum) % UINT_MOD) := by
  obtain ⟨s, hs, hcand, hsp2, hht2⟩ := compute_election_statistics_loop_spec HAMMING
    MAX_LOOKUP_SIZE hM num_issues hni cs cs []
    { candidates := cs, stance_poll := stance_poll, hitler_table := hitler_table }
    rfl rfl hsp hht
  refine ⟨s, hs, hcand, ?_, ?_⟩
  · intro w hw
    rw [hsp2 w, if_pos hw, ← sum_ite_eq_sum_filter]
  · intro x
    rw [hht2 x, hcand, ← sum_ite_eq_sum_filter, List.map_map]
    congr 3
    apply List.map_congr_left
    intro c _
    simp only [Function.comp, decide_eq_true_eq]
    rw [(score_id_votes HAMMING MAX_LOOKUP_SIZE num_issues cs c).2]

/-! ## The sorted array and the two poles: helper lemmas -/

/-- What a sort of the scored active list keeps: the length, and every entry
is the scored version of an active candidate. -/
theorem qsort_result_scored (HAMMING : Nat → Nat) (MAX_LOOKUP_SIZE num_issues : Nat)
    (cs sorted : List Candidate)
    (hq : qsort_result (cs.map (score HAMMING MAX_LOOKUP_SIZE num_issues cs)) sorted) :
    sorted.length = cs.length ∧
      ∀ p ∈ sorted, ∃ c ∈ cs, p = score HAMMING MAX_LOOKUP_SIZE num_issues cs c ∧
        p.id = c.id ∧ p.votes = c.votes := by
  constructor
  · rw [hq.1.length_eq, List.length_map]
  · intro p hp
    have hp2 := hq.1.mem_iff.mp hp
    rw [List.mem_map] at hp2
    obtain ⟨c, hc, hcp⟩ := hp2
    refine ⟨c, hc, hcp.symm, ?_⟩
    rw [← hcp]
    exact score_id_votes HAMMING MAX_LOOKUP_SIZE num_issues cs c

/-- On an array that starts with a list of at least two candidates sorted by
votes descending, `status_quo` is initialised with the first two of them, which
have the highest votes. -/
theorem status_quo_init_spec (sorted tail : List Candidate) (hn : 2 ≤ sorted.length)
    (hs : sorted.Pairwise (fun a b => a.votes ≥ b.votes)) :
    ∃ p0 p1 rest, sorted = p0 :: p1 :: rest ∧
      status_quo_init (sorted ++ tail) = .ok (p0, p1) ∧
      (∀ c ∈ sorted, c.votes ≤ p0.votes) ∧ (∀ c ∈ p1 :: rest, c.votes ≤ p1.votes) := by
  match sorted, hn, hs with
  | p0 :: p1 :: rest, _, hs =>
    refine ⟨p0, p1, rest, rfl, by simp [status_quo_init, read_at], ?_, ?_⟩
    · intro c hc
      rw [List.pairwise_cons] at hs
      rcases List.mem_cons.mp hc with h | h
      · rw [h]
      · exact hs.1 c h
    · intro c hc
      rw [List.pairwise_cons, List.pairwise_cons] at hs
      rcases List.mem_cons.mp hc with h | h
      · rw [h]
      · exact hs.2.1 c h

/-- A scan state with a positive count lists at least one index. -/
theorem range_map_ne_nil (f : Nat → Nat) (n : Nat) (h : 1 ≤ n) :
    (List.range n).map f ≠ [] := by
  intro hnil
  have hlen := congrArg List.length hnil
  rw [List.length_map, List.length_range, List.length_nil] at hlen
  omega

/-- On a non-empty sorted list each of the three winner lists is non-empty and
holds only indices into the list. -/
theorem find_winners_in_range (cs : List Candidate) (ht : Nat → Nat) (w0 : Winners)
    (hne : cs ≠ []) :
    (find_winners cs ht w0).traditional ≠ [] ∧
      (find_winners cs ht w0).approval ≠ [] ∧
      (find_winners cs ht w0).hitler ≠ [] ∧
      (∀ i ∈ (find_winners cs ht w0).traditional, i < cs.length) ∧
      (∀ i ∈ (find_winners cs ht w0).approval, i < cs.length) ∧
      (∀ i ∈ (find_winners cs ht w0).hitler, i < cs.length) := by
  obtain ⟨m, hm1, hmlen, hnum, helected, -, -, hA, hH⟩ := find_winners_spec cs ht w0 hne
  refine ⟨?_, range_map_ne_nil _ _ hA.1, range_map_ne_nil _ _ hH.1, ?_, ?_, ?_⟩
  · unfold Winners.traditional
    rw [hnum]
    exact range_map_ne_nil _ _ hm1
  · intro i hi
    unfold Winners.traditional at hi
    rw [hnum, List.mem_map] at hi
    obtain ⟨p, hp, hpi⟩ := hi
    rw [List.mem_range] at hp
    rw [helected p hp] at hpi
    omega
  · intro i hi
    exact (((MinInv_winners _ _ _ hA).2 i).mp hi).1
  · intro i hi
    exact (((MinInv_winners _ _ _ hH).2 i).mp hi).1

/-! ## The bounded sampler outside and inside its precondition: helper lemmas -/

/-- With `reject = 0` the sampling loop rejects every draw. -/
theorem rand_ceiling_loop_reject_zero (m : Nat) (draws : List Nat) :
    rand_ceiling_loop 0 m draws = .error .out_of_draws := by
  induction draws with
  | nil => rfl
  | cons d ds ih =>
    unfold rand_ceiling_loop
    rw [if_pos (Nat.zero_le d)]
    exact ih

theorem rand_ceiling_zero (RAND_MAX : Nat) (draws : List Nat) :
    rand_ceiling RAND_MAX 0 draws = .error .div_by_zero := by
  simp [rand_ceiling]

/-- A ceiling above `RAND_MAX + 1` makes `reject_multiplier` and `reject` 0, so
every draw is rejected. -/
theorem rand_ceiling_above_range (RAND_MAX ceiling : Nat) (hc : RAND_MAX + 1 < ceiling)
    (draws : List Nat) :
    rand_ceiling RAND_MAX ceiling draws = .error .out_of_draws := by
  unfold rand_ceiling
  rw [if_neg (by omega)]
  have hle : (RAND_MAX + 1) % UINT_MOD ≤ RAND_MAX + 1 := Nat.mod_le _ _
  have hm : (RAND_MAX + 1) % UINT_MOD / ceiling = 0 :=
    Nat.div_eq_of_lt (by omega)
  simp only [hm, Nat.mul_zero, Nat.zero_mod]
  exact rand_ceiling_loop_reject_zero 0 draws

/-- The sampling loop on a stream that holds a value below `reject`: the
values before the first such value are skipped, and the loop returns with the
stream that follows it. -/
theorem rand_ceiling_loop_first (reject m : Nat) (draws : List Nat)
    (hex : ∃ x ∈ draws, x < reject) :
    ∃ skipped r rest, draws = skipped ++ r :: rest ∧ (∀ x ∈ skipped, reject ≤ x) ∧
      r < reject ∧ rand_ceiling_loop reject m draws = .ok (r / m, rest) := by
  induction draws with
  | nil =>
    obtain ⟨x, hx, -⟩ := hex
    simp at hx
  | cons d ds ih =>
    unfold rand_ceiling_loop
    by_cases hd : d ≥ reject
    · rw [if_pos hd]
      have hex2 : ∃ x ∈ ds, x < reject := by
        obtain ⟨x, hx, hlt⟩ := hex
        rcases List.mem_cons.mp hx with h | h
        · subst h; omega
        · exact ⟨x, h, hlt⟩
      obtain ⟨sk, r, rest, hds, hsk, hr, hres⟩ := ih hex2
      refine ⟨d :: sk, r, rest, by rw [hds]; rfl, ?_, hr, hres⟩
      intro x hx
      rcases List.mem_cons.mp hx with h | h
      · subst h; exact hd
      · exact hsk x h
    · rw [if_neg hd]
      exact ⟨[], d, ds, rfl, by simp, by omega, rfl⟩

/-- One pass of the loop of `compute_candidate_statistics` when the distance to
the member at the head of the list is known. -/
theorem compute_candidate_statistics_loop_cons {HAMMING : Nat → Nat}
    {MAX_LOOKUP_SIZE : Nat} (num_issues : Nat) (x : Candidate) (rest : List Candidate)
    (c : Candidate) (m d : Nat)
    (h : hamming_weight HAMMING MAX_LOOKUP_SIZE (c.id ^^^ x.id) = .ok d) :
    compute_candidate_statistics_loop HAMMING MAX_LOOKUP_SIZE num_issues (x :: rest) c m
      = compute_candidate_statistics_loop HAMMING MAX_LOOKUP_SIZE num_issues rest
          (compute_candidate_statistics_body num_issues d x c m).1
          (compute_candidate_statistics_body num_issues d x c m).2 := by
  rw [compute_candidate_statistics_loop, h]

/-! ## Disapproval issue by issue: helper lemmas -/

theorem bit_sum_eq_sum_testBit (n x : Nat) :
    bit_sum n x = ((List.range n).map fun w => if x.testBit w then 1 else 0).sum := by
  induction n generalizing x with
  | zero => rfl
  | succ n ih =>
    rw [bit_sum, List.range_succ_eq_map, List.map_cons, List.sum_cons, List.map_map, ih (x / 2)]
    congr 1
    · rw [Nat.testBit_zero]
      have h2 : x % 2 < 2 := Nat.mod_lt _ (by decide)
      by_cases h : x % 2 = 1
      · simp [h]
      · simp [h]; omega
    · congr 1
      apply List.map_congr_left
      intro w _
      simp only [Function.comp, Nat.testBit_succ]

/-- The bit count of the XOR of two ids counts the issues on which they
differ. -/
theorem popcount_xor_eq_sum (n a b : Nat) (ha : a < 2 ^ n) (hb : b < 2 ^ n) :
    popcount (a ^^^ b)
      = ((List.range n).map fun w => if a.testBit w = b.testBit w then 0 else 1).sum := by
  rw [popcount_eq_bit_sum n _ (Nat.xor_lt_two_pow ha hb), bit_sum_eq_sum_testBit]
  congr 1
  apply List.map_congr_left
  intro w _
  rw [Nat.testBit_xor]
  cases a.testBit w <;> cases b.testBit w <;> rfl

theorem sum_map_sum_mul (cs : List Candidate) (ws : List Nat) (f : Nat → Candidate → Nat) :
    (cs.map fun h => (ws.map fun w => f w h).sum * h.votes).sum
      = (ws.map fun w => (cs.map fun h => f w h * h.votes).sum).sum := by
  induction cs with
  | nil => simp
  | cons x rest ih =>
    simp only [List.map_cons, List.sum_cons]
    rw [ih, List.sum_map_add, List.sum_map_mul_right]

theorem stance_votes_le (cs : List Candidate) (w : Nat) :
    stance_votes cs w ≤ (cs.map Candidate.votes).sum :=
  sum_filter_le _ Candidate.votes cs

/-- The votes that disagree with stance `b` on issue `w`. -/
theorem issue_disagreement (cs : List Candidate) (b : Bool) (w : Nat) :
    (cs.map fun h => (if b = h.id.testBit w then 0 else 1) * h.votes).sum
      = if b then (cs.map Candidate.votes).sum - stance_votes cs w
        else stance_votes cs w := by
  induction cs with
  | nil => cases b <;> rfl
  | cons x rest ih =>
    have hle := stance_votes_le rest w
    simp only [List.map_cons, List.sum_cons, stance_votes, List.filter_cons] at ih hle ⊢
    rw [ih]
    cases b <;> cases hx : x.id.testBit w <;> simp <;> omega

/-- The weighted distance of an id from a list, issue by issue: the voters who
hold stance 0 on an issue disagree with stance 1 and the other way round. -/
theorem weighted_distance_by_issue (HAMMING : Nat → Nat) (MAX_LOOKUP_SIZE : Nat)
    (hM : MAX_LOOKUP_SIZE = 1 ∨ MAX_LOOKUP_SIZE = 2)
    (htab : ∀ i, i < 65536 → HAMMING i = popcount i) (num_issues : Nat)
    (hni : num_issues ≤ 32) (c : Nat) (hc : c < 2 ^ num_issues) (cs : List Candidate)
    (hids : ∀ h ∈ cs, h.id < 2 ^ num_issues) :
    (cs.map fun h => distance HAMMING MAX_LOOKUP_SIZE c h.id * h.votes).sum
      = ((List.range num_issues).map fun w =>
          if c.testBit w then (cs.map Candidate.votes).sum - stance_votes cs w
          else stance_votes cs w).sum := by
  have hpow : 2 ^ num_issues ≤ 2 ^ 32 := Nat.pow_le_pow_right (by decide) hni
  have h1 : (cs.map fun h => distance HAMMING MAX_LOOKUP_SIZE c h.id * h.votes)
      = cs.map fun h => ((List.range num_issues).map fun w =>
          if c.testBit w = h.id.testBit w then 0 else 1).sum * h.votes := by
    apply List.map_congr_left
    intro h hh
    rw [distance_eq_popcount HAMMING MAX_LOOKUP_SIZE hM htab c h.id
      (Nat.lt_of_lt_of_le hc hpow) (Nat.lt_of_lt_of_le (hids h hh) hpow),
      popcount_xor_eq_sum num_issues c h.id hc (hids h hh)]
  rw [h1, sum_map_sum_mul cs (List.range num_issues)
    (fun w h => if c.testBit w = h.id.testBit w then 0 else 1)]
  congr 1
  apply List.map_congr_left
  intro w _
  exact issue_disagreement cs (c.testBit w) w

/-- A sum over a list that reads only the id and the votes of each member does
not depend on the order of the list or on the other fields. -/
theorem sum_by_ballot (F : Nat → Nat → Nat) (l1 l2 : List Candidate)
    (h : (l1.map Candidate.ballot).Perm (l2.map Candidate.ballot)) :
    (l1.map fun x => F x.id x.votes).sum = (l2.map fun x => F x.id x.votes).sum := by
  have e : ∀ l : List Candidate, (l.map fun x => F x.id x.votes)
      = (l.map Candidate.ballot).map (fun p => F p.1 p.2) := by
    intro l
    rw [List.map_map]
    rfl
  rw [e l1, e l2]
  exact (h.map _).sum_eq

/-- The sorted scored list holds the ids and votes of the active list. -/
theorem ballot_sorted_scored (HAMMING : Nat → Nat) (MAX_LOOKUP_SIZE num_issues : Nat)
    (cs sorted : List Candidate)
    (hq : qsort_result (cs.map (score HAMMING MAX_LOOKUP_SIZE num_issues cs)) sorted) :
    (sorted.map Candidate.ballot).Perm (cs.map Candidate.ballot) := by
  have h := hq.1.map Candidate.ballot
  rw [List.map_map] at h
  have e : cs.map (Candidate.ballot ∘ score HAMMING MAX_LOOKUP_SIZE num_issues cs)
      = cs.map Candidate.ballot := by
    apply List.map_congr_left
    intro c _
    obtain ⟨h1, h2⟩ := score_id_votes HAMMING MAX_LOOKUP_SIZE num_issues cs c
    simp only [Function.comp, Candidate.ballot, h1, h2]
  rw [e] at h
  exact h

/-- The four sums of `compute_candidate_statistics` depend on the candidate
only through its id and on the comparison list only through the ids and votes
it holds, in any order. -/
theorem compute_candidate_statistics_perm (HAMMING : Nat → Nat)
    (MAX_LOOKUP_SIZE num_issues : Nat) (c1 c2 : Candidate) (l1 l2 : List Candidate)
    (r1 r2 : Candidate) (hid : c1.id = c2.id)
    (hperm : (l1.map Candidate.ballot).Perm (l2.map Candidate.ballot))
    (h1 : compute_candidate_statistics HAMMING MAX_LOOKUP_SIZE num_issues c1 l1 = .ok r1)
    (h2 : compute_candidate_statistics HAMMING MAX_LOOKUP_SIZE num_issues c2 l2 = .ok r2) :
    r1.pro = r2.pro ∧ r1.contra = r2.contra ∧ r1.medius = r2.medius ∧
      r1.sum_disapproval = r2.sum_disapproval := by
  obtain ⟨-, -, a3, a4, a5, a6⟩ := compute_candidate_statistics_spec _ _ _ _ _ _ h1
  obtain ⟨-, -, b3, b4, b5, b6⟩ := compute_candidate_statistics_spec _ _ _ _ _ _ h2
  rw [a3, a4, a5, a6, b3, b4, b5, b6, hid]
  refine ⟨?_, ?_, ?_, ?_⟩
  · rw [sum_by_ballot (fun i v =>
      if 2 * distance HAMMING MAX_LOOKUP_SIZE c2.id i < num_issues then v else 0) l1 l2 hperm]
  · rw [sum_by_ballot (fun i v =>
      if 2 * distance HAMMING MAX_LOOKUP_SIZE c2.id i > num_issues then v else 0) l1 l2 hperm]
  · rw [sum_by_ballot (fun i v =>
      if 2 * distance HAMMING MAX_LOOKUP_SIZE c2.id i = num_issues then v else 0) l1 l2 hperm]
  · rw [sum_by_ballot (fun i v =>
      distance HAMMING MAX_LOOKUP_SIZE c2.id i * v) l1 l2 hperm]

theorem stance_votes_eq_sum (cs : List Candidate) (w : Nat) :
    stance_votes cs w = (cs.map fun x => if x.id.testBit w then x.votes else 0).sum := by
  unfold stance_votes
  exact (sum_ite_eq_sum_filter (fun c => c.id.testBit w) Candidate.votes cs).symm

/-- For a list whose votes, times the number of issues, fit in an `unsigned`,
and ids below `2 ^ num_issues`: `compute_candidate_statistics` against any
arrangement of the list returns, and its `sum_disapproval` is, issue by issue,
the number of voters with the other stance. -/
theorem sum_disapproval_by_issue (HAMMING : Nat → Nat) (MAX_LOOKUP_SIZE : Nat)
    (hM : MAX_LOOKUP_SIZE = 1 ∨ MAX_LOOKUP_SIZE = 2)
    (htab : ∀ i, i < 65536 → HAMMING i = popcount i) (num_issues : Nat)
    (hni : num_issues ≤ 32) (cs : List Candidate)
    (hids : ∀ h ∈ cs, h.id < 2 ^ num_issues)
    (hfit : (cs.map Candidate.votes).sum * num_issues < UINT_MOD)
    (c : Candidate) (hc : c.id < 2 ^ num_issues) (l : List Candidate)
    (hperm : (l.map Candidate.ballot).Perm (cs.map Candidate.ballot)) :
    ∃ r, compute_candidate_statistics HAMMING MAX_LOOKUP_SIZE num_issues c l = .ok r ∧
      r.sum_disapproval = ((List.range num_issues).map fun w =>
        if c.id.testBit w then (cs.map Candidate.votes).sum - stance_votes cs w
        else stance_votes cs w).sum := by
  obtain ⟨r, hr⟩ := compute_candidate_statistics_ok HAMMING MAX_LOOKUP_SIZE hM num_issues c l
  obtain ⟨-, -, -, -, -, h6⟩ := compute_candidate_statistics_spec _ _ _ _ _ _ hr
  refine ⟨r, hr, ?_⟩
  rw [h6, sum_by_ballot (fun i v => distance HAMMING MAX_LOOKUP_SIZE c.id i * v) l cs hperm]
  have hle := weighted_sum_le (fun h => distance HAMMING MAX_LOOKUP_SIZE c.id h.id)
    num_issues cs
    (fun x hx => (distance_le HAMMING MAX_LOOKUP_SIZE hM htab num_issues c.id x.id hc
      (hids x hx)).2)
  rw [Nat.mod_eq_of_lt (Nat.lt_of_le_of_lt hle hfit)]
  exact weighted_distance_by_issue HAMMING MAX_LOOKUP_SIZE hM htab num_issues hni c.id hc cs
    hids

/-- The stance tally that `compute_election_statistics` leaves, started from
zero, is exact for a list whose votes fit in an `unsigned`. -/
theorem stance_poll_exact (cs : List Candidate) (num_issues : Nat) (sp : Nat → Nat)
    (hfit : (cs.map Candidate.votes).sum * num_issues < UINT_MOD)
    (hsp : ∀ w, w < num_issues → sp w = (0 + stance_votes cs w) % UINT_MOD) :
    ∀ w, w < num_issues → sp w = stance_votes cs w := by
  intro w hw
  rw [hsp w hw, Nat.zero_add]
  apply Nat.mod_eq_of_lt
  have h1 := stance_votes_le cs w
  have h2 : (cs.map Candidate.votes).sum * 1 ≤ (cs.map Candidate.votes).sum * num_issues :=
    Nat.mul_le_mul_left _ (by omega)
  omega

/-- Choosing on every issue the stance held by at least half of the voters
minimises the issue-by-issue disagreement. -/
theorem washington_terms_le (T : Nat) (S : Nat → Nat) (num_issues wid c : Nat)
    (hbits : ∀ w, wid.testBit w = decide (w < num_issues ∧ S w ≥ T - S w)) :
    ((List.range num_issues).map fun w => if wid.testBit w then T - S w else S w).sum
      ≤ ((List.range num_issues).map fun w => if c.testBit w then T - S w else S w).sum := by
  apply List.sum_le_sum
  intro w hw
  have hlt := List.mem_range.mp hw
  rw [hbits w]
  by_cases h : S w ≥ T - S w
  · rw [decide_eq_true (show w < num_issues ∧ S w ≥ T - S w from ⟨hlt, h⟩), if_pos rfl]
    split <;> omega
  · rw [decide_eq_false (show ¬(w < num_issues ∧ S w ≥ T - S w) from fun hh => h hh.2),
      if_neg Bool.false_ne_true]
    split <;> omega

/-! ## The two poles after the reduction: helper lemmas -/

theorem perm_pair {α : Type} (a b c d : α) (h : [a, b].Perm [c, d]) :
    (a = c ∧ b = d) ∨ (a = d ∧ b = c) := by
  have h1 := h.mem_iff (a := a)
  have h3 := h.symm.mem_iff (a := c)
  simp at h1 h3
  by_cases hac : a = c
  · left
    subst hac
    have := (List.perm_cons a).mp h
    simpa using this
  · right
    have had : a = d := by tauto
    subst had
    have hbc : c = b := by
      rcases h3 with h | h
      · exact absurd h.symm hac
      · exact h
    exact ⟨rfl, hbc.symm⟩

/-- Sorting the two poles gives them back in one of the two orders, the one
with more votes first. -/
theorem qsort_result_pair (q0 q1 : Candidate) (poles : List Candidate)
    (h : qsort_result [q0, q1] poles) :
    ∃ a b, poles = [a, b] ∧ b.votes ≤ a.votes ∧
      ((a = q0 ∧ b = q1) ∨ (a = q1 ∧ b = q0)) := by
  have hlen := h.1.length_eq
  have hsorted := qsort_result_sorted h
  match poles, hlen, h, hsorted with
  | [a, b], _, h, hsorted =>
    refine ⟨a, b, rfl, ?_, perm_pair a b q0 q1 h.1⟩
    rw [List.pairwise_cons] at hsorted
    exact hsorted.1 b (List.mem_singleton_self b)

/-- The two-party election returns, and changes nothing of the two poles but
their votes. -/
theorem two_party_frame (HAMMING : Nat → Nat) (MAX_LOOKUP_SIZE : Nat)
    (hM : MAX_LOOKUP_SIZE = 1 ∨ MAX_LOOKUP_SIZE = 2) (p0 p1 : Candidate)
    (cs : List Candidate) :
    ∃ v0 v1, two_party HAMMING MAX_LOOKUP_SIZE p0 p1 cs
      = .ok ({ p0 with votes := v0 }, { p1 with votes := v1 }) := by
  unfold two_party
  rw [two_party_loop_spec HAMMING MAX_LOOKUP_SIZE hM cs _ _
    (show (0 : Nat) < UINT_MOD by decide) (show (0 : Nat) < UINT_MOD by decide)]
  exact ⟨_, _, rfl⟩

theorem status_quo_init_ok (candidates : List Candidate) (h2 : 2 ≤ candidates.length) :
    ∃ p0 p1 rest, candidates = p0 :: p1 :: rest ∧
      status_quo_init candidates = .ok (p0, p1) := by
  match candidates, h2 with
  | p0 :: p1 :: rest, _ => exact ⟨p0, p1, rest, rfl, by simp [status_quo_init, read_at]⟩

/-- The two-party block on an array of at least two entries: it returns the
array as it was, and the poles are the first two entries with new votes. -/
theorem two_party_block_spec (HAMMING : Nat → Nat) (MAX_LOOKUP_SIZE : Nat)
    (hM : MAX_LOOKUP_SIZE = 1 ∨ MAX_LOOKUP_SIZE = 2) (num_candidates : Nat)
    (candidates : List Candidate) (h2 : 2 ≤ candidates.length) :
    ∃ p0 p1 rest v0 v1, candidates = p0 :: p1 :: rest ∧
      status_quo_init candidates = .ok (p0, p1) ∧
      two_party HAMMING MAX_LOOKUP_SIZE p0 p1 (candidates.take num_candidates)
        = .ok ({ p0 with votes := v0 }, { p1 with votes := v1 }) ∧
      two_party_block HAMMING MAX_LOOKUP_SIZE num_candidates candidates
        = .ok (candidates, { p0 with votes := v0 }, { p1 with votes := v1 }) := by
  obtain ⟨p0, p1, rest, hc, hinit⟩ := status_quo_init_ok candidates h2
  obtain ⟨v0, v1, htp⟩ := two_party_frame HAMMING MAX_LOOKUP_SIZE hM p0 p1
    (candidates.take num_candidates)
  refine ⟨p0, p1, rest, v0, v1, hc, hinit, htp, ?_⟩
  unfold two_party_block
  rw [hinit]
  dsimp only
  rw [htp]

/-- Recomputing the statistics of an entry of the sorted scored list, with any
votes in its `votes` field, against the sorted list gives the four sums the
entry already holds. -/
theorem sorted_entry_rescored (HAMMING : Nat → Nat) (MAX_LOOKUP_SIZE : Nat)
    (hM : MAX_LOOKUP_SIZE = 1 ∨ MAX_LOOKUP_SIZE = 2) (num_issues : Nat)
    (cs sorted : List Candidate)
    (hq : qsort_result (cs.map (score HAMMING MAX_LOOKUP_SIZE num_issues cs)) sorted)
    (p : Candidate) (hp : p ∈ sorted) (v : Nat) :
    ∃ r, compute_candidate_statistics HAMMING MAX_LOOKUP_SIZE num_issues
        { p with votes := v } sorted = .ok r ∧
      r.pro = p.pro ∧ r.contra = p.contra ∧ r.medius = p.medius ∧
      r.sum_disapproval = p.sum_disapproval := by
  obtain ⟨r, hr⟩ := compute_candidate_statistics_ok HAMMING MAX_LOOKUP_SIZE hM num_issues
    { p with votes := v } sorted
  obtain ⟨-, hmem⟩ := qsort_result_scored HAMMING MAX_LOOKUP_SIZE num_issues cs sorted hq
  obtain ⟨c0, -, hpc, hpid, -⟩ := hmem p hp
  have hscore := compute_candidate_statistics_eq_score HAMMING MAX_LOOKUP_SIZE hM num_issues
    c0 cs
  rw [← hpc] at hscore
  have hperm := ballot_sorted_scored HAMMING MAX_LOOKUP_SIZE num_issues cs sorted hq
  exact ⟨r, hr, compute_candidate_statistics_perm HAMMING MAX_LOOKUP_SIZE num_issues
    { p with votes := v } c0 sorted cs r p hpid hperm hr hscore⟩

theorem head_two_of_append {α : Type} (sorted tail rest : List α) (p0 p1 : α)
    (hlen : 2 ≤ sorted.length) (hc : sorted ++ tail = p0 :: p1 :: rest) :
    p0 ∈ sorted ∧ p1 ∈ sorted := by
  match sorted, hlen, hc with
  | [], h, _ => simp at h
  | [_], h, _ => simp at h
  | a :: b :: r, _, hc =>
    simp only [List.cons_append, List.cons.injEq] at hc
    rw [← hc.1, ← hc.2.1]
    simp

/-! ## The configuration limits of `main`: helper lemmas -/

/-- The loop of `bit_count` returns the number of shifts that empty the word:
0 for the word 0, and otherwise a count `j` with `2 ^ j ≤ 2 * num`. -/
theorem bit_count_loop_spec (fuel k num c : Nat) (hnum : num < 2 ^ k) (hk : k < fuel)
    (hc : c + k < 256) :
    ∃ j, bit_count_loop fuel num c = .ok (c + j) ∧ (num = 0 → j = 0) ∧
      (num ≠ 0 → 2 ^ j ≤ 2 * num) := by
  induction fuel generalizing k num c with
  | zero => omega
  | succ fuel ih =>
    unfold bit_count_loop
    by_cases h0 : num = 0
    · rw [if_neg (by simpa using h0)]
      exact ⟨0, rfl, fun _ => rfl, fun h => absurd h0 h⟩
    · rw [if_pos h0]
      have hk1 : 1 ≤ k := by
        rcases Nat.eq_zero_or_pos k with h | h
        · subst h; simp at hnum; omega
        · exact h
      have hhalf : num >>> 1 < 2 ^ (k - 1) := by
        rw [Nat.shiftRight_eq_div_pow, Nat.pow_one]
        have : 2 ^ k = 2 * 2 ^ (k - 1) := by
          rw [← Nat.pow_succ']
          congr 1
          omega
        omega
      obtain ⟨j, hj, hj0, hj1⟩ := ih (k - 1) (num >>> 1) ((c + 1) % 256) hhalf (by omega)
        (by omega)
      refine ⟨j + 1, ?_, fun h => absurd h h0, fun _ => ?_⟩
      · rw [hj]
        congr 1
        omega
      · rw [Nat.shiftRight_eq_div_pow, Nat.pow_one] at hj0 hj1
        rw [Nat.pow_succ]
        by_cases hz : num / 2 = 0
        · rw [hj0 hz]
          omega
        · have := hj1 hz
          omega

theorem bit_count_spec (num : Nat) (hnum : num < 2 ^ 32) :
    ∃ j, bit_count num = .ok j ∧ 2 ^ j ≤ 2 * num + 1 := by
  unfold bit_count
  rw [Nat.mod_eq_of_lt (show num < UINT_MOD from hnum)]
  obtain ⟨j, hj, hj0, hj1⟩ := bit_count_loop_spec 33 32 num 0 hnum (by decide) (by decide)
  rw [Nat.zero_add] at hj
  refine ⟨j, hj, ?_⟩
  by_cases h : num = 0
  · rw [hj0 h]; omega
  · have := hj1 h
    omega

/-- A positive word in which every set bit has all lower bits set is odd. -/
theorem odd_of_or_shift (w m : Nat) (hm : m < 2 ^ w) (h1 : 1 ≤ m)
    (hor : m ||| (m >>> 1) = m) : m % 2 = 1 := by
  induction w generalizing m with
  | zero => simp at hm; omega
  | succ w ih =>
    rw [Nat.shiftRight_eq_div_pow, Nat.pow_one] at hor
    by_cases hz : m / 2 = 0
    · omega
    · have hhalf : m / 2 < 2 ^ w := by rw [Nat.pow_succ] at hm; omega
      have hor2 : m / 2 ||| (m / 2) >>> 1 = m / 2 := by
        rw [Nat.shiftRight_eq_div_pow, Nat.pow_one, ← Nat.or_div_two, hor]
      have hodd := ih (m / 2) hhalf (by omega) hor2
      have hb : (m ||| m / 2).testBit 0 = m.testBit 0 := by rw [hor]
      rw [Nat.testBit_or, Nat.testBit_zero, Nat.testBit_zero] at hb
      simp only [hodd, decide_True, Bool.or_true] at hb
      have := of_decide_eq_true hb.symm
      exact this

/-- A word in which every set bit has all lower bits set is one less than two
to the power of its number of set bits. -/
theorem two_pow_bit_sum_le (w m : Nat) (hm : m < 2 ^ w) (hor : m ||| (m >>> 1) = m) :
    2 ^ bit_sum w m ≤ m + 1 := by
  induction w generalizing m with
  | zero => simp [bit_sum]
  | succ w ih =>
    rw [bit_sum]
    have hhalf : m / 2 < 2 ^ w := by rw [Nat.pow_succ] at hm; omega
    have hor1 : m ||| m / 2 = m := by
      rw [Nat.shiftRight_eq_div_pow, Nat.pow_one] at hor
      exact hor
    have hor2 : m / 2 ||| (m / 2) >>> 1 = m / 2 := by
      rw [Nat.shiftRight_eq_div_pow, Nat.pow_one, ← Nat.or_div_two, hor1]
    have hih := ih (m / 2) hhalf hor2
    by_cases hz : m = 0
    · subst hz
      simp [bit_sum_zero]
    · have hodd := odd_of_or_shift (w + 1) m hm (by omega) hor
      rw [hodd, Nat.pow_add, Nat.pow_one]
      omega

/-- The derived `MAX_ISSUES` is computed, and a pool of `2 ^ MAX_ISSUES` slots
has at most `MAX_POPULATION + 1` of them. -/
theorem max_issues_spec (HAMMING : Nat → Nat) (MAX_LOOKUP_SIZE : Nat)
    (hM : MAX_LOOKUP_SIZE = 1 ∨ MAX_LOOKUP_SIZE = 2)
    (htab : ∀ i, i < 65536 → HAMMING i = popcount i) (m : Nat) (hm : m < 2 ^ 32) :
    ∃ k, max_issues HAMMING MAX_LOOKUP_SIZE m = .ok k ∧ 2 ^ k ≤ m + 1 := by
  unfold max_issues
  rw [hamming_weight_eq_popcount HAMMING MAX_LOOKUP_SIZE hM htab m,
    Nat.mod_eq_of_lt (show m < UINT_MOD from hm), popcount_eq_bit_sum 32 m hm]
  dsimp only
  by_cases hor : m ||| (m >>> 1) = m
  · rw [if_neg (by simpa using hor)]
    exact ⟨_, rfl, two_pow_bit_sum_le 32 m hm hor⟩
  · rw [if_pos hor]
    have hhalf : m >>> 1 < 2 ^ 32 := by
      rw [Nat.shiftRight_eq_div_pow, Nat.pow_one]
      omega
    obtain ⟨j, hj, hle⟩ := bit_count_spec (m >>> 1) hhalf
    refine ⟨j, hj, ?_⟩
    rw [Nat.shiftRight_eq_div_pow, Nat.pow_one] at hle
    omega

/-- While the voters left are at most `bound ≤ RAND_MAX` and the pool has at
most `RAND_MAX + 1` slots, every ceiling that the loop of `perform_election`
passes to `rand_ceiling` is positive and at most `RAND_MAX + 1`. -/
theorem perform_election_ceilings_bound (RAND_MAX pool_size bound : Nat)
    (hR : RAND_MAX + 1 < UINT_MOD) (hpool : pool_size ≤ RAND_MAX + 1)
    (hpool1 : 1 ≤ pool_size) (hb : bound ≤ RAND_MAX) (fuel i : Nat) (st : ElectionState)
    (hvl : st.voters_left ≤ bound) :
    ∀ c ∈ perform_election_ceilings RAND_MAX pool_size fuel i st,
      0 < c ∧ c ≤ RAND_MAX + 1 := by
  induction fuel generalizing i st with
  | zero =>
    intro c hc
    simp [perform_election_ceilings] at hc
  | succ fuel ih =>
    intro c hc
    unfold perform_election_ceilings at hc
    by_cases hg : st.voters_left ≠ 0 ∧ i < size_sub pool_size 1
    · rw [if_pos hg] at hc
      have hi : i < pool_size - 1 := by
        have := hg.2
        rw [size_sub_of_le hpool1] at this
        exact this
      have hM : UINT_MOD = 2 ^ 32 := rfl
      have hc1 : size_sub pool_size i % UINT_MOD = pool_size - i := by
        rw [size_sub_of_le (by omega)]
        exact Nat.mod_eq_of_lt (by omega)
      have hc2 : (st.voters_left + 1) % UINT_MOD = st.voters_left + 1 :=
        Nat.mod_eq_of_lt (by omega)
      rw [hc1, hc2] at hc
      have hfirst : 0 < pool_size - i ∧ pool_size - i ≤ RAND_MAX + 1 := by omega
      have hsecond : 0 < st.voters_left + 1 ∧ st.voters_left + 1 ≤ RAND_MAX + 1 := by omega
      split at hc
      · rw [List.mem_singleton] at hc
        rw [hc]; exact hfirst
      · rcases List.mem_cons.mp hc with h | h
        · rw [h]; exact hfirst
        · rcases List.mem_cons.mp h with h | h
          · rw [h]; exact hsecond
          · split at h
            · simp at h
            · rename_i st' hbody
              obtain ⟨r, d1, votes, t, g, -, hv, -, -, -, -, hvl', -⟩ :=
                perform_election_body_spec hbody
              rw [hc2] at hv
              obtain ⟨-, hvlt, -⟩ := rand_ceiling_spec _ _ _ _ _ hv
              have hle : st'.voters_left ≤ bound := by
                rw [hvl']
                split
                · rw [uint_sub_of_le (by omega)]; omega
                · exact hvl
              exact ih _ st' hle c h
    · rw [if_neg hg] at hc
      simp at hc

/-! ## perform_election and the allocation procedure: helper lemmas -/

theorem read_at_of_lt {l : List Candidate} {k : Nat} (h : k < l.length) :
    ∃ c, read_at l k = .ok c := by
  unfold read_at
  rw [List.getElem?_eq_getElem h]
  exact ⟨_, rfl⟩

theorem write_id_of_lt {l : List Candidate} {k : Nat} (v : Nat) (h : k < l.length) :
    ∃ l', write_id l k v = .ok l' ∧ l'.length = l.length := by
  unfold write_id
  rw [List.getElem?_eq_getElem h]
  exact ⟨_, rfl, List.length_set _ _ _⟩

theorem write_votes_of_lt {l : List Candidate} {k : Nat} (v : Nat) (h : k < l.length) :
    ∃ l', write_votes l k v = .ok l' ∧ l'.length = l.length := by
  unfold write_votes
  rw [List.getElem?_eq_getElem h]
  exact ⟨_, rfl, List.length_set _ _ _⟩

/-- How one pass through the loop body of `perform_election` ends when the
two array slots it uses exist: with the fault of the first call of
`rand_ceiling`, with the fault of the second call, or with a new state. -/
theorem perform_election_body_cases (RAND_MAX pool_size i : Nat) (st : ElectionState)
    (hn : st.num_candidates < st.candidates.length)
    (hgrab : ∀ r draws, rand_ceiling RAND_MAX (size_sub pool_size i % UINT_MOD) st.draws
      = .ok (r, draws) → (r + i) % UINT_MOD < st.candidates.length) :
    (∃ e, rand_ceiling RAND_MAX (size_sub pool_size i % UINT_MOD) st.draws = .error e ∧
        perform_election_body RAND_MAX pool_size i st = .error e) ∨
    (∃ r draws e, rand_ceiling RAND_MAX (size_sub pool_size i % UINT_MOD) st.draws
          = .ok (r, draws) ∧
        rand_ceiling RAND_MAX ((st.voters_left + 1) % UINT_MOD) draws = .error e ∧
        perform_election_body RAND_MAX pool_size i st = .error e) ∨
    (∃ st', perform_election_body RAND_MAX pool_size i st = .ok st' ∧
        st'.candidates.length = st.candidates.length) := by
  unfold perform_election_body
  cases h1 : rand_ceiling RAND_MAX (size_sub pool_size i % UINT_MOD) st.draws with
  | error e => exact Or.inl ⟨e, rfl, rfl⟩
  | ok p =>
    obtain ⟨r, draws⟩ := p
    have hg := hgrab r draws h1
    obtain ⟨slot, hslot⟩ := read_at_of_lt hn
    obtain ⟨grabbed, hgrabbed⟩ := read_at_of_lt hg
    obtain ⟨c1, hc1, hl1⟩ := write_id_of_lt (l := st.candidates) grabbed.id hn
    obtain ⟨c2, hc2, hl2⟩ := write_id_of_lt (l := c1) slot.id (by rw [hl1]; exact hg)
    simp only [hslot, hgrabbed, hc1, hc2]
    cases h2 : rand_ceiling RAND_MAX ((st.voters_left + 1) % UINT_MOD) draws with
    | error e => exact Or.inr (Or.inl ⟨r, draws, e, rfl, h2, rfl⟩)
    | ok q =>
      obtain ⟨votes, draws2⟩ := q
      right; right
      simp only
      by_cases hv : votes ≠ 0
      · rw [if_pos hv]
        obtain ⟨c3, hc3, hl3⟩ := write_votes_of_lt (l := c2) votes
          (by rw [hl2, hl1]; exact hn)
        rw [hc3]
        exact ⟨_, rfl, by simp only [hl3, hl2, hl1]⟩
      · rw [if_neg hv]
        exact ⟨_, rfl, by simp only [hl2, hl1]⟩

theorem ballot_take (l : List Candidate) (k : Nat) :
    (l.take k).map Candidate.ballot
      = ((l.map Candidate.id).take k).zip ((l.map Candidate.votes).take k) := by
  rw [← List.map_take, ← List.map_take, List.zip_map']
  rfl

theorem take_set_of_le {α : Type} (l : List α) (n k : Nat) (a : α) (h : n ≤ k) :
    (l.set k a).take n = l.take n := by
  rcases Nat.lt_or_ge n k with hlt | hge
  · exact List.take_set_of_lt a l hlt
  · have : n = k := by omega
    subst this
    exact take_set_self l n a

theorem take_succ_getD (l : List Nat) (n : Nat) (h : n < l.length) :
    l.take (n + 1) = l.take n ++ [l.getD n 0] := by
  rw [List.take_succ, List.getElem?_eq_getElem h, List.getD_eq_getElem _ _ h]
  rfl

theorem getD_of_getElem? {l : List Nat} {k x : Nat} (h : l[k]? = some x) :
    l.getD k 0 = x := by
  rw [List.getD_eq_getElem?_getD, h]
  rfl

/-- One pass through the loop body of `perform_election` is one step of the
allocation procedure with the swap at the next output slot: both end with the
same fault, or the body returns a state that is, seen as a state of the
procedure, the state the step returns. -/
theorem perform_election_body_alloc (RAND_MAX pool_size i : Nat) (st : ElectionState)
    (hlen : pool_size ≤ st.candidates.length) (hn : st.num_candidates ≤ i)
    (hi : i + 1 < pool_size) (hps : pool_size < UINT_MOD)
    (hvl : st.voters_left + 1 < UINT_MOD) :
    (∃ e, perform_election_body RAND_MAX pool_size i st = .error e ∧
        allocate_step RAND_MAX pool_size st.num_candidates i st.alloc = .error e) ∨
    (∃ st', perform_election_body RAND_MAX pool_size i st = .ok st' ∧
        allocate_step RAND_MAX pool_size st.num_candidates i st.alloc = .ok st'.alloc ∧
        st'.candidates.length = st.candidates.length ∧
        st'.num_candidates ≤ i + 1 ∧ st'.voters_left ≤ st.voters_left ∧
        st'.draws.length < st.draws.length) := by
  have hc1 : size_sub pool_size i % UINT_MOD = pool_size - i := by
    rw [size_sub_of_le (by omega)]
    exact Nat.mod_eq_of_lt (by omega)
  have hc2 : (st.voters_left + 1) % UINT_MOD = st.voters_left + 1 := Nat.mod_eq_of_lt hvl
  have hr : ∀ r draws, rand_ceiling RAND_MAX (pool_size - i) st.draws = .ok (r, draws) →
      (r + i) % UINT_MOD = r + i ∧ r + i < pool_size := by
    intro r draws h
    obtain ⟨-, hlt, -⟩ := rand_ceiling_spec _ _ _ _ _ h
    have : r + i < pool_size := by omega
    exact ⟨Nat.mod_eq_of_lt (by omega), this⟩
  rcases perform_election_body_cases RAND_MAX pool_size i st (by omega)
      (fun r draws h => by
        rw [hc1] at h
        obtain ⟨h1, h2⟩ := hr r draws h
        omega) with
    ⟨e, h1, hb⟩ | ⟨r, d, e, h1, h2, hb⟩ | ⟨st', hb, hl⟩
  · left
    refine ⟨e, hb, ?_⟩
    rw [hc1] at h1
    unfold allocate_step
    simp only [ElectionState.alloc, h1]
  · left
    refine ⟨e, hb, ?_⟩
    rw [hc1] at h1
    rw [hc2] at h2
    unfold allocate_step
    simp only [ElectionState.alloc, h1, h2]
  · right
    obtain ⟨r, d1, votes, t, g, h1, h2, ht, hg, hids, hvotes, hvl', hn'⟩ :=
      perform_election_body_spec hb
    rw [hc1] at h1
    rw [hc2] at h2
    obtain ⟨hmod, hgrab⟩ := hr r d1 h1
    rw [hmod] at hg hids
    obtain ⟨-, hvlt, hd2⟩ := rand_ceiling_spec _ _ _ _ _ h2
    obtain ⟨-, -, hd1⟩ := rand_ceiling_spec _ _ _ _ _ h1
    have hslots : swap_slots (st.candidates.map Candidate.id) st.num_candidates (r + i)
        = st'.candidates.map Candidate.id := by
      unfold swap_slots
      rw [getD_of_getElem? hg, getD_of_getElem? ht, hids]
    have hidlen : (st'.candidates.map Candidate.id).length = st.candidates.length := by
      rw [List.length_map, hl]
    have hpre : (st'.candidates.map Candidate.id).take st.num_candidates
        = (st.candidates.map Candidate.id).take st.num_candidates := by
      rw [hids, take_set_of_le _ _ _ _ (by omega), take_set_of_le _ _ _ _ (Nat.le_refl _)]
    refine ⟨st', hb, ?_, hl, ?_, ?_, by omega⟩
    · unfold allocate_step
      simp only [ElectionState.alloc, h1, h2, hslots]
      by_cases hv : votes ≠ 0
      · rw [if_pos hv] at hvotes hvl' hn'
        rw [if_pos (Nat.pos_of_ne_zero hv)]
        rw [uint_sub_of_le (by omega)] at hvl'
        simp only [Except.ok.injEq, AllocState.mk.injEq]
        refine ⟨hvl'.symm, trivial, ?_, trivial⟩
        unfold ElectionState.active
        rw [ballot_take, ballot_take, hn', take_succ_getD _ _ (by rw [hidlen]; omega), hpre,
          hvotes, take_succ_set _ _ _ (by rw [List.length_map]; omega),
          List.zip_append (by
            rw [List.length_take, List.length_take, List.length_map, List.length_map])]
        rfl
      · rw [if_neg hv] at hvotes hvl' hn'
        rw [if_neg (by omega)]
        simp only [Except.ok.injEq, AllocState.mk.injEq]
        refine ⟨hvl'.symm, trivial, ?_, trivial⟩
        unfold ElectionState.active
        rw [ballot_take, ballot_take, hn', hpre, hvotes]
    · rw [hn']
      split <;> omega
    · rw [hvl']
      split
      · rename_i hv
        rw [uint_sub_of_le (by omega)]
        omega
      · exact Nat.le_refl _

theorem alloc_emitted_length (st : ElectionState)
    (h : st.num_candidates ≤ st.candidates.length) :
    st.alloc.emitted.length = st.num_candidates := by
  simp only [ElectionState.alloc, ElectionState.active, List.length_map, List.length_take]
  omega

/-- The loop of `perform_election`, started at loop counter `i` with `k` passes
to go before `i` reaches `pool_size - 1`, and the loop of the allocation
procedure with the swap at the next output slot end with the same fault or in
the same state. -/
theorem perform_election_loop_alloc (RAND_MAX pool_size : Nat) (hps : pool_size < UINT_MOD)
    (k : Nat) :
    ∀ (i fuel : Nat) (st : ElectionState), i + k + 1 = pool_size →
      pool_size ≤ st.candidates.length → st.num_candidates ≤ i →
      st.voters_left + 1 < UINT_MOD → st.draws.length < fuel →
      (∃ e, perform_election_loop RAND_MAX pool_size fuel i st = .error e ∧
          allocate_compact_loop RAND_MAX pool_size (List.range' i k) st.alloc = .error e) ∨
      (∃ fin, perform_election_loop RAND_MAX pool_size fuel i st = .ok fin ∧
          allocate_compact_loop RAND_MAX pool_size (List.range' i k) st.alloc
            = .ok fin.alloc ∧
          fin.candidates.length = st.candidates.length ∧
          fin.num_candidates + 1 ≤ pool_size ∧ fin.voters_left ≤ st.voters_left) := by
  induction k with
  | zero =>
    intro i fuel st hik hlen hn hvl hfuel
    right
    obtain ⟨f, rfl⟩ : ∃ f, fuel = f + 1 := ⟨fuel - 1, by omega⟩
    refine ⟨st, ?_, rfl, rfl, by omega, Nat.le_refl _⟩
    unfold perform_election_loop
    rw [if_neg]
    rw [size_sub_of_le (by omega)]
    omega
  | succ k ih =>
    intro i fuel st hik hlen hn hvl hfuel
    obtain ⟨f, rfl⟩ : ∃ f, fuel = f + 1 := ⟨fuel - 1, by omega⟩
    rw [List.range'_succ]
    unfold perform_election_loop allocate_compact_loop
    have hsize : size_sub pool_size 1 = pool_size - 1 := size_sub_of_le (by omega)
    by_cases hv : st.voters_left = 0
    · right
      have hv' : st.alloc.voters_left = 0 := hv
      rw [if_neg (by rw [hv]; simp), if_pos hv']
      exact ⟨st, rfl, rfl, rfl, by omega, Nat.le_refl _⟩
    · have hv' : ¬ st.alloc.voters_left = 0 := hv
      rw [if_pos ⟨hv, by rw [hsize]; omega⟩, if_neg hv',
        alloc_emitted_length st (by omega)]
      rcases perform_election_body_alloc RAND_MAX pool_size i st hlen hn (by omega) hps hvl
        with ⟨e, hb, ha⟩ | ⟨st', hb, ha, hl, hn', hvl', hd⟩
      · left
        rw [hb, ha]
        exact ⟨e, rfl, rfl⟩
      · rw [hb, ha]
        dsimp only
        rw [Nat.mod_eq_of_lt (show i + 1 < UINT_MOD by omega)]
        rcases ih (i + 1) f st' (by omega) (by omega) hn' (by omega) (by omega) with
          ⟨e, h1, h2⟩ | ⟨fin, h1, h2, h3, h4, h5⟩
        · left
          exact ⟨e, h1, h2⟩
        · right
          exact ⟨fin, h1, h2, by omega, h4, by omega⟩

/-- The list of `(id, votes)` pairs that `perform_election` emits is the list
of the allocation procedure with the swap at the next output slot, run on the
ids that the array holds; the two end with the same fault when they do not
return. -/
theorem perform_election_alloc (RAND_MAX voters_left pool_size : Nat)
    (candidates : List Candidate) (draws : List Nat) (hps1 : 1 ≤ pool_size)
    (hps : pool_size < UINT_MOD) (hlen : pool_size ≤ candidates.length)
    (hvl : voters_left + 1 < UINT_MOD) :
    (perform_election RAND_MAX voters_left pool_size candidates draws).map
        (fun st => st.active.map Candidate.ballot)
      = allocate_compact RAND_MAX voters_left pool_size (candidates.map Candidate.id)
          draws := by
  unfold perform_election allocate_compact
  rcases perform_election_loop_alloc RAND_MAX pool_size hps (pool_size - 1) 0
      (draws.length + 1)
      { voters_left := voters_left, num_candidates := 0, candidates := candidates,
        draws := draws }
      (by omega) hlen (Nat.le_refl _) hvl (Nat.lt_succ_self _) with
    ⟨e, h1, h2⟩ | ⟨fin, h1, h2, h3, h4, h5⟩
  · have h2' : allocate_compact_loop RAND_MAX pool_size (List.range' 0 (pool_size - 1))
        { voters_left := voters_left, slots := candidates.map Candidate.id, emitted := [],
          draws := draws } = .error e := h2
    rw [h1, h2']
    rfl
  · have h2' : allocate_compact_loop RAND_MAX pool_size (List.range' 0 (pool_size - 1))
        { voters_left := voters_left, slots := candidates.map Candidate.id, emitted := [],
          draws := draws } = .ok fin.alloc := h2
    rw [h1, h2']
    dsimp only
    have hflen : fin.candidates.length = candidates.length := h3
    unfold allocate_finish
    by_cases hv : fin.voters_left = 0
    · have hv' : ¬ fin.alloc.voters_left > 0 := by
        show ¬ fin.voters_left > 0
        omega
      rw [if_neg (by rw [hv]; simp), if_neg hv']
      rfl
    · have hv' : fin.alloc.voters_left > 0 := Nat.pos_of_ne_zero hv
      rw [if_pos hv, if_pos hv', size_sub_of_le hps1]
      obtain ⟨last, hlast⟩ := read_at_of_lt (l := fin.candidates) (k := pool_size - 1)
        (by omega)
      obtain ⟨c1, hc1, hl1⟩ := write_id_of_lt (l := fin.candidates) (k := fin.num_candidates)
        last.id (by omega)
      obtain ⟨c2, hc2, hl2⟩ := write_votes_of_lt (l := c1) (k := fin.num_candidates)
        fin.voters_left (by omega)
      rw [hlast]
      dsimp only
      rw [hc1]
      dsimp only
      rw [hc2]
      obtain ⟨-, hi1, hv1⟩ := write_id_ok hc1
      obtain ⟨-, hv2, hi2⟩ := write_votes_ok hc2
      have hlastid : (fin.candidates.map Candidate.id).getD (pool_size - 1) 0 = last.id := by
        apply getD_of_getElem?
        rw [List.getElem?_map, read_at_ok hlast]
        rfl
      show Except.ok ((List.map Candidate.ballot (List.take (fin.num_candidates + 1) c2)))
        = Except.ok (fin.active.map Candidate.ballot ++
            [((fin.candidates.map Candidate.id).getD (pool_size - 1) 0, fin.voters_left)])
      congr 1
      unfold ElectionState.active
      rw [ballot_take, ballot_take, hi2, hv2, hi1, hv1, hlastid,
        take_succ_set _ _ _ (by rw [List.length_map]; omega),
        take_succ_set _ _ _ (by rw [List.length_map]; omega),
        List.zip_append (by
          rw [List.length_take, List.length_take, List.length_map, List.length_map])]
      rfl

/-! ## One iteration of the simulation loop: helper lemmas -/

/-- The pool initialisation returns on an array that has the slots it writes,
and leaves the ids `a .. a + k - 1` in those slots. -/
theorem init_pool_spec (k a : Nat) (C : List Candidate) (h : a + k ≤ C.length) :
    ∃ C', init_pool (List.range' a k) C = .ok C' ∧ C'.length = C.length ∧
      ∀ j, (C'.map Candidate.id)[j]?
        = if a ≤ j ∧ j < a + k then some j else (C.map Candidate.id)[j]? := by
  induction k generalizing a C with
  | zero =>
    refine ⟨C, rfl, rfl, ?_⟩
    intro j
    rw [if_neg (by omega)]
  | succ k ih =>
    rw [List.range'_succ]
    unfold init_pool
    obtain ⟨C1, hC1, hl1⟩ := write_id_of_lt (l := C) (k := a) a (by omega)
    obtain ⟨-, hids, -⟩ := write_id_ok hC1
    rw [hC1]
    dsimp only
    obtain ⟨C', hC', hl', hj⟩ := ih (a + 1) C1 (by omega)
    refine ⟨C', hC', by omega, ?_⟩
    intro j
    rw [hj j, hids, List.getElem?_set]
    by_cases hja : a = j
    · subst hja
      rw [if_neg (by omega), if_pos rfl, if_pos (by rw [List.length_map]; omega),
        if_pos (by omega)]
    · rw [if_neg hja]
      by_cases hin : a + 1 ≤ j ∧ j < a + 1 + k
      · rw [if_pos hin, if_pos (by omega)]
      · rw [if_neg hin, if_neg (by omega)]

/-- Two buffers of `pool_size` entries hold the same ids after the pool
initialisation. -/
theorem init_pool_ids (pool_size : Nat) (C1 C2 D1 : List Candidate)
    (h1 : C1.length = pool_size) (h2 : C2.length = pool_size)
    (hD1 : init_pool (List.range' 0 pool_size) C1 = .ok D1) :
    D1.length = pool_size ∧
    ∃ D2, init_pool (List.range' 0 pool_size) C2 = .ok D2 ∧ D2.length = pool_size ∧
      D2.map Candidate.id = D1.map Candidate.id := by
  obtain ⟨E1, hE1, hl1, hj1⟩ := init_pool_spec pool_size 0 C1 (by omega)
  obtain ⟨E2, hE2, hl2, hj2⟩ := init_pool_spec pool_size 0 C2 (by omega)
  rw [hD1] at hE1
  injection hE1 with hE1
  subst hE1
  refine ⟨by omega, E2, hE2, by omega, ?_⟩
  apply List.ext_getElem?
  intro j
  rw [hj1 j, hj2 j]
  by_cases hj : 0 ≤ j ∧ j < 0 + pool_size
  · rw [if_pos hj, if_pos hj]
  · rw [if_neg hj, if_neg hj, List.getElem?_eq_none (by rw [List.length_map]; omega),
      List.getElem?_eq_none (by rw [List.length_map]; omega)]

/-- The outcome of `perform_election` depends on the array only through the
ids it holds: two arrays with the same ids give the same number of candidates
and the same emitted ids and votes. -/
theorem perform_election_ballot_congr (RAND_MAX voters_left pool_size : Nat)
    (C1 C2 : List Candidate) (draws : List Nat) (hps1 : 1 ≤ pool_size)
    (hps : pool_size < UINT_MOD) (hl1 : pool_size ≤ C1.length) (hl2 : pool_size ≤ C2.length)
    (hvl : voters_left + 1 < UINT_MOD)
    (hid : C2.map Candidate.id = C1.map Candidate.id) (st1 : ElectionState)
    (h1 : perform_election RAND_MAX voters_left pool_size C1 draws = .ok st1) :
    ∃ st2, perform_election RAND_MAX voters_left pool_size C2 draws = .ok st2 ∧
      st2.active.map Candidate.ballot = st1.active.map Candidate.ballot ∧
      st2.num_candidates = st1.num_candidates := by
  have e1 := perform_election_alloc RAND_MAX voters_left pool_size C1 draws hps1 hps hl1 hvl
  have e2 := perform_election_alloc RAND_MAX voters_left pool_size C2 draws hps1 hps hl2 hvl
  rw [hid, ← e1, h1] at e2
  cases h2 : perform_election RAND_MAX voters_left pool_size C2 draws with
  | error e =>
    rw [h2] at e2
    exact Except.noConfusion e2
  | ok st2 =>
    rw [h2] at e2
    have heq : st2.active.map Candidate.ballot = st1.active.map Candidate.ballot := by
      injection e2
    refine ⟨st2, rfl, heq, ?_⟩
    obtain ⟨-, hn1, -⟩ := perform_election_count _ _ _ _ _ _ hps1 h1
    obtain ⟨-, hn2, -⟩ := perform_election_count _ _ _ _ _ _ hps1 h2
    have hlen := congrArg List.length heq
    rw [List.length_map, List.length_map] at hlen
    omega

theorem zero_hitler_table_spec (cs : List Candidate) (ht : Nat → Nat) (x : Nat) :
    zero_hitler_table cs ht x = if x ∈ cs.map Candidate.id then 0 else ht x := by
  induction cs generalizing ht with
  | nil => simp [zero_hitler_table]
  | cons c rest ih =>
    unfold zero_hitler_table
    rw [ih, List.map_cons]
    by_cases hr : x ∈ rest.map Candidate.id
    · rw [if_pos hr, if_pos (List.mem_cons_of_mem _ hr)]
    · rw [if_neg hr]
      by_cases hx : x = c.id
      · rw [if_pos (by rw [hx]; exact List.mem_cons_self _ _), hx, Function.update_same]
      · rw [if_neg (by
          intro hmem
          rcases List.mem_cons.mp hmem with h | h
          · exact hx h
          · exact hr h), Function.update_noteq hx]

theorem zero_stance_poll_spec (k a : Nat) (sp : Nat → Nat) (w : Nat) :
    zero_stance_poll (List.range' a k) sp w = if a ≤ w ∧ w < a + k then 0 else sp w := by
  induction k generalizing a sp with
  | zero =>
    rw [if_neg (by omega)]
    rfl
  | succ k ih =>
    rw [List.range'_succ]
    unfold zero_stance_poll
    rw [ih]
    by_cases hin : a + 1 ≤ w ∧ w < a + 1 + k
    · rw [if_pos hin, if_pos (by omega)]
    · rw [if_neg hin]
      by_cases hwa : w = a
      · rw [hwa, Function.update_same, if_pos (by omega)]
      · rw [Function.update_noteq hwa, if_neg (by omega)]

theorem map_congr_of_ballot {β : Type} (f g : Candidate → β) (l1 l2 : List Candidate)
    (h : l1.map Candidate.ballot = l2.map Candidate.ballot)
    (hfg : ∀ c1 c2 : Candidate, c1.ballot = c2.ballot → f c1 = g c2) :
    l1.map f = l2.map g := by
  induction l1 generalizing l2 with
  | nil =>
    cases l2 with
    | nil => rfl
    | cons y ys => simp at h
  | cons x xs ih =>
    cases l2 with
    | nil => simp at h
    | cons y ys =>
      simp only [List.map_cons, List.cons.injEq] at h ⊢
      exact ⟨hfg x y h.1, ih ys h.2⟩

/-- Scoring reads the id and the votes of the candidate and of the members of
the list, and nothing else. -/
theorem score_congr (HAMMING : Nat → Nat) (MAX_LOOKUP_SIZE : Nat)
    (hM : MAX_LOOKUP_SIZE = 1 ∨ MAX_LOOKUP_SIZE = 2) (num_issues : Nat)
    (c1 c2 : Candidate) (l1 l2 : List Candidate) (hc : c1.ballot = c2.ballot)
    (hl : l1.map Candidate.ballot = l2.map Candidate.ballot) :
    score HAMMING MAX_LOOKUP_SIZE num_issues l1 c1
      = score HAMMING MAX_LOOKUP_SIZE num_issues l2 c2 := by
  have hid : l1.map Candidate.id = l2.map Candidate.id :=
    map_congr_of_ballot _ _ l1 l2 hl (fun a b h => congrArg Prod.fst h)
  have hvotes : l1.map Candidate.votes = l2.map Candidate.votes :=
    map_congr_of_ballot _ _ l1 l2 hl (fun a b h => congrArg Prod.snd h)
  have h1 : c1.id = c2.id := congrArg Prod.fst hc
  have h2 : c1.votes = c2.votes := congrArg Prod.snd hc
  have hccs : compute_candidate_statistics HAMMING MAX_LOOKUP_SIZE num_issues c1 l1
      = compute_candidate_statistics HAMMING MAX_LOOKUP_SIZE num_issues c2 l2 := by
    rw [compute_candidate_statistics_congr _ _ _ l1 l2 c1 hid hvotes]
    unfold compute_candidate_statistics
    rw [h1, h2]
  have e1 := compute_candidate_statistics_eq_score HAMMING MAX_LOOKUP_SIZE hM num_issues c1 l1
  have e2 := compute_candidate_statistics_eq_score HAMMING MAX_LOOKUP_SIZE hM num_issues c2 l2
  rw [hccs, e2] at e1
  injection e1 with e1
  exact e1.symm

/-- A minimum scan determines its list of winners: two scans over the same
indices with keys that agree on them hold the same list. -/
theorem MinInv_list_unique (key key' : Nat → Nat) (n : Nat) (s s' : (Nat → Nat) × Nat)
    (h : MinInv key n s) (h' : MinInv key' n s') (hk : ∀ j, j < n → key j = key' j) :
    (List.range s.2).map s.1 = (List.range s'.2).map s'.1 := by
  have hsorted : ∀ (k : Nat → Nat) (t : (Nat → Nat) × Nat), MinInv k n t →
      List.Sorted (fun a b => a < b) ((List.range t.2).map t.1) := by
    intro k t ht
    rw [List.Sorted, List.pairwise_map]
    exact (List.pairwise_lt_range t.2).imp_of_mem
      (fun {a b} _ hb hab => ht.2.2.2.2 a b hab (List.mem_range.mp hb))
  obtain ⟨hnd, hmem⟩ := MinInv_winners key n s h
  obtain ⟨hnd', hmem'⟩ := MinInv_winners key' n s' h'
  apply List.eq_of_perm_of_sorted _ (hsorted key s h) (hsorted key' s' h')
  rw [List.perm_ext_iff_of_nodup hnd hnd']
  intro j
  rw [hmem j, hmem' j]
  constructor
  · rintro ⟨hj, hmin⟩
    exact ⟨hj, fun k hk' => by rw [← hk j hj, ← hk k hk']; exact hmin k hk'⟩
  · rintro ⟨hj, hmin⟩
    exact ⟨hj, fun k hk' => by rw [hk j hj, hk k hk']; exact hmin k hk'⟩

/-- The three winner lists depend on the hitler table only at the ids of the
candidates of the list, and not at all on the previous contents of the winner
arrays. -/
theorem find_winners_lists_congr (cs : List Candidate) (ht ht' : Nat → Nat)
    (w0 w0' : Winners) (hne : cs ≠ []) (hagree : ∀ c ∈ cs, ht c.id = ht' c.id) :
    (find_winners cs ht w0).traditional = (find_winners cs ht' w0').traditional ∧
      (find_winners cs ht w0).approval = (find_winners cs ht' w0').approval ∧
      (find_winners cs ht w0).hitler = (find_winners cs ht' w0').hitler := by
  obtain ⟨m, -, hml, hnum, hel, hv, hstop, hA, hH⟩ := find_winners_spec cs ht w0 hne
  obtain ⟨m', -, hml', hnum', hel', hv', hstop', hA', hH'⟩ := find_winners_spec cs ht' w0' hne
  have hmm : m = m' := by
    rcases Nat.lt_trichotomy m m' with hlt | heq | hgt
    · exact absurd (hv' m hlt) (hstop (by omega))
    · exact heq
    · exact absurd (hv m' hgt) (hstop' (by omega))
  subst hmm
  refine ⟨?_, ?_, ?_⟩
  · unfold Winners.traditional
    rw [hnum, hnum']
    apply List.map_congr_left
    intro p hp
    rw [hel p (List.mem_range.mp hp), hel' p (List.mem_range.mp hp)]
  · exact MinInv_list_unique _ _ cs.length _ _ hA hA' (fun _ _ => rfl)
  · refine MinInv_list_unique _ _ cs.length _ _ hH hH' (fun j hj => ?_)
    dsimp only
    rw [cand_eq_getElem cs j hj]
    exact hagree _ (List.getElem_mem _)

theorem find_washington_loop_congr (population_size : Nat) (sp sp' : Nat → Nat)
    (l : List Nat) (id : Nat) (h : ∀ w ∈ l, sp w = sp' w) :
    find_washington_loop population_size sp l id
      = find_washington_loop population_size sp' l id := by
  induction l generalizing id with
  | nil => rfl
  | cons i rest ih =>
    unfold find_washington_loop
    rw [h i (List.mem_cons_self _ _)]
    dsimp only
    rw [ih _ (fun w hw => h w (List.mem_cons_of_mem _ hw)),
      ih _ (fun w hw => h w (List.mem_cons_of_mem _ hw))]

/-- The consensus id depends on the stance tally only at the issues below
`num_issues`. -/
theorem find_washington_congr (population_size num_issues : Nat) (sp sp' : Nat → Nat)
    (h : ∀ w, w < num_issues → sp w = sp' w) :
    find_washington population_size num_issues sp
      = find_washington population_size num_issues sp' := by
  unfold find_washington
  apply find_washington_loop_congr
  intro w hw
  rw [List.mem_range'_1] at hw
  exact h w (by omega)

/-- On a sorted list of at least two candidates the poles the two-party block
returns do not depend on what the array holds behind the list. -/
theorem two_party_block_poles (HAMMING : Nat → Nat) (MAX_LOOKUP_SIZE : Nat)
    (hM : MAX_LOOKUP_SIZE = 1 ∨ MAX_LOOKUP_SIZE = 2) (sorted : List Candidate)
    (h2 : 2 ≤ sorted.length) :
    ∃ q0 q1, ∀ tail, two_party_block HAMMING MAX_LOOKUP_SIZE sorted.length (sorted ++ tail)
      = .ok (sorted ++ tail, q0, q1) := by
  obtain ⟨p0, p1, rest, hs, -⟩ := status_quo_init_ok sorted h2
  obtain ⟨v0, v1, htp⟩ := two_party_frame HAMMING MAX_LOOKUP_SIZE hM p0 p1 sorted
  refine ⟨{ p0 with votes := v0 }, { p1 with votes := v1 }, fun tail => ?_⟩
  have hinit : status_quo_init (sorted ++ tail) = .ok (p0, p1) := by
    rw [hs]
    simp [status_quo_init, read_at]
  unfold two_party_block
  rw [hinit]
  dsimp only
  rw [List.take_left, htp]

/-- The tallying part of an iteration, run on two states whose active lists
hold the same ids and votes (at least two candidates), with any contents of
the tallies and of the winner arrays, gives the same report. -/
theorem main_tally_congr (HAMMING : Nat → Nat) (MAX_LOOKUP_SIZE : Nat)
    (hM : MAX_LOOKUP_SIZE = 1 ∨ MAX_LOOKUP_SIZE = 2)
    (qsort : List Candidate → List Candidate) (hqsort : ∀ l, qsort_result l (qsort l))
    (population_size num_issues : Nat) (hni : num_issues ≤ 64) (washington : Candidate)
    (st1 st2 : ElectionState) (ht1 ht2 sp1 sp2 : Nat → Nat) (w1 w2 : Winners)
    (hb1 : ∀ x, ht1 x < UINT_MOD) (hb2 : ∀ x, ht2 x < UINT_MOD)
    (hs1 : ∀ w, sp1 w < UINT_MOD) (hs2 : ∀ w, sp2 w < UINT_MOD)
    (hb : st2.active.map Candidate.ballot = st1.active.map Candidate.ballot)
    (hn : st2.num_candidates = st1.num_candidates)
    (hlen : st1.active.length = st1.num_candidates) (h2 : 2 ≤ st1.num_candidates) :
    main_tally HAMMING MAX_LOOKUP_SIZE qsort population_size num_issues washington st2
        ht2 sp2 w2
      = main_tally HAMMING MAX_LOOKUP_SIZE qsort population_size num_issues washington st1
        ht1 sp1 w1 := by
  have hpos : 0 < UINT_MOD := by decide
  have hzb : ∀ (cs : List Candidate) (ht : Nat → Nat), (∀ x, ht x < UINT_MOD) →
      ∀ x, zero_hitler_table cs ht x < UINT_MOD := by
    intro cs ht hht x
    rw [zero_hitler_table_spec]
    split
    · exact hpos
    · exact hht x
  have hzs : ∀ (sp : Nat → Nat), (∀ w, sp w < UINT_MOD) →
      ∀ w, zero_stance_poll (List.range' 0 num_issues) sp w < UINT_MOD := by
    intro sp hsp w
    rw [zero_stance_poll_spec]
    split
    · exact hpos
    · exact hsp w
  obtain ⟨s1, hr1, hc1, hp1, ha1⟩ := compute_election_statistics_spec HAMMING
    MAX_LOOKUP_SIZE hM num_issues hni _ _ (hzs sp1 hs1) (hzb st1.active ht1 hb1) st1.active
  obtain ⟨s2, hr2, hc2, hp2, ha2⟩ := compute_election_statistics_spec HAMMING
    MAX_LOOKUP_SIZE hM num_issues hni _ _ (hzs sp2 hs2) (hzb st2.active ht2 hb2) st2.active
  have hcand : s2.candidates = s1.candidates := by
    rw [hc1, hc2]
    exact map_congr_of_ballot _ _ _ _ hb
      (fun c c' hcc => score_congr HAMMING MAX_LOOKUP_SIZE hM num_issues c c' _ _ hcc hb)
  have hids : st2.active.map Candidate.id = st1.active.map Candidate.id :=
    map_congr_of_ballot _ _ _ _ hb (fun a b h => congrArg Prod.fst h)
  have hsp : ∀ w, w < num_issues → s2.stance_poll w = s1.stance_poll w := by
    intro w hw
    rw [hp1 w hw, hp2 w hw, zero_stance_poll_spec, zero_stance_poll_spec,
      if_pos (show 0 ≤ w ∧ w < 0 + num_issues by omega),
      if_pos (show 0 ≤ w ∧ w < 0 + num_issues by omega)]
    have e : ∀ cs : List Candidate,
        ((cs.filter fun c => c.id.testBit w).map Candidate.votes).sum = stance_votes cs w :=
      fun _ => rfl
    rw [e, e, stance_votes_eq_sum, stance_votes_eq_sum,
      sum_by_ballot (fun i v => if i.testBit w then v else 0) st2.active st1.active
        (by rw [hb])]
  have hht : ∀ x ∈ st1.active.map Candidate.id, s2.hitler_table x = s1.hitler_table x := by
    intro x hx
    rw [ha1 x, ha2 x, zero_hitler_table_spec, zero_hitler_table_spec, if_pos hx,
      if_pos (by rw [hids]; exact hx), hcand]
  have hq := hqsort s1.candidates
  have hq' : qsort_result (st1.active.map (score HAMMING MAX_LOOKUP_SIZE num_issues
      st1.active)) (qsort s1.candidates) := by
    rw [← hc1]
    exact hq
  obtain ⟨hslen, hmem⟩ := qsort_result_scored HAMMING MAX_LOOKUP_SIZE num_issues st1.active
    (qsort s1.candidates) hq'
  have hne : qsort s1.candidates ≠ [] := by
    intro h
    rw [h, List.length_nil] at hslen
    omega
  obtain ⟨hw1, hw2, hw3⟩ := find_winners_lists_congr (qsort s1.candidates)
    s2.hitler_table s1.hitler_table w2 w1 hne
    (fun c hc => by
      obtain ⟨c0, hc0, -, hcid, -⟩ := hmem c hc
      rw [hcid]
      exact hht _ (List.mem_map_of_mem _ hc0))
  have hwash := find_washington_congr population_size num_issues s2.stance_poll
    s1.stance_poll hsp
  obtain ⟨q0, q1, hblock⟩ := two_party_block_poles HAMMING MAX_LOOKUP_SIZE hM
    (qsort s1.candidates) (by omega)
  have hsn : (qsort s1.candidates).length = st1.num_candidates := by omega
  rw [hsn] at hblock
  unfold main_tally
  simp only [hr1, hr2, hcand, hwash, hn, hblock, hw1, hw2, hw3]

/-- An iteration in which `perform_election` leaves at least two active
candidates gives the same report whatever the buffers held before, as long as
the array `candidates` has its `2 ^ num_issues` entries and the tallies hold
`unsigned` values; when it does not return, it ends with the same fault. -/
theorem main_iteration_congr (RAND_MAX : Nat) (HAMMING : Nat → Nat) (MAX_LOOKUP_SIZE : Nat)
    (hM : MAX_LOOKUP_SIZE = 1 ∨ MAX_LOOKUP_SIZE = 2)
    (qsort : List Candidate → List Candidate) (hqsort : ∀ l, qsort_result l (qsort l))
    (population_size num_issues : Nat) (hni : num_issues ≤ 30)
    (hpop : population_size + 1 < UINT_MOD) (washington : Candidate)
    (c1 c2 : List Candidate) (ht1 ht2 sp1 sp2 : Nat → Nat) (w1 w2 : Winners)
    (draws : List Nat)
    (hl1 : c1.length = 2 ^ num_issues) (hl2 : c2.length = 2 ^ num_issues)
    (hb1 : ∀ x, ht1 x < UINT_MOD) (hb2 : ∀ x, ht2 x < UINT_MOD)
    (hs1 : ∀ w, sp1 w < UINT_MOD) (hs2 : ∀ w, sp2 w < UINT_MOD)
    (D1 : List Candidate) (st1 : ElectionState)
    (hD1 : init_pool (List.range' 0 (2 ^ num_issues)) c1 = .ok D1)
    (hP1 : perform_election RAND_MAX population_size (2 ^ num_issues) D1 draws = .ok st1)
    (hn : 2 ≤ st1.num_candidates) :
    main_iteration RAND_MAX HAMMING MAX_LOOKUP_SIZE qsort population_size num_issues
        washington c2 ht2 sp2 w2 draws
      = main_iteration RAND_MAX HAMMING MAX_LOOKUP_SIZE qsort population_size num_issues
        washington c1 ht1 sp1 w1 draws := by
  have hps1 : 1 ≤ 2 ^ num_issues := Nat.one_le_two_pow
  have hps : 2 ^ num_issues < UINT_MOD :=
    Nat.pow_lt_pow_right (by decide) (by omega)
  obtain ⟨hlD1, D2, hD2, hlD2, hids⟩ := init_pool_ids (2 ^ num_issues) c1 c2 D1 hl1 hl2 hD1
  obtain ⟨st2, hP2, hb, hnn⟩ := perform_election_ballot_congr RAND_MAX population_size
    (2 ^ num_issues) D1 D2 draws hps1 hps (by omega) (by omega) hpop hids st1 hP1
  obtain ⟨-, hlen, -⟩ := perform_election_count _ _ _ _ _ _ hps1 hP1
  unfold main_iteration
  rw [hD1, hD2]
  dsimp only
  rw [hP1, hP2]
  dsimp only
  exact main_tally_congr HAMMING MAX_LOOKUP_SIZE hM qsort hqsort population_size num_issues
    (by omega) washington st1 st2 ht1 ht2 sp1 sp2 w1 w2 hb1 hb2 hs1 hs2 hb hnn hlen hn

/-- The insertion sort is a possible outcome of `qsort`. -/
theorem insertion_qsort_result (l : List Candidate) : qsort_result l (insertion_qsort l) := by
  unfold qsort_result insertion_qsort
  refine ⟨List.perm_insertionSort _ l, ?_⟩
  haveI : IsTotal Candidate (fun a b => sort_candidates a b ≤ 0) :=
    ⟨fun a b => by
      simp only [sort_candidates_le_zero_iff]
      omega⟩
  haveI : IsTrans Candidate (fun a b => sort_candidates a b ≤ 0) :=
    ⟨fun a b c hab hbc => by
      simp only [sort_candidates_le_zero_iff] at hab hbc ⊢
      omega⟩
  exact List.sorted_insertionSort _ l

/-! ## Votes gained by the poles: helper lemmas -/

theorem le_sum_of_mem {α : Type} (f : α → Nat) (l : List α) (x : α) (hx : x ∈ l) :
    f x ≤ (l.map f).sum := by
  induction l with
  | nil => simp at hx
  | cons y ys ih =>
    rw [List.map_cons, List.sum_cons]
    rcases List.mem_cons.mp hx with h | h
    · rw [h]; omega
    · have := ih h
      omega

theorem sum_ite_le (p : Candidate → Prop) [DecidablePred p] (cs : List Candidate) :
    (cs.map fun c => if p c then c.votes else 0).sum ≤ (cs.map Candidate.votes).sum := by
  induction cs with
  | nil => exact Nat.le_refl _
  | cons x rest ih =>
    simp only [List.map_cons, List.sum_cons]
    split <;> omega

/-! ## The antagonist tally: helper lemmas -/

/-- The antagonist that scoring records for a member of the list is the id of
a member of the list. -/
theorem score_hitler_mem (HAMMING : Nat → Nat) (MAX_LOOKUP_SIZE : Nat)
    (hM : MAX_LOOKUP_SIZE = 1 ∨ MAX_LOOKUP_SIZE = 2) (num_issues : Nat)
    (cs : List Candidate) (c : Candidate) (hc : c ∈ cs) :
    (score HAMMING MAX_LOOKUP_SIZE num_issues cs c).hitler ∈ cs.map Candidate.id := by
  have h := compute_candidate_statistics_eq_score HAMMING MAX_LOOKUP_SIZE hM num_issues c cs
  obtain ⟨m, hinv⟩ := compute_candidate_statistics_hitler HAMMING MAX_LOOKUP_SIZE num_issues
    c cs _ h
  rcases hinv with ⟨-, hown, -⟩ | ⟨-, l1, x, l2, hsplit, hx, -⟩
  · rw [hown]
    exact List.mem_map_of_mem _ hc
  · rw [hx]
    apply List.mem_map_of_mem
    rw [hsplit]
    simp

theorem sum_ite_eq_of_nodup (ids : List Nat) (hnd : ids.Nodup) (a v : Nat) (ha : a ∈ ids) :
    (ids.map fun x => if a = x then v else 0).sum = v := by
  induction ids with
  | nil => simp at ha
  | cons y ys ih =>
    rw [List.nodup_cons] at hnd
    rw [List.map_cons, List.sum_cons]
    by_cases hay : a = y
    · rw [if_pos hay]
      have hz : (ys.map fun x => if a = x then v else 0) = ys.map fun _ => 0 := by
        apply List.map_congr_left
        intro x hx
        rw [if_neg]
        intro hax
        rw [hay] at hax
        rw [hax] at hnd
        exact hnd.1 hx
      rw [hz]
      simp
    · rw [if_neg hay, Nat.zero_add]
      rcases List.mem_cons.mp ha with h | h
      · exact absurd h hay
      · exact ih hnd.2 h

theorem sum_comm_lists {α β : Type} (l1 : List α) (l2 : List β) (g : α → β → Nat) :
    (l1.map fun a => (l2.map fun b => g a b).sum).sum
      = (l2.map fun b => (l1.map fun a => g a b).sum).sum := by
  induction l1 with
  | nil => simp
  | cons x rest ih =>
    simp only [List.map_cons, List.sum_cons]
    rw [ih, List.sum_map_add]

/-- With the hitler table zeroed at the ids of the active candidates, which
are distinct, and votes that fit in an `unsigned`: every recorded antagonist
is an active id, the entries at the active ids add up to the total votes, and
the other entries are left as they were. -/
theorem hitler_table_counts_every_vote (HAMMING : Nat → Nat) (MAX_LOOKUP_SIZE : Nat)
    (hM : MAX_LOOKUP_SIZE = 1 ∨ MAX_LOOKUP_SIZE = 2) (num_issues : Nat)
    (hni : num_issues ≤ 64) (stance_poll hitler_table : Nat → Nat)
    (hsp : ∀ w, stance_poll w < UINT_MOD) (hht : ∀ x, hitler_table x < UINT_MOD)
    (cs : List Candidate) (hnd : (cs.map Candidate.id).Nodup)
    (hvotes : (cs.map Candidate.votes).sum < UINT_MOD) :
    ∃ s, compute_election_statistics HAMMING MAX_LOOKUP_SIZE num_issues stance_poll
        (zero_hitler_table cs hitler_table) cs = .ok s ∧
      (∀ c ∈ s.candidates, c.hitler ∈ cs.map Candidate.id) ∧
      (cs.map fun c => s.hitler_table c.id).sum = (cs.map Candidate.votes).sum ∧
      (∀ x, x ∉ cs.map Candidate.id → s.hitler_table x = hitler_table x) := by
  have hpos : 0 < UINT_MOD := by decide
  have hzb : ∀ x, zero_hitler_table cs hitler_table x < UINT_MOD := by
    intro x
    rw [zero_hitler_table_spec]
    split
    · exact hpos
    · exact hht x
  obtain ⟨s, hs, hcand, -, htab⟩ := compute_election_statistics_spec HAMMING MAX_LOOKUP_SIZE hM
    num_issues hni stance_poll _ hsp hzb cs
  have hmem : ∀ c ∈ s.candidates, c.hitler ∈ cs.map Candidate.id := by
    intro c hc
    rw [hcand, List.mem_map] at hc
    obtain ⟨c0, hc0, rfl⟩ := hc
    exact score_hitler_mem HAMMING MAX_LOOKUP_SIZE hM num_issues cs c0 hc0
  have hsv : (s.candidates.map Candidate.votes).sum = (cs.map Candidate.votes).sum := by
    rw [hcand, map_score_votes]
  have hentry : ∀ x, ((s.candidates.filter fun c => decide (c.hitler = x)).map
      Candidate.votes).sum
      = (s.candidates.map fun c => if c.hitler = x then c.votes else 0).sum := by
    intro x
    rw [← sum_ite_eq_sum_filter]
    congr 1
    apply List.map_congr_left
    intro c _
    simp only [decide_eq_true_eq]
  have hle : ∀ x, (s.candidates.map fun c => if c.hitler = x then c.votes else 0).sum
      ≤ (cs.map Candidate.votes).sum := by
    intro x
    rw [← hsv]
    exact sum_ite_le (fun c => c.hitler = x) s.candidates
  refine ⟨s, hs, hmem, ?_, ?_⟩
  · have h1 : (cs.map fun c => s.hitler_table c.id)
        = (cs.map Candidate.id).map fun x =>
            (s.candidates.map fun c => if c.hitler = x then c.votes else 0).sum := by
      rw [List.map_map]
      apply List.map_congr_left
      intro c hc
      simp only [Function.comp]
      rw [htab c.id, zero_hitler_table_spec, if_pos (List.mem_map_of_mem _ hc), Nat.zero_add,
        hentry, Nat.mod_eq_of_lt (Nat.lt_of_le_of_lt (hle c.id) hvotes)]
    rw [h1, sum_comm_lists (cs.map Candidate.id) s.candidates
      (fun x c => if c.hitler = x then c.votes else 0), ← hsv]
    congr 1
    apply List.map_congr_left
    intro c hc
    exact sum_ite_eq_of_nodup _ hnd c.hitler c.votes (hmem c hc)
  · intro x hx
    rw [htab x, zero_hitler_table_spec, if_neg hx, hentry]
    have hz : (s.candidates.map fun c => if c.hitler = x then c.votes else 0)
        = s.candidates.map fun _ => 0 := by
      apply List.map_congr_left
      intro c hc
      rw [if_neg]
      intro h
      rw [← h] at hx
      exact hx (hmem c hc)
    rw [hz]
    simp [Nat.mod_eq_of_lt (hht x)]

/-! ## The disapproval sum stays in range: helper lemmas -/

theorem sum_map_take_le {α : Type} (f : α → Nat) (l : List α) (k : Nat) :
    ((l.take k).map f).sum ≤ (l.map f).sum := by
  conv_rhs => rw [← List.take_append_drop k l]
  rw [List.map_append, List.sum_append]
  omega

/-- The derived `MAX_ISSUES` is at most `MAX_POPULATION`. -/
theorem max_issues_le (HAMMING : Nat → Nat) (MAX_LOOKUP_SIZE : Nat)
    (hM : MAX_LOOKUP_SIZE = 1 ∨ MAX_LOOKUP_SIZE = 2)
    (htab : ∀ i, i < 65536 → HAMMING i = popcount i) (m K : Nat) (hm : m < 2 ^ 32)
    (hK : max_issues HAMMING MAX_LOOKUP_SIZE m = .ok K) : K ≤ m := by
  obtain ⟨k, hk, hpow⟩ := max_issues_spec HAMMING MAX_LOOKUP_SIZE hM htab m hm
  rw [hK] at hk
  injection hk with hk
  subst hk
  have := Nat.lt_two_pow K
  omega

/-- The exact disapproval sum against any prefix of the list is at most
`num_issues` times the votes of the whole list. -/
theorem disapproval_prefix_le (HAMMING : Nat → Nat) (MAX_LOOKUP_SIZE : Nat)
    (hM : MAX_LOOKUP_SIZE = 1 ∨ MAX_LOOKUP_SIZE = 2)
    (htab : ∀ i, i < 65536 → HAMMING i = popcount i) (num_issues : Nat) (c : Candidate)
    (cs : List Candidate) (hc : c.id < 2 ^ num_issues)
    (hcs : ∀ x ∈ cs, x.id < 2 ^ num_issues) (k : Nat) :
    ((cs.take k).map fun h => distance HAMMING MAX_LOOKUP_SIZE c.id h.id * h.votes).sum
      ≤ num_issues * (cs.map Candidate.votes).sum := by
  have h1 := weighted_sum_le (fun h => distance HAMMING MAX_LOOKUP_SIZE c.id h.id) num_issues
    (cs.take k) (fun x hx => (distance_le HAMMING MAX_LOOKUP_SIZE hM htab num_issues c.id x.id
      hc (hcs x (List.mem_of_mem_take hx))).2)
  have h2 := sum_map_take_le Candidate.votes cs k
  calc _ ≤ ((cs.take k).map Candidate.votes).sum * num_issues := h1
    _ ≤ (cs.map Candidate.votes).sum * num_issues := Nat.mul_le_mul_right _ h2
    _ = num_issues * (cs.map Candidate.votes).sum := Nat.mul_comm _ _

theorem approval_nonneg (population_size num_issues : Nat) (r : Candidate)
    (hpos : 0 < max_sum_disapproval population_size num_issues)
    (hle : r.sum_disapproval ≤ max_sum_disapproval population_size num_issues) :
    0 ≤ approval population_size num_issues r ∧ approval population_size num_issues r ≤ 100 := by
  unfold approval
  have hd : (0 : ℚ) < (max_sum_disapproval population_size num_issues : ℚ) := by
    exact_mod_cast hpos
  have hs : (r.sum_disapproval : ℚ) ≤ (max_sum_disapproval population_size num_issues : ℚ) := by
    exact_mod_cast hle
  have h1 : (r.sum_disapproval : ℚ) / (max_sum_disapproval population_size num_issues : ℚ)
      ≤ 1 := (div_le_one hd).mpr hs
  have h0 : (0 : ℚ) ≤ (r.sum_disapproval : ℚ)
      / (max_sum_disapproval population_size num_issues : ℚ) :=
    div_nonneg (Nat.cast_nonneg _) (le_of_lt hd)
  constructor <;> linarith

/-- The disapproval sum of a candidate is bounded by `num_issues` times the
votes of the list, and within the configuration limits its accumulation does
not wrap at any step. -/
theorem sum_disapproval_in_range (HAMMING : Nat → Nat) (MAX_LOOKUP_SIZE : Nat)
    (hM : MAX_LOOKUP_SIZE = 1 ∨ MAX_LOOKUP_SIZE = 2)
    (htab : ∀ i, i < 65536 → HAMMING i = popcount i) (num_issues : Nat) (c : Candidate)
    (cs : List Candidate) (hc : c.id < 2 ^ num_issues)
    (hcs : ∀ x ∈ cs, x.id < 2 ^ num_issues) :
    ∃ r, compute_candidate_statistics HAMMING MAX_LOOKUP_SIZE num_issues c cs = .ok r ∧
      r.sum_disapproval ≤ num_issues * (cs.map Candidate.votes).sum ∧
      ∀ RAND_MAX m MAX_ISSUES population_size : Nat, RAND_MAX + 1 < UINT_MOD →
        m * m ≤ RAND_MAX → max_issues HAMMING MAX_LOOKUP_SIZE m = .ok MAX_ISSUES →
        1 ≤ num_issues → num_issues ≤ MAX_ISSUES →
        (cs.map Candidate.votes).sum = population_size →
        1 ≤ population_size → population_size ≤ m →
        (∀ k, ((cs.take k).map fun h =>
            distance HAMMING MAX_LOOKUP_SIZE c.id h.id * h.votes).sum < UINT_MOD) ∧
        r.sum_disapproval
          = (cs.map fun h => distance HAMMING MAX_LOOKUP_SIZE c.id h.id * h.votes).sum ∧
        max_sum_disapproval population_size num_issues = population_size * num_issues ∧
        0 < max_sum_disapproval population_size num_issues ∧
        r.sum_disapproval ≤ max_sum_disapproval population_size num_issues ∧
        0 ≤ approval population_size num_issues r ∧
        approval population_size num_issues r ≤ 100 := by
  obtain ⟨r, hr⟩ := compute_candidate_statistics_ok HAMMING MAX_LOOKUP_SIZE hM num_issues c cs
  obtain ⟨-, -, -, -, -, hsum⟩ := compute_candidate_statistics_spec HAMMING MAX_LOOKUP_SIZE
    num_issues c cs r hr
  have hpre := disapproval_prefix_le HAMMING MAX_LOOKUP_SIZE hM htab num_issues c cs hc hcs
  have hall : (cs.map fun h => distance HAMMING MAX_LOOKUP_SIZE c.id h.id * h.votes).sum
      ≤ num_issues * (cs.map Candidate.votes).sum := by
    have h := hpre cs.length
    rwa [List.take_length] at h
  have hbound : r.sum_disapproval ≤ num_issues * (cs.map Candidate.votes).sum := by
    rw [hsum]
    exact Nat.le_trans (Nat.mod_le _ _) hall
  refine ⟨r, hr, hbound, ?_⟩
  intro RAND_MAX m K population_size hR hmm hK hni1 hni htot hpop1 hpop
  have hM32 : UINT_MOD = 2 ^ 32 := rfl
  have hmle : m ≤ m * m := Nat.le_mul_self m
  have hKm : K ≤ m := max_issues_le HAMMING MAX_LOOKUP_SIZE hM htab m K (by omega) hK
  have hprod : population_size * num_issues ≤ m * m :=
    Nat.mul_le_mul hpop (Nat.le_trans hni hKm)
  have hlt : population_size * num_issues < UINT_MOD := by omega
  have hmax : max_sum_disapproval population_size num_issues = population_size * num_issues :=
    Nat.mod_eq_of_lt hlt
  have hcomm : num_issues * (cs.map Candidate.votes).sum = population_size * num_issues := by
    rw [htot, Nat.mul_comm]
  have hexact : r.sum_disapproval
      = (cs.map fun h => distance HAMMING MAX_LOOKUP_SIZE c.id h.id * h.votes).sum := by
    rw [hsum]
    apply Nat.mod_eq_of_lt
    omega
  have hpos : 0 < max_sum_disapproval population_size num_issues := by
    rw [hmax]
    exact Nat.mul_pos hpop1 hni1
  have hle : r.sum_disapproval ≤ max_sum_disapproval population_size num_issues := by
    rw [hmax, ← hcomm]
    exact hbound
  refine ⟨?_, hexact, hmax, hpos, hle, approval_nonneg population_size num_issues r hpos hle⟩
  intro k
  have := hpre k
  omega

/-! ## The slot behind a single active candidate: helper lemmas -/

/-- Two arrays with the same ids hold the same ids, slot by slot, when
`perform_election` has returned on both. -/
theorem perform_election_slots_congr (RAND_MAX voters_left pool_size : Nat)
    (C1 C2 : List Candidate) (draws : List Nat) (hps1 : 1 ≤ pool_size)
    (hps : pool_size < UINT_MOD) (hl1 : pool_size ≤ C1.length) (hl2 : pool_size ≤ C2.length)
    (hvl : voters_left + 1 < UINT_MOD)
    (hid : C2.map Candidate.id = C1.map Candidate.id) (st1 st2 : ElectionState)
    (h1 : perform_election RAND_MAX voters_left pool_size C1 draws = .ok st1)
    (h2 : perform_election RAND_MAX voters_left pool_size C2 draws = .ok st2) :
    st2.candidates.map Candidate.id = st1.candidates.map Candidate.id := by
  unfold perform_election at h1 h2
  have hinit : ElectionState.alloc
      { voters_left := voters_left, num_candidates := 0, candidates := C2, draws := draws }
      = ElectionState.alloc
      { voters_left := voters_left, num_candidates := 0, candidates := C1, draws := draws } := by
    simp only [ElectionState.alloc, ElectionState.active, List.take_zero, List.map_nil, hid]
  rcases perform_election_loop_alloc RAND_MAX pool_size hps (pool_size - 1) 0
      (draws.length + 1)
      { voters_left := voters_left, num_candidates := 0, candidates := C1, draws := draws }
      (by omega) hl1 (Nat.le_refl _) hvl (Nat.lt_succ_self _) with
    ⟨e, a1, -⟩ | ⟨fin1, a1, b1, l1, n1, -⟩
  · rw [a1] at h1
    exact Except.noConfusion h1
  rcases perform_election_loop_alloc RAND_MAX pool_size hps (pool_size - 1) 0
      (draws.length + 1)
      { voters_left := voters_left, num_candidates := 0, candidates := C2, draws := draws }
      (by omega) hl2 (Nat.le_refl _) hvl (Nat.lt_succ_self _) with
    ⟨e, a2, -⟩ | ⟨fin2, a2, b2, l2, n2, -⟩
  · rw [a2] at h2
    exact Except.noConfusion h2
  rw [hinit, b1] at b2
  injection b2 with b2
  have hv : fin1.voters_left = fin2.voters_left := congrArg AllocState.voters_left b2
  have hs : fin1.candidates.map Candidate.id = fin2.candidates.map Candidate.id :=
    congrArg AllocState.slots b2
  have hem : fin1.alloc.emitted.length = fin2.alloc.emitted.length := by rw [b2]
  have hl1' : fin1.candidates.length = C1.length := l1
  have hl2' : fin2.candidates.length = C2.length := l2
  rw [alloc_emitted_length fin1 (by omega), alloc_emitted_length fin2 (by omega)] at hem
  rw [a1] at h1
  rw [a2] at h2
  dsimp only at h1 h2
  by_cases hv0 : fin1.voters_left = 0
  · rw [if_neg (by rw [hv0]; simp)] at h1
    rw [if_neg (by rw [← hv, hv0]; simp)] at h2
    injection h1 with h1
    injection h2 with h2
    rw [← h1, ← h2, hs]
  · rw [if_pos hv0, size_sub_of_le hps1] at h1
    rw [if_pos (by rw [← hv]; exact hv0), size_sub_of_le hps1] at h2
    obtain ⟨last1, hlast1⟩ := read_at_of_lt (l := fin1.candidates) (k := pool_size - 1)
      (by omega)
    obtain ⟨last2, hlast2⟩ := read_at_of_lt (l := fin2.candidates) (k := pool_size - 1)
      (by omega)
    obtain ⟨c1, hc1, hcl1⟩ := write_id_of_lt (l := fin1.candidates)
      (k := fin1.num_candidates) last1.id (by omega)
    obtain ⟨c2, hc2, hcl2⟩ := write_id_of_lt (l := fin2.candidates)
      (k := fin2.num_candidates) last2.id (by omega)
    obtain ⟨d1, hd1, -⟩ := write_votes_of_lt (l := c1) (k := fin1.num_candidates)
      fin1.voters_left (by omega)
    obtain ⟨d2, hd2, -⟩ := write_votes_of_lt (l := c2) (k := fin2.num_candidates)
      fin2.voters_left (by omega)
    rw [hlast1] at h1
    rw [hlast2] at h2
    dsimp only at h1 h2
    rw [hc1] at h1
    rw [hc2] at h2
    dsimp only at h1 h2
    rw [hd1] at h1
    rw [hd2] at h2
    dsimp only at h1 h2
    injection h1 with h1
    injection h2 with h2
    obtain ⟨-, hi1, -⟩ := write_id_ok hc1
    obtain ⟨-, hi2, -⟩ := write_id_ok hc2
    obtain ⟨-, -, hj1⟩ := write_votes_ok hd1
    obtain ⟨-, -, hj2⟩ := write_votes_ok hd2
    have hlast : last2.id = last1.id := by
      have e1 := read_at_ok hlast1
      have e2 := read_at_ok hlast2
      have e1' : (fin1.candidates.map Candidate.id)[pool_size - 1]? = some last1.id := by
        rw [List.getElem?_map, e1]
        rfl
      have e2' : (fin2.candidates.map Candidate.id)[pool_size - 1]? = some last2.id := by
        rw [List.getElem?_map, e2]
        rfl
      rw [hs, e2'] at e1'
      injection e1'
    rw [← h1, ← h2]
    show d2.map Candidate.id = d1.map Candidate.id
    rw [hj1, hj2, hi1, hi2, hs, hem, hlast]

/-- With a single active candidate in front, the two-party block reads its
second pole from the slot behind the active list: on two arrays whose slots
behind that candidate hold the same ids it ends with the same fault, or with
the same first pole and with second poles that have the same id and votes. -/
theorem two_party_block_single (HAMMING : Nat → Nat) (MAX_LOOKUP_SIZE : Nat)
    (hM : MAX_LOOKUP_SIZE = 1 ∨ MAX_LOOKUP_SIZE = 2) (p0 : Candidate)
    (tail1 tail2 : List Candidate)
    (hid : tail2.map Candidate.id = tail1.map Candidate.id) :
    (∀ e, two_party_block HAMMING MAX_LOOKUP_SIZE 1 ([p0] ++ tail1) = .error e →
      two_party_block HAMMING MAX_LOOKUP_SIZE 1 ([p0] ++ tail2) = .error e) ∧
    (∀ C q0 q1, two_party_block HAMMING MAX_LOOKUP_SIZE 1 ([p0] ++ tail1) = .ok (C, q0, q1) →
      ∃ C2 q2, two_party_block HAMMING MAX_LOOKUP_SIZE 1 ([p0] ++ tail2) = .ok (C2, q0, q2) ∧
        q2.id = q1.id ∧ q2.votes = q1.votes) := by
  have hpos : (0 : Nat) < UINT_MOD := by decide
  match tail1, tail2, hid with
  | [], [], _ =>
    constructor
    · intro e h
      exact h
    · intro C q0 q1 h
      simp [two_party_block, status_quo_init, read_at] at h
  | [], _ :: _, hid => simp at hid
  | _ :: _, [], hid => simp at hid
  | t1 :: r1, t2 :: r2, hid =>
    simp only [List.map_cons, List.cons.injEq] at hid
    have ht : t2.id = t1.id := hid.1
    have hb : ∀ (t : Candidate) (r : List Candidate),
        two_party_block HAMMING MAX_LOOKUP_SIZE 1 ([p0] ++ t :: r)
          = two_party_loop HAMMING MAX_LOOKUP_SIZE [p0] { p0 with votes := 0 }
              { t with votes := 0 } >>= fun q => pure ([p0] ++ t :: r, q.1, q.2) := by
      intro t r
      unfold two_party_block two_party
      simp only [status_quo_init, read_at, List.singleton_append, List.getElem?_cons_zero,
        List.getElem?_cons_succ, List.take_succ_cons, List.take_zero]
      cases two_party_loop HAMMING MAX_LOOKUP_SIZE [p0] { p0 with votes := 0 }
        { t with votes := 0 } <;> rfl
    rw [hb t1 r1, hb t2 r2,
      two_party_loop_spec HAMMING MAX_LOOKUP_SIZE hM [p0] _ _ hpos hpos,
      two_party_loop_spec HAMMING MAX_LOOKUP_SIZE hM [p0] _ _ hpos hpos]
    dsimp only
    rw [ht]
    constructor
    · intro e h
      exact Except.noConfusion h
    · intro C q0 q1 h
      simp only [bind, Except.bind, pure, Except.pure, Except.ok.injEq, Prod.mk.injEq] at h
      obtain ⟨-, rfl, rfl⟩ := h
      exact ⟨[p0] ++ t2 :: r2, _, rfl, rfl, rfl⟩

/-- The tallying part of an iteration, run on two states whose active lists
hold the same ids and votes (at least one candidate), is one function `F` of
what the two-party block returns on the respective array: `F` either ends with
one fault whatever the block returns, or passes on the fault of the block and
otherwise returns one report `base` with the sorted poles of the block. -/
theorem main_tally_factor (HAMMING : Nat → Nat) (MAX_LOOKUP_SIZE : Nat)
    (hM : MAX_LOOKUP_SIZE = 1 ∨ MAX_LOOKUP_SIZE = 2)
    (qsort : List Candidate → List Candidate) (hqsort : ∀ l, qsort_result l (qsort l))
    (population_size num_issues : Nat) (hni : num_issues ≤ 64) (washington : Candidate)
    (st1 st2 : ElectionState) (ht1 ht2 sp1 sp2 : Nat → Nat) (w1 w2 : Winners)
    (hb1 : ∀ x, ht1 x < UINT_MOD) (hb2 : ∀ x, ht2 x < UINT_MOD)
    (hs1 : ∀ w, sp1 w < UINT_MOD) (hs2 : ∀ w, sp2 w < UINT_MOD)
    (hb : st2.active.map Candidate.ballot = st1.active.map Candidate.ballot)
    (hn : st2.num_candidates = st1.num_candidates)
    (hlen : st1.active.length = st1.num_candidates) (h1 : 1 ≤ st1.num_candidates) :
    ∃ (sorted : List Candidate)
      (F : Except Fault (List Candidate × Candidate × Candidate) → Except Fault Report),
      sorted.length = st1.num_candidates ∧
      main_tally HAMMING MAX_LOOKUP_SIZE qsort population_size num_issues washington st1
          ht1 sp1 w1
        = F (two_party_block HAMMING MAX_LOOKUP_SIZE st1.num_candidates
              (sorted ++ st1.candidates.drop st1.num_candidates)) ∧
      main_tally HAMMING MAX_LOOKUP_SIZE qsort population_size num_issues washington st2
          ht2 sp2 w2
        = F (two_party_block HAMMING MAX_LOOKUP_SIZE st1.num_candidates
              (sorted ++ st2.candidates.drop st1.num_candidates)) ∧
      ((∃ e, ∀ x, F x = .error e) ∨
        ((∀ e, F (.error e) = .error e) ∧
          ∃ base : Report, ∀ C q0 q1,
            F (.ok (C, q0, q1)) = .ok { base with status_quo := qsort [q0, q1] })) := by
  have hpos : 0 < UINT_MOD := by decide
  have hzb : ∀ (cs : List Candidate) (ht : Nat → Nat), (∀ x, ht x < UINT_MOD) →
      ∀ x, zero_hitler_table cs ht x < UINT_MOD := by
    intro cs ht hht x
    rw [zero_hitler_table_spec]
    split
    · exact hpos
    · exact hht x
  have hzs : ∀ (sp : Nat → Nat), (∀ w, sp w < UINT_MOD) →
      ∀ w, zero_stance_poll (List.range' 0 num_issues) sp w < UINT_MOD := by
    intro sp hsp w
    rw [zero_stance_poll_spec]
    split
    · exact hpos
    · exact hsp w
  obtain ⟨s1, hr1, hc1, hp1, ha1⟩ := compute_election_statistics_spec HAMMING
    MAX_LOOKUP_SIZE hM num_issues hni _ _ (hzs sp1 hs1) (hzb st1.active ht1 hb1) st1.active
  obtain ⟨s2, hr2, hc2, hp2, ha2⟩ := compute_election_statistics_spec HAMMING
    MAX_LOOKUP_SIZE hM num_issues hni _ _ (hzs sp2 hs2) (hzb st2.active ht2 hb2) st2.active
  have hcand : s2.candidates = s1.candidates := by
    rw [hc1, hc2]
    exact map_congr_of_ballot _ _ _ _ hb
      (fun c c' hcc => score_congr HAMMING MAX_LOOKUP_SIZE hM num_issues c c' _ _ hcc hb)
  have hids : st2.active.map Candidate.id = st1.active.map Candidate.id :=
    map_congr_of_ballot _ _ _ _ hb (fun a b h => congrArg Prod.fst h)
  have hsp : ∀ w, w < num_issues → s2.stance_poll w = s1.stance_poll w := by
    intro w hw
    rw [hp1 w hw, hp2 w hw, zero_stance_poll_spec, zero_stance_poll_spec,
      if_pos (show 0 ≤ w ∧ w < 0 + num_issues by omega),
      if_pos (show 0 ≤ w ∧ w < 0 + num_issues by omega)]
    have e : ∀ cs : List Candidate,
        ((cs.filter fun c => c.id.testBit w).map Candidate.votes).sum = stance_votes cs w :=
      fun _ => rfl
    rw [e, e, stance_votes_eq_sum, stance_votes_eq_sum,
      sum_by_ballot (fun i v => if i.testBit w then v else 0) st2.active st1.active
        (by rw [hb])]
  have hht : ∀ x ∈ st1.active.map Candidate.id, s2.hitler_table x = s1.hitler_table x := by
    intro x hx
    rw [ha1 x, ha2 x, zero_hitler_table_spec, zero_hitler_table_spec, if_pos hx,
      if_pos (by rw [hids]; exact hx), hcand]
  have hq := hqsort s1.candidates
  have hq' : qsort_result (st1.active.map (score HAMMING MAX_LOOKUP_SIZE num_issues
      st1.active)) (qsort s1.candidates) := by
    rw [← hc1]
    exact hq
  obtain ⟨hslen, hmem⟩ := qsort_result_scored HAMMING MAX_LOOKUP_SIZE num_issues st1.active
    (qsort s1.candidates) hq'
  have hne : qsort s1.candidates ≠ [] := by
    intro h
    rw [h, List.length_nil] at hslen
    omega
  obtain ⟨hw1, hw2, hw3⟩ := find_winners_lists_congr (qsort s1.candidates)
    s2.hitler_table s1.hitler_table w2 w1 hne
    (fun c hc => by
      obtain ⟨c0, hc0, -, hcid, -⟩ := hmem c hc
      rw [hcid]
      exact hht _ (List.mem_map_of_mem _ hc0))
  have hwash := find_washington_congr population_size num_issues s2.stance_poll
    s1.stance_poll hsp
  have hsn : (qsort s1.candidates).length = st1.num_candidates := by omega
  cases hfw : find_washington population_size num_issues s1.stance_poll with
  | error e =>
    refine ⟨qsort s1.candidates, fun _ => .error e, hsn, ?_, ?_, Or.inl ⟨e, fun _ => rfl⟩⟩
    · unfold main_tally
      simp only [hr1, hfw]
    · unfold main_tally
      simp only [hr2, hwash, hfw]
  | ok id =>
    cases hcc : compute_candidate_statistics HAMMING MAX_LOOKUP_SIZE num_issues
        { washington with id := id } (qsort s1.candidates) with
    | error e =>
      refine ⟨qsort s1.candidates, fun _ => .error e, hsn, ?_, ?_, Or.inl ⟨e, fun _ => rfl⟩⟩
      · unfold main_tally
        simp only [hr1, hfw, hcc]
      · unfold main_tally
        simp only [hr2, hcand, hwash, hfw, hcc]
    | ok wash =>
      refine ⟨qsort s1.candidates,
        fun x => match x with
          | .error e => .error e
          | .ok (_, q0, q1) =>
            .ok { num_candidates := st1.num_candidates, candidates := qsort s1.candidates,
                  elected := (find_winners (qsort s1.candidates) s1.hitler_table
                    w1).traditional,
                  elected_a := (find_winners (qsort s1.candidates) s1.hitler_table
                    w1).approval,
                  elected_h := (find_winners (qsort s1.candidates) s1.hitler_table w1).hitler,
                  washington := wash, status_quo := qsort [q0, q1] },
        hsn, ?_, ?_, Or.inr ⟨fun _ => rfl,
          ⟨{ num_candidates := st1.num_candidates, candidates := qsort s1.candidates,
             elected := (find_winners (qsort s1.candidates) s1.hitler_table w1).traditional,
             elected_a := (find_winners (qsort s1.candidates) s1.hitler_table w1).approval,
             elected_h := (find_winners (qsort s1.candidates) s1.hitler_table w1).hitler,
             washington := wash, status_quo := [] }, fun _ _ _ => rfl⟩⟩⟩
      · unfold main_tally
        simp only [hr1, hfw, hcc]
      · unfold main_tally
        simp only [hr2, hcand, hwash, hfw, hcc, hn, hw1, hw2, hw3]

/-- The two-party block on a sorted list of at least one candidate followed by
either of two tails that hold the same ids: the same fault, or the same first
pole and second poles with the same id and votes. -/
theorem two_party_block_rel (HAMMING : Nat → Nat) (MAX_LOOKUP_SIZE : Nat)
    (hM : MAX_LOOKUP_SIZE = 1 ∨ MAX_LOOKUP_SIZE = 2) (sorted tail1 tail2 : List Candidate)
    (h1 : 1 ≤ sorted.length) (hid : tail2.map Candidate.id = tail1.map Candidate.id) :
    (∀ e, two_party_block HAMMING MAX_LOOKUP_SIZE sorted.length (sorted ++ tail1) = .error e →
      two_party_block HAMMING MAX_LOOKUP_SIZE sorted.length (sorted ++ tail2) = .error e) ∧
    (∀ C q0 q1,
      two_party_block HAMMING MAX_LOOKUP_SIZE sorted.length (sorted ++ tail1)
        = .ok (C, q0, q1) →
      ∃ C2 q2, two_party_block HAMMING MAX_LOOKUP_SIZE sorted.length (sorted ++ tail2)
          = .ok (C2, q0, q2) ∧ q2.id = q1.id ∧ q2.votes = q1.votes) := by
  by_cases h2 : 2 ≤ sorted.length
  · obtain ⟨q0, q1, hblock⟩ := two_party_block_poles HAMMING MAX_LOOKUP_SIZE hM sorted h2
    rw [hblock tail1, hblock tail2]
    constructor
    · intro e h
      exact Except.noConfusion h
    · intro C p0 p1 h
      injection h with h
      simp only [Prod.mk.injEq] at h
      obtain ⟨-, rfl, rfl⟩ := h
      exact ⟨_, _, rfl, rfl, rfl⟩
  · obtain ⟨p0, rfl⟩ := List.length_eq_one.mp (show sorted.length = 1 by omega)
    exact two_party_block_single HAMMING MAX_LOOKUP_SIZE hM p0 tail1 tail2 hid

/-- The tallying part of an iteration on two states that hold the same ids in
every slot and the same votes in the active list (at least one candidate):
the two runs end with the same fault, or with reports that differ at most in
the statistics of one pole. -/
theorem main_tally_rel (HAMMING : Nat → Nat) (MAX_LOOKUP_SIZE : Nat)
    (hM : MAX_LOOKUP_SIZE = 1 ∨ MAX_LOOKUP_SIZE = 2)
    (qsort : List Candidate → List Candidate) (hqsort : ∀ l, qsort_result l (qsort l))
    (population_size num_issues : Nat) (hni : num_issues ≤ 64) (washington : Candidate)
    (st1 st2 : ElectionState) (ht1 ht2 sp1 sp2 : Nat → Nat) (w1 w2 : Winners)
    (hb1 : ∀ x, ht1 x < UINT_MOD) (hb2 : ∀ x, ht2 x < UINT_MOD)
    (hs1 : ∀ w, sp1 w < UINT_MOD) (hs2 : ∀ w, sp2 w < UINT_MOD)
    (hb : st2.active.map Candidate.ballot = st1.active.map Candidate.ballot)
    (hn : st2.num_candidates = st1.num_candidates)
    (hlen : st1.active.length = st1.num_candidates) (h1 : 1 ≤ st1.num_candidates)
    (hid : st2.candidates.map Candidate.id = st1.candidates.map Candidate.id) :
    (∀ e, main_tally HAMMING MAX_LOOKUP_SIZE qsort population_size num_issues washington st1
        ht1 sp1 w1 = .error e →
      main_tally HAMMING MAX_LOOKUP_SIZE qsort population_size num_issues washington st2
        ht2 sp2 w2 = .error e) ∧
    (∀ r1, main_tally HAMMING MAX_LOOKUP_SIZE qsort population_size num_issues washington st1
        ht1 sp1 w1 = .ok r1 →
      ∃ r2, main_tally HAMMING MAX_LOOKUP_SIZE qsort population_size num_issues washington
          st2 ht2 sp2 w2 = .ok r2 ∧ r1.agree_up_to_pole_statistics r2) := by
  obtain ⟨sorted, F, hsl, e1, e2, hF⟩ := main_tally_factor HAMMING MAX_LOOKUP_SIZE hM qsort
    hqsort population_size num_issues hni washington st1 st2 ht1 ht2 sp1 sp2 w1 w2 hb1 hb2
    hs1 hs2 hb hn hlen h1
  have htail : (st2.candidates.drop st1.num_candidates).map Candidate.id
      = (st1.candidates.drop st1.num_candidates).map Candidate.id := by
    rw [List.map_drop, List.map_drop, hid]
  have hblk := two_party_block_rel HAMMING MAX_LOOKUP_SIZE hM sorted
    (st1.candidates.drop st1.num_candidates) (st2.candidates.drop st1.num_candidates)
    (by omega) htail
  rw [hsl] at hblk
  rw [e1, e2]
  rcases hF with ⟨e, hc⟩ | ⟨herr, base, hok⟩
  · rw [hc, hc]
    exact ⟨fun _ h => h, fun _ h => Except.noConfusion h⟩
  · rcases hX : two_party_block HAMMING MAX_LOOKUP_SIZE st1.num_candidates
      (sorted ++ st1.candidates.drop st1.num_candidates) with e | ⟨C, q0, q1⟩
    · rw [hblk.1 e hX, herr]
      exact ⟨fun _ h => h, fun _ h => Except.noConfusion h⟩
    · obtain ⟨C2, q2, hY, hqid, hqv⟩ := hblk.2 C q0 q1 hX
      rw [hY, hok, hok]
      constructor
      · intro e h
        exact Except.noConfusion h
      · intro r1 h
        injection h with h
        subst h
        exact ⟨_, rfl, rfl, rfl, rfl, rfl, rfl, rfl, q0, q1, q2, (hqsort _).1, (hqsort _).1,
          hqid, hqv⟩

/-- An iteration in which `perform_election` leaves at least one active
candidate, started from either of two prior contents of the buffers: the two
runs end with the same fault, or with reports that differ at most in the
statistics of one pole. -/
theorem main_iteration_rel (RAND_MAX : Nat) (HAMMING : Nat → Nat) (MAX_LOOKUP_SIZE : Nat)
    (hM : MAX_LOOKUP_SIZE = 1 ∨ MAX_LOOKUP_SIZE = 2)
    (qsort : List Candidate → List Candidate) (hqsort : ∀ l, qsort_result l (qsort l))
    (population_size num_issues : Nat) (hni : num_issues ≤ 30)
    (hpop : population_size + 1 < UINT_MOD) (washington : Candidate)
    (c1 c2 : List Candidate) (ht1 ht2 sp1 sp2 : Nat → Nat) (w1 w2 : Winners)
    (draws : List Nat)
    (hl1 : c1.length = 2 ^ num_issues) (hl2 : c2.length = 2 ^ num_issues)
    (hb1 : ∀ x, ht1 x < UINT_MOD) (hb2 : ∀ x, ht2 x < UINT_MOD)
    (hs1 : ∀ w, sp1 w < UINT_MOD) (hs2 : ∀ w, sp2 w < UINT_MOD)
    (D1 : List Candidate) (st1 : ElectionState)
    (hD1 : init_pool (List.range' 0 (2 ^ num_issues)) c1 = .ok D1)
    (hP1 : perform_election RAND_MAX population_size (2 ^ num_issues) D1 draws = .ok st1)
    (hn : 1 ≤ st1.num_candidates) :
    (∀ e, main_iteration RAND_MAX HAMMING MAX_LOOKUP_SIZE qsort population_size num_issues
        washington c1 ht1 sp1 w1 draws = .error e →
      main_iteration RAND_MAX HAMMING MAX_LOOKUP_SIZE qsort population_size num_issues
        washington c2 ht2 sp2 w2 draws = .error e) ∧
    (∀ r1, main_iteration RAND_MAX HAMMING MAX_LOOKUP_SIZE qsort population_size num_issues
        washington c1 ht1 sp1 w1 draws = .ok r1 →
      ∃ r2, main_iteration RAND_MAX HAMMING MAX_LOOKUP_SIZE qsort population_size num_issues
          washington c2 ht2 sp2 w2 draws = .ok r2 ∧ r1.agree_up_to_pole_statistics r2) := by
  have hps1 : 1 ≤ 2 ^ num_issues := Nat.one_le_two_pow
  have hps : 2 ^ num_issues < UINT_MOD :=
    Nat.pow_lt_pow_right (by decide) (by omega)
  obtain ⟨hlD1, D2, hD2, hlD2, hids⟩ := init_pool_ids (2 ^ num_issues) c1 c2 D1 hl1 hl2 hD1
  obtain ⟨st2, hP2, hb, hnn⟩ := perform_election_ballot_congr RAND_MAX population_size
    (2 ^ num_issues) D1 D2 draws hps1 hps (by omega) (by omega) hpop hids st1 hP1
  have hslots := perform_election_slots_congr RAND_MAX population_size (2 ^ num_issues) D1 D2
    draws hps1 hps (by omega) (by omega) hpop hids st1 st2 hP1 hP2
  obtain ⟨-, hlen, -⟩ := perform_election_count _ _ _ _ _ _ hps1 hP1
  unfold main_iteration
  rw [hD1, hD2]
  dsimp only
  rw [hP1, hP2]
  dsimp only
  exact main_tally_rel HAMMING MAX_LOOKUP_SIZE hM qsort hqsort population_size num_issues
    (by omega) washington st1 st2 ht1 ht2 sp1 sp2 w1 w2 hb1 hb2 hs1 hs2 hb hnn hlen hn hslots

/-! # Claims -/

/-- C1: `perform_election` conserves voters.  On every stream of raw draws on
which it returns, the votes of the `num_candidates` emitted candidates
(`candidates[0..num_candidates-1].votes`) sum to exactly the original
`voters_left`; this holds for every `pool_size` and every `voters_left`, in
particular for `pool_size ≥ 1` and `voters_left ≤ RAND_MAX`. -/
theorem C1_perform_election_conserves_voters (RAND_MAX voters_left pool_size : Nat)
    (candidates : List Candidate) (draws : List Nat) (st : ElectionState)
    (hret : perform_election RAND_MAX voters_left pool_size candidates draws = .ok st) :
    (st.active.map Candidate.votes).sum = voters_left := by
  have h := perform_election_votes RAND_MAX voters_left pool_size candidates draws st hret
  exact h

/-- C1 witness: 10 voters, a pool of 4 and `RAND_MAX = 32767`; the run emits
6 votes in the loop and the 4 trailing voters after it. -/
theorem C1_perform_election_conserves_voters_witness :
    perform_election 32767 10 4 pool4 draws9 = .ok run4 ∧
      run4.active.map Candidate.votes = [6, 4] ∧
      (run4.active.map Candidate.votes).sum = 10 :=
  ⟨by decide, by decide,
    C1_perform_election_conserves_voters 32767 10 4 pool4 draws9 run4 (by decide)⟩

/-- C2: `perform_election` emits pairwise distinct ids.  Starting from the
identity pool (`candidates[k].id = k` for `k < pool_size`), for every
`voters_left` and every stream of draws on which the call returns, the ids of
`candidates[0..num_candidates-1]` are pairwise distinct and each is below
`pool_size`; the trailing candidate, which copies `candidates[pool_size-1].id`,
is included. -/
theorem C2_perform_election_distinct_ids (RAND_MAX voters_left pool_size : Nat)
    (candidates : List Candidate) (draws : List Nat) (st : ElectionState)
    (hid : ∀ k, k < pool_size → (candidates.map Candidate.id)[k]? = some k)
    (hret : perform_election RAND_MAX voters_left pool_size candidates draws = .ok st) :
    (st.active.map Candidate.id).Nodup ∧ ∀ x ∈ st.active.map Candidate.id, x < pool_size := by
  obtain ⟨hnodup, hbound⟩ :=
    perform_election_ids RAND_MAX voters_left pool_size candidates draws st hid hret
  exact ⟨hnodup, hbound⟩

/-- C2 witness: the same run emits the ids 0 and 1. -/
theorem C2_perform_election_distinct_ids_witness :
    perform_election 32767 10 4 pool4 draws9 = .ok run4 ∧
      run4.active.map Candidate.id = [0, 1] ∧
      (run4.active.map Candidate.id).Nodup ∧ ∀ x ∈ run4.active.map Candidate.id, x < 4 :=
  ⟨by decide, by decide,
    C2_perform_election_distinct_ids 32767 10 4 pool4 draws9 run4 (by decide) (by decide)⟩

/-- C3: for every candidate `c` and every comparison list,
`compute_candidate_statistics` returns with `pro + contra + medius` equal to
the sum of the votes of the whole list, also when `c` is not a member of the
list.  The counters are `unsigned`: the equality holds modulo `2 ^ 32` for
every list and exactly whenever the votes of the list sum to less than
`2 ^ 32`. -/
theorem C3_buckets_sum_to_total_votes (HAMMING : Nat → Nat) (MAX_LOOKUP_SIZE : Nat)
    (hM : MAX_LOOKUP_SIZE = 1 ∨ MAX_LOOKUP_SIZE = 2) (num_issues : Nat)
    (c : Candidate) (cs : List Candidate) :
    ∃ r, compute_candidate_statistics HAMMING MAX_LOOKUP_SIZE num_issues c cs = .ok r ∧
      (r.pro + r.contra + r.medius) % UINT_MOD = (cs.map Candidate.votes).sum % UINT_MOD ∧
      ((cs.map Candidate.votes).sum < UINT_MOD →
        r.pro + r.contra + r.medius = (cs.map Candidate.votes).sum) := by
  obtain ⟨r, hr⟩ := compute_candidate_statistics_ok HAMMING MAX_LOOKUP_SIZE hM num_issues c cs
  obtain ⟨-, -, h3, h4, h5, -⟩ := compute_candidate_statistics_spec _ _ _ _ _ _ hr
  have hp := buckets_partition (fun h => distance HAMMING MAX_LOOKUP_SIZE c.id h.id)
    num_issues cs
  simp only at hp
  refine ⟨r, hr, ?_, ?_⟩
  · rw [h3, h4, h5, ← hp]
    simp only [UINT_MOD]
    omega
  · intro hlt
    rw [h3, h4, h5, ← hp]
    rw [← hp] at hlt
    simp only [UINT_MOD] at hlt ⊢
    omega

/-- C3 witness: candidate 0 of the worked scenario against the whole list:
pro 3, contra 5 and medius 2 add up to the 10 votes of the list. -/
theorem C3_buckets_sum_to_total_votes_witness :
    compute_candidate_statistics HAMMING_table 2 2 ⟨0, 0, 0, 0, 3, 0, 0⟩ scenario3
        = .ok ⟨5, 2, 3, 12, 3, 3, 0⟩ ∧
      ∃ r, compute_candidate_statistics HAMMING_table 2 2 ⟨0, 0, 0, 0, 3, 0, 0⟩ scenario3
          = .ok r ∧
        (r.pro + r.contra + r.medius) % UINT_MOD
          = (scenario3.map Candidate.votes).sum % UINT_MOD ∧
        ((scenario3.map Candidate.votes).sum < UINT_MOD →
          r.pro + r.contra + r.medius = (scenario3.map Candidate.votes).sum) :=
  ⟨by decide,
    C3_buckets_sum_to_total_votes HAMMING_table 2 (Or.inr rfl) 2 ⟨0, 0, 0, 0, 3, 0, 0⟩
      scenario3⟩

/-- C4: for candidate ids below `2 ^ num_issues`, a table `HAMMING` of bit
counts and total votes times `num_issues` that fit in an `unsigned`,
`compute_candidate_statistics` sets `sum_disapproval` to the sum over the list
members `h` of `distance(c, h.id) * h.votes` without wrap-around, where the
distance is the Hamming weight of the XOR of the two ids. -/
theorem C4_sum_disapproval_is_weighted_distance (HAMMING : Nat → Nat)
    (MAX_LOOKUP_SIZE : Nat) (hM : MAX_LOOKUP_SIZE = 1 ∨ MAX_LOOKUP_SIZE = 2)
    (htab : ∀ i, i < 65536 → HAMMING i = popcount i) (num_issues : Nat)
    (c : Candidate) (cs : List Candidate)
    (hc : c.id < 2 ^ num_issues) (hcs : ∀ h ∈ cs, h.id < 2 ^ num_issues)
    (hfit : (cs.map Candidate.votes).sum * num_issues < UINT_MOD) :
    ∃ r, compute_candidate_statistics HAMMING MAX_LOOKUP_SIZE num_issues c cs = .ok r ∧
      r.sum_disapproval
        = (cs.map fun h => distance HAMMING MAX_LOOKUP_SIZE c.id h.id * h.votes).sum ∧
      ∀ h ∈ cs, distance HAMMING MAX_LOOKUP_SIZE c.id h.id
        = popcount ((c.id ^^^ h.id) % UINT_MOD) := by
  obtain ⟨r, hr⟩ := compute_candidate_statistics_ok HAMMING MAX_LOOKUP_SIZE hM num_issues c cs
  obtain ⟨-, -, -, -, -, h6⟩ := compute_candidate_statistics_spec _ _ _ _ _ _ hr
  have hle := weighted_sum_le (fun h => distance HAMMING MAX_LOOKUP_SIZE c.id h.id)
    num_issues cs
    (fun x hx => (distance_le HAMMING MAX_LOOKUP_SIZE hM htab num_issues c.id x.id hc
      (hcs x hx)).2)
  simp only at hle
  refine ⟨r, hr, ?_, ?_⟩
  · rw [h6]
    exact Nat.mod_eq_of_lt (Nat.lt_of_le_of_lt hle hfit)
  · intro h hh
    exact (distance_le HAMMING MAX_LOOKUP_SIZE hM htab num_issues c.id h.id hc (hcs h hh)).1

/-- C4 witness: candidate 0 of the worked scenario: the distances 0, 1 and 2
weighted by 3, 2 and 5 votes give `sum_disapproval` 12. -/
theorem C4_sum_disapproval_is_weighted_distance_witness :
    (scenario3.map fun h => distance HAMMING_table 2 0 h.id * h.votes).sum = 12 ∧
      ∃ r, compute_candidate_statistics HAMMING_table 2 2 ⟨0, 0, 0, 0, 3, 0, 0⟩ scenario3
          = .ok r ∧
        r.sum_disapproval
          = (scenario3.map fun h => distance HAMMING_table 2 0 h.id * h.votes).sum ∧
        ∀ h ∈ scenario3, distance HAMMING_table 2 0 h.id
          = popcount ((0 ^^^ h.id) % UINT_MOD) :=
  ⟨by decide,
    C4_sum_disapproval_is_weighted_distance HAMMING_table 2 (Or.inr rfl)
      HAMMING_table_popcount 2 ⟨0, 0, 0, 0, 3, 0, 0⟩ scenario3 (by decide) (by decide)
      (by decide)⟩

/-- C5: for every non-empty active list sorted by votes descending, the
traditional (plurality) winner list `elected[0..num_winners-1]` built in
`main` contains exactly the candidates whose votes equal the maximum votes over
the active list, each exactly once. -/
theorem C5_plurality_winners_exact (cs : List Candidate) (ht : Nat → Nat) (w0 : Winners)
    (hne : cs ≠ [])
    (hsorted : cs.Pairwise (fun a b => a.votes ≥ b.votes)) :
    (find_winners cs ht w0).traditional.Nodup ∧
      ∀ j, j ∈ (find_winners cs ht w0).traditional ↔
        j < cs.length ∧ ∀ k, k < cs.length → (cand cs k).votes ≤ (cand cs j).votes := by
  obtain ⟨m, m1, m2, m3, m4, m5, m6, -, -⟩ := find_winners_spec cs ht w0 hne
  have hs : ∀ a b, a < b → b < cs.length → (cand cs b).votes ≤ (cand cs a).votes := by
    intro a b hab hb
    rw [cand_eq_getElem cs a (by omega), cand_eq_getElem cs b hb]
    exact List.pairwise_iff_getElem.mp hsorted a b (by omega) hb hab
  have hlist : (find_winners cs ht w0).traditional = List.range m := by
    unfold Winners.traditional
    rw [m3]
    conv_rhs => rw [← List.map_id (List.range m)]
    apply List.map_congr_left
    intro p hp
    exact m4 p (List.mem_range.mp hp)
  rw [hlist]
  refine ⟨List.nodup_range m, ?_⟩
  intro j
  rw [List.mem_range]
  constructor
  · intro hj
    refine ⟨by omega, ?_⟩
    intro k hk
    rw [m5 j hj]
    rcases Nat.eq_zero_or_pos k with hk0 | hk0
    · subst hk0; exact Nat.le_refl _
    · exact hs 0 k hk0 hk
  · rintro ⟨hj, hmax⟩
    by_contra hjm
    have hm : m < cs.length := by omega
    have h1 := m6 hm
    have h2 := hs 0 m (by omega) hm
    have h3 : (cand cs j).votes ≤ (cand cs m).votes := by
      rcases Nat.lt_or_ge m j with h | h
      · exact hs m j h hj
      · have : j = m := by omega
        subst this; exact Nat.le_refl _
    have h4 := hmax 0 (by omega)
    omega

/-- C5 witness: in `tally5` the two candidates with 5 votes win. -/
theorem C5_plurality_winners_exact_witness :
    (find_winners tally5 tally5_table stale_winners).traditional = [0, 1] ∧
      (find_winners tally5 tally5_table stale_winners).traditional.Nodup ∧
      ∀ j, j ∈ (find_winners tally5 tally5_table stale_winners).traditional ↔
        j < tally5.length ∧
          ∀ k, k < tally5.length → (cand tally5 k).votes ≤ (cand tally5 j).votes :=
  ⟨by decide,
    C5_plurality_winners_exact tally5 tally5_table stale_winners (by decide) (by decide)⟩

/-- C6: for every non-empty active list, the approval winner list
`elected_a[0..num_a_winners-1]` built in `main` contains exactly the active
candidates whose `sum_disapproval` equals the minimum over the whole active
list, each exactly once; the index at which the first loop breaks out is
neither skipped nor visited twice. -/
theorem C6_approval_winners_exact (cs : List Candidate) (ht : Nat → Nat) (w0 : Winners)
    (hne : cs ≠ []) :
    (find_winners cs ht w0).approval.Nodup ∧
      ∀ j, j ∈ (find_winners cs ht w0).approval ↔
        j < cs.length ∧
          ∀ k, k < cs.length → (cand cs j).sum_disapproval ≤ (cand cs k).sum_disapproval := by
  obtain ⟨m, -, -, -, -, -, -, ha, -⟩ := find_winners_spec cs ht w0 hne
  exact MinInv_winners _ _ _ ha

/-- C6 witness: in `tally5` the first loop breaks at index 2; the approval
winners are the indices 1 and 3, one found by each loop. -/
theorem C6_approval_winners_exact_witness :
    (find_winners tally5 tally5_table stale_winners).approval = [1, 3] ∧
      (find_winners tally5 tally5_table stale_winners).approval.Nodup ∧
      ∀ j, j ∈ (find_winners tally5 tally5_table stale_winners).approval ↔
        j < tally5.length ∧
          ∀ k, k < tally5.length →
            (cand tally5 j).sum_disapproval ≤ (cand tally5 k).sum_disapproval :=
  ⟨by decide, C6_approval_winners_exact tally5 tally5_table stale_winners (by decide)⟩

/-- C7: for every non-empty active list, the antagonist-method winner list
`elected_h[0..num_h_winners-1]` built in `main` contains exactly the active
candidates `c` whose `hitler_table[c.id]` equals the minimum of
`hitler_table[x.id]` over all active candidates `x`, each exactly once. -/
theorem C7_antagonist_winners_exact (cs : List Candidate) (ht : Nat → Nat) (w0 : Winners)
    (hne : cs ≠ []) :
    (find_winners cs ht w0).hitler.Nodup ∧
      ∀ j, j ∈ (find_winners cs ht w0).hitler ↔
        j < cs.length ∧
          ∀ k, k < cs.length → ht (cand cs j).id ≤ ht (cand cs k).id := by
  obtain ⟨m, -, -, -, -, -, -, -, hh⟩ := find_winners_spec cs ht w0 hne
  exact MinInv_winners _ _ _ hh

/-- C7 witness: in `tally5` the candidates at indices 1 and 3 hold the
minimal `hitler_table` entry 0. -/
theorem C7_antagonist_winners_exact_witness :
    (find_winners tally5 tally5_table stale_winners).hitler = [1, 3] ∧
      (find_winners tally5 tally5_table stale_winners).hitler.Nodup ∧
      ∀ j, j ∈ (find_winners tally5 tally5_table stale_winners).hitler ↔
        j < tally5.length ∧
          ∀ k, k < tally5.length →
            tally5_table (cand tally5 j).id ≤ tally5_table (cand tally5 k).id :=
  ⟨by decide, C7_antagonist_winners_exact tally5 tally5_table stale_winners (by decide)⟩

/-- C8: for every stance tally with `stance_poll[w] ≤ population_size` for
all `w < num_issues` (and `num_issues ≤ 31`, so that every `1<<i` is a defined
`int` shift), the consensus (washington) id has bit `w` equal to 1 if and only
if `w < num_issues` and `stance_poll[w] ≥ population_size - stance_poll[w]`;
in particular it has no bits set at positions `≥ num_issues`.  For the stance
tally `[6, 4]` and population 10 the id is 1. -/
theorem C8_washington_id_bits (population_size num_issues : Nat)
    (stance_poll : Nat → Nat) (hni : num_issues ≤ 31)
    (hle : ∀ w, w < num_issues → stance_poll w ≤ population_size) :
    (∃ id, find_washington population_size num_issues stance_poll = .ok id ∧
      id < 2 ^ num_issues ∧
      ∀ w, id.testBit w = true ↔
        (w < num_issues ∧ stance_poll w ≥ population_size - stance_poll w)) ∧
    find_washington 10 2 (fun w => [6, 4].getD w 0) = .ok 1 := by
  constructor
  · obtain ⟨r, hr, hrlt, hbits⟩ := find_washington_loop_spec population_size stance_poll
      num_issues 0 0 (by simp) (by omega) (fun w hw => hle w (by omega))
    refine ⟨r, hr, by simpa using hrlt, ?_⟩
    intro w
    rw [hbits w]
    simp
  · decide

/-- C8 witness: three issues with stance tally 5, 2, 9 out of 10 voters: the
tie on issue 0 and the majority on issue 2 set bits 0 and 2, so the id is 5. -/
theorem C8_washington_id_bits_witness :
    find_washington 10 3 (fun w => [5, 2, 9].getD w 0) = .ok 5 ∧
      ((∃ id, find_washington 10 3 (fun w => [5, 2, 9].getD w 0) = .ok id ∧
        id < 2 ^ 3 ∧
        ∀ w, id.testBit w = true ↔
          (w < 3 ∧ [5, 2, 9].getD w 0 ≥ 10 - [5, 2, 9].getD w 0)) ∧
      find_washington 10 2 (fun w => [6, 4].getD w 0) = .ok 1) :=
  ⟨by decide,
    C8_washington_id_bits 10 3 (fun w => [5, 2, 9].getD w 0) (by decide) (by decide)⟩

/-- C9: in the two-party reduction, for every active list (whose votes sum
to less than `2 ^ 32`, as the votes of a population do) and every two poles,
each pole's resulting vote count is the sum of the votes of the active
candidates whose distance to that pole is strictly smaller than their distance
to the other pole; candidates equidistant from both poles contribute to
neither, so the votes of the two poles plus the votes of the equidistant
candidates equal the total active votes.  For every list the two vote counts
are these sums modulo `2 ^ 32`. -/
theorem C9_two_party_votes (HAMMING : Nat → Nat) (MAX_LOOKUP_SIZE : Nat)
    (hM : MAX_LOOKUP_SIZE = 1 ∨ MAX_LOOKUP_SIZE = 2)
    (status_quo_0 status_quo_1 : Candidate) (cs : List Candidate) :
    ∃ p0 p1, two_party HAMMING MAX_LOOKUP_SIZE status_quo_0 status_quo_1 cs = .ok (p0, p1) ∧
      p0.id = status_quo_0.id ∧ p1.id = status_quo_1.id ∧
      p0.votes = (cs.map fun c =>
        if distance HAMMING MAX_LOOKUP_SIZE status_quo_0.id c.id
          < distance HAMMING MAX_LOOKUP_SIZE status_quo_1.id c.id then c.votes else 0).sum
        % UINT_MOD ∧
      p1.votes = (cs.map fun c =>
        if distance HAMMING MAX_LOOKUP_SIZE status_quo_1.id c.id
          < distance HAMMING MAX_LOOKUP_SIZE status_quo_0.id c.id then c.votes else 0).sum
        % UINT_MOD ∧
      ((cs.map Candidate.votes).sum < UINT_MOD →
        p0.votes = (cs.map fun c =>
          if distance HAMMING MAX_LOOKUP_SIZE status_quo_0.id c.id
            < distance HAMMING MAX_LOOKUP_SIZE status_quo_1.id c.id then c.votes else 0).sum ∧
        p1.votes = (cs.map fun c =>
          if distance HAMMING MAX_LOOKUP_SIZE status_quo_1.id c.id
            < distance HAMMING MAX_LOOKUP_SIZE status_quo_0.id c.id then c.votes else 0).sum ∧
        p0.votes + p1.votes + (cs.map fun c =>
          if distance HAMMING MAX_LOOKUP_SIZE status_quo_0.id c.id
            = distance HAMMING MAX_LOOKUP_SIZE status_quo_1.id c.id then c.votes else 0).sum
          = (cs.map Candidate.votes).sum) := by
  have hpos : 0 < UINT_MOD := by decide
  have hspec := two_party_loop_spec HAMMING MAX_LOOKUP_SIZE hM cs
    { status_quo_0 with votes := 0 } { status_quo_1 with votes := 0 } hpos hpos
  have hpart := two_party_partition
    (fun c => distance HAMMING MAX_LOOKUP_SIZE status_quo_0.id c.id)
    (fun c => distance HAMMING MAX_LOOKUP_SIZE status_quo_1.id c.id) cs
  dsimp only at hspec hpart
  simp only [Nat.zero_add] at hspec
  refine ⟨_, _, hspec, rfl, rfl, rfl, rfl, ?_⟩
  intro hfit
  dsimp only
  rw [← hpart] at hfit ⊢
  simp only [UINT_MOD, gt_iff_lt] at hfit ⊢
  refine ⟨?_, ?_, ?_⟩ <;> omega

/-- C9 witness: the worked scenario with the poles 3 and 0: candidate 1 is
equidistant from both, so the poles end with 5 and 3 votes and the 2 votes of
candidate 1 go to neither. -/
theorem C9_two_party_votes_witness :
    two_party HAMMING_table 2 ⟨0, 0, 0, 0, 5, 0, 3⟩ ⟨0, 0, 0, 0, 3, 0, 0⟩ scenario3
        = .ok (⟨0, 0, 0, 0, 5, 0, 3⟩, ⟨0, 0, 0, 0, 3, 0, 0⟩) ∧
      ∃ p0 p1, two_party HAMMING_table 2 ⟨0, 0, 0, 0, 5, 0, 3⟩ ⟨0, 0, 0, 0, 3, 0, 0⟩ scenario3
          = .ok (p0, p1) ∧
        p0.id = 3 ∧ p1.id = 0 ∧
        p0.votes = (scenario3.map fun c =>
          if distance HAMMING_table 2 3 c.id < distance HAMMING_table 2 0 c.id
          then c.votes else 0).sum % UINT_MOD ∧
        p1.votes = (scenario3.map fun c =>
          if distance HAMMING_table 2 0 c.id < distance HAMMING_table 2 3 c.id
          then c.votes else 0).sum % UINT_MOD ∧
        ((scenario3.map Candidate.votes).sum < UINT_MOD →
          p0.votes = (scenario3.map fun c =>
            if distance HAMMING_table 2 3 c.id < distance HAMMING_table 2 0 c.id
            then c.votes else 0).sum ∧
          p1.votes = (scenario3.map fun c =>
            if distance HAMMING_table 2 0 c.id < distance HAMMING_table 2 3 c.id
            then c.votes else 0).sum ∧
          p0.votes + p1.votes + (scenario3.map fun c =>
            if distance HAMMING_table 2 3 c.id = distance HAMMING_table 2 0 c.id
            then c.votes else 0).sum
            = (scenario3.map Candidate.votes).sum) :=
  ⟨by decide,
    C9_two_party_votes HAMMING_table 2 (Or.inr rfl) ⟨0, 0, 0, 0, 5, 0, 3⟩
      ⟨0, 0, 0, 0, 3, 0, 0⟩ scenario3⟩

/-- C10: whenever `rand_ceiling(ceiling)` returns a value `v` on a stream of raw
draws, `v < ceiling` (and `0 ≤ v` holds as `v` is a natural number); this holds
for every ceiling, in particular for `0 < ceiling ≤ RAND_MAX + 1`. -/
theorem C10_rand_ceiling_in_range (RAND_MAX ceiling : Nat) (draws : List Nat)
    (v : Nat) (rest : List Nat)
    (hret : rand_ceiling RAND_MAX ceiling draws = .ok (v, rest)) :
    0 ≤ v ∧ v < ceiling :=
  ⟨Nat.zero_le v, (rand_ceiling_spec RAND_MAX ceiling draws v rest hret).2.1⟩

/-- C10 witness: with `RAND_MAX = 32767` and ceiling 10 the stream
`[32765, 12345, 7]` is accepted at its second draw and gives 3. -/
theorem C10_rand_ceiling_in_range_witness :
    rand_ceiling 32767 10 [32765, 12345, 7] = .ok (3, [7]) ∧ 0 ≤ 3 ∧ 3 < 10 :=
  ⟨by decide, C10_rand_ceiling_in_range 32767 10 [32765, 12345, 7] 3 [7] (by decide)⟩

/-- C11: `rand_ceiling` introduces no modulo bias.  With `R = RAND_MAX + 1` (a
value that fits in an `unsigned`), for every ceiling with `0 < ceiling ≤ R` and
every `v` in `[0, ceiling)`, the number of raw values `r` in `[0, R)` on which
`rand_ceiling(ceiling)` returns `v` at its first draw is exactly `R / ceiling`,
the same for every `v`; these are the raw values that are accepted
(`r < ceiling * (R / ceiling)`) and mapped to `v` (`r / (R / ceiling) = v`). -/
theorem C11_rand_ceiling_no_modulo_bias (RAND_MAX ceiling v : Nat)
    (hR : RAND_MAX + 1 < UINT_MOD) (hc : 0 < ceiling) (hcR : ceiling ≤ RAND_MAX + 1)
    (hv : v < ceiling) :
    ((List.range (RAND_MAX + 1)).filter
        (fun r => decide (rand_ceiling RAND_MAX ceiling [r] = .ok (v, [])))).length
      = (RAND_MAX + 1) / ceiling ∧
    ∀ r, rand_ceiling RAND_MAX ceiling [r] = .ok (v, []) ↔
      (r < ceiling * ((RAND_MAX + 1) / ceiling) ∧ r / ((RAND_MAX + 1) / ceiling) = v) := by
  refine ⟨rand_ceiling_preimage_count RAND_MAX ceiling v hR hc hcR hv, ?_⟩
  intro r
  exact rand_ceiling_single RAND_MAX ceiling r v hR hc

/-- C11 witness: with `RAND_MAX = 9` and ceiling 3 each of 0, 1, 2 is the image
of 3 of the raw values 0..9 (the raw value 9 is rejected); here for `v = 1`. -/
theorem C11_rand_ceiling_no_modulo_bias_witness :
    (List.range 10).filter (fun r => decide (rand_ceiling 9 3 [r] = .ok (1, [])))
        = [3, 4, 5] ∧
      (((List.range (9 + 1)).filter
          (fun r => decide (rand_ceiling 9 3 [r] = .ok (1, [])))).length = (9 + 1) / 3 ∧
      ∀ r, rand_ceiling 9 3 [r] = .ok (1, []) ↔
        (r < 3 * ((9 + 1) / 3) ∧ r / ((9 + 1) / 3) = 1)) :=
  ⟨by decide,
    C11_rand_ceiling_no_modulo_bias 9 3 1 (by decide) (by decide) (by decide) (by decide)⟩

/-- C12: with a table `HAMMING` of bit counts, for every `num_issues` whose
ids fit in an `unsigned` (`num_issues ≤ 32`) and all ids `a`, `b` in
`[0, 2 ^ num_issues)`, the platform distance `d(a,b) = hamming_weight(a ^ b)`
satisfies `0 ≤ d(a,b) ≤ num_issues`, `d(a,b) = d(b,a)`, and `d(a,b) = 0` if and
only if `a = b`. -/
theorem C12_distance_metric_properties (HAMMING : Nat → Nat) (MAX_LOOKUP_SIZE : Nat)
    (hM : MAX_LOOKUP_SIZE = 1 ∨ MAX_LOOKUP_SIZE = 2)
    (htab : ∀ i, i < 65536 → HAMMING i = popcount i) (num_issues a b : Nat)
    (hni : num_issues ≤ 32) (ha : a < 2 ^ num_issues) (hb : b < 2 ^ num_issues) :
    0 ≤ distance HAMMING MAX_LOOKUP_SIZE a b ∧
      distance HAMMING MAX_LOOKUP_SIZE a b ≤ num_issues ∧
      distance HAMMING MAX_LOOKUP_SIZE a b = distance HAMMING MAX_LOOKUP_SIZE b a ∧
      (distance HAMMING MAX_LOOKUP_SIZE a b = 0 ↔ a = b) := by
  have hpow : 2 ^ num_issues ≤ 2 ^ 32 := Nat.pow_le_pow_right (by decide) hni
  refine ⟨Nat.zero_le _, ?_, ?_, ?_⟩
  · exact (distance_le HAMMING MAX_LOOKUP_SIZE hM htab num_issues a b ha hb).2
  · unfold distance
    rw [Nat.xor_comm a b]
  · exact distance_eq_zero_iff HAMMING MAX_LOOKUP_SIZE hM htab a b
      (Nat.lt_of_lt_of_le ha hpow) (Nat.lt_of_lt_of_le hb hpow)

/-- C12 witness: three issues, the ids 5 and 6 differ in two of them. -/
theorem C12_distance_metric_properties_witness :
    distance HAMMING_table 2 5 6 = 2 ∧
      (0 ≤ distance HAMMING_table 2 5 6 ∧
      distance HAMMING_table 2 5 6 ≤ 3 ∧
      distance HAMMING_table 2 5 6 = distance HAMMING_table 2 6 5 ∧
      (distance HAMMING_table 2 5 6 = 0 ↔ 5 = 6)) :=
  ⟨by decide,
    C12_distance_metric_properties HAMMING_table 2 (Or.inr rfl) HAMMING_table_popcount 3 5 6
      (by decide) (by decide) (by decide)⟩

/-- C13: assuming `HAMMING[i]` is the number of 1 bits of `i` for every `i` in
0..65535 and `MAX_LOOKUP_SIZE` is 2, `hamming_weight(num)` returns the
population count of `num` for every 32-bit `num`: the sum of the table lookups
over the two 16-bit slices equals the bit count of the whole word. -/
theorem C13_hamming_weight_is_popcount (HAMMING : Nat → Nat)
    (htab : ∀ i, i < 65536 → HAMMING i = popcount i) (num : Nat) (hnum : num < 2 ^ 32) :
    hamming_weight HAMMING 2 num = .ok (popcount num) ∧
      popcount num = HAMMING (num % 65536) + HAMMING (num / 65536) := by
  constructor
  · have h := hamming_weight_eq_popcount HAMMING 2 (Or.inr rfl) htab num
    rw [show num % UINT_MOD = num from Nat.mod_eq_of_lt hnum] at h
    exact h
  · have h1 : num % 65536 < 65536 := Nat.mod_lt _ (by decide)
    have h2 : num / 65536 < 65536 := by omega
    rw [htab _ h1, htab _ h2]
    exact popcount_split 16 num

/-- C13 witness: the word `0xF0F0F0F1` has 17 bits set, 9 in its low and 8 in
its high 16-bit slice. -/
theorem C13_hamming_weight_is_popcount_witness :
    hamming_weight HAMMING_table 2 4042322161 = .ok 17 ∧
      (hamming_weight HAMMING_table 2 4042322161 = .ok (popcount 4042322161) ∧
      popcount 4042322161
        = HAMMING_table (4042322161 % 65536) + HAMMING_table (4042322161 / 65536)) :=
  ⟨by decide,
    C13_hamming_weight_is_popcount HAMMING_table HAMMING_table_popcount 4042322161
      (by decide)⟩

/-- C14: for every candidate `c`, comparison list and `num_issues`,
`compute_candidate_statistics` puts the votes of a member `h` into `contra`
exactly when `2 * d > num_issues`, into `pro` exactly when `2 * d < num_issues`
and into `medius` exactly when `2 * d = num_issues`, where
`d = distance(c.id, h.id)` (the three counters are these sums as `unsigned`
values); consequently `medius` is 0 whenever `num_issues` is odd. -/
theorem C14_half_comparison_classification (HAMMING : Nat → Nat) (MAX_LOOKUP_SIZE : Nat)
    (hM : MAX_LOOKUP_SIZE = 1 ∨ MAX_LOOKUP_SIZE = 2) (num_issues : Nat)
    (c : Candidate) (cs : List Candidate) :
    ∃ r, compute_candidate_statistics HAMMING MAX_LOOKUP_SIZE num_issues c cs = .ok r ∧
      r.contra = (cs.map fun h =>
        if 2 * distance HAMMING MAX_LOOKUP_SIZE c.id h.id > num_issues then h.votes
        else 0).sum % UINT_MOD ∧
      r.pro = (cs.map fun h =>
        if 2 * distance HAMMING MAX_LOOKUP_SIZE c.id h.id < num_issues then h.votes
        else 0).sum % UINT_MOD ∧
      r.medius = (cs.map fun h =>
        if 2 * distance HAMMING MAX_LOOKUP_SIZE c.id h.id = num_issues then h.votes
        else 0).sum % UINT_MOD ∧
      (num_issues % 2 = 1 → r.medius = 0) := by
  obtain ⟨r, hr⟩ := compute_candidate_statistics_ok HAMMING MAX_LOOKUP_SIZE hM num_issues c cs
  obtain ⟨-, -, h3, h4, h5, -⟩ := compute_candidate_statistics_spec _ _ _ _ _ _ hr
  refine ⟨r, hr, h3, h4, h5, ?_⟩
  intro hodd
  rw [h5]
  have hzero : (cs.map fun h =>
      if 2 * distance HAMMING MAX_LOOKUP_SIZE c.id h.id = num_issues then h.votes
      else 0) = cs.map fun _ => 0 := by
    apply List.map_congr_left
    intro h _
    rw [if_neg (by omega)]
  rw [hzero]
  simp

/-- C14 witness: candidate 0 of the worked scenario, scored for three issues:
the members at distance 0 and 1 count as pro, the one at distance 2 as contra,
and nobody can be at exactly half of 3 issues. -/
theorem C14_half_comparison_classification_witness :
    compute_candidate_statistics HAMMING_table 2 3 ⟨0, 0, 0, 0, 3, 0, 0⟩ scenario3
        = .ok ⟨5, 0, 5, 12, 3, 3, 0⟩ ∧
      ∃ r, compute_candidate_statistics HAMMING_table 2 3 ⟨0, 0, 0, 0, 3, 0, 0⟩ scenario3
          = .ok r ∧
        r.contra = (scenario3.map fun h =>
          if 2 * distance HAMMING_table 2 0 h.id > 3 then h.votes else 0).sum % UINT_MOD ∧
        r.pro = (scenario3.map fun h =>
          if 2 * distance HAMMING_table 2 0 h.id < 3 then h.votes else 0).sum % UINT_MOD ∧
        r.medius = (scenario3.map fun h =>
          if 2 * distance HAMMING_table 2 0 h.id = 3 then h.votes else 0).sum % UINT_MOD ∧
        (3 % 2 = 1 → r.medius = 0) :=
  ⟨by decide,
    C14_half_comparison_classification HAMMING_table 2 (Or.inr rfl) 3
      ⟨0, 0, 0, 0, 3, 0, 0⟩ scenario3⟩

/-- C15: for every candidate `c` and every non-empty comparison list (ids that
fit in an `unsigned`, a table `HAMMING` of bit counts), after
`compute_candidate_statistics` the antagonist field `hitler` is the id of a
member `x` of the comparison list whose distance from `c.id` is maximal over
the list, and among the members at that maximal distance `x` is the one with
the smallest index: every member before `x` is strictly nearer to `c`. -/
theorem C15_antagonist_first_maximal (HAMMING : Nat → Nat) (MAX_LOOKUP_SIZE : Nat)
    (hM : MAX_LOOKUP_SIZE = 1 ∨ MAX_LOOKUP_SIZE = 2)
    (htab : ∀ i, i < 65536 → HAMMING i = popcount i) (num_issues : Nat)
    (c : Candidate) (cs : List Candidate) (hne : cs ≠ [])
    (hc : c.id < 2 ^ 32) (hcs : ∀ h ∈ cs, h.id < 2 ^ 32) :
    ∃ r, compute_candidate_statistics HAMMING MAX_LOOKUP_SIZE num_issues c cs = .ok r ∧
      ∃ l1 x l2, cs = l1 ++ x :: l2 ∧ r.hitler = x.id ∧
        (∀ y ∈ cs, distance HAMMING MAX_LOOKUP_SIZE c.id y.id
          ≤ distance HAMMING MAX_LOOKUP_SIZE c.id x.id) ∧
        (∀ y ∈ l1, distance HAMMING MAX_LOOKUP_SIZE c.id y.id
          < distance HAMMING MAX_LOOKUP_SIZE c.id x.id) := by
  obtain ⟨r, hr⟩ := compute_candidate_statistics_ok HAMMING MAX_LOOKUP_SIZE hM num_issues c cs
  obtain ⟨m, hinv⟩ := compute_candidate_statistics_hitler _ _ _ _ _ _ hr
  refine ⟨r, hr, ?_⟩
  rcases hinv with ⟨-, h2, h3⟩ | ⟨-, l1, x, l2, hcs', hh, hx, hl1, hl2⟩
  · cases cs with
    | nil => exact absurd rfl hne
    | cons x l2 =>
      have hx0 := h3 x (List.mem_cons_self _ _)
      dsimp only at hx0
      have hxid := (distance_eq_zero_iff HAMMING MAX_LOOKUP_SIZE hM htab c.id x.id hc
        (hcs x (List.mem_cons_self _ _))).mp hx0
      refine ⟨[], x, l2, rfl, by rw [h2, hxid], ?_, by simp⟩
      intro y hy
      have := h3 y hy
      dsimp only at this
      omega
  · dsimp only at hx hl1 hl2
    refine ⟨l1, x, l2, hcs', hh, ?_, ?_⟩
    · intro y hy
      rw [hcs'] at hy
      rcases List.mem_append.mp hy with hy1 | hy1
      · have := hl1 y hy1; omega
      · rcases List.mem_cons.mp hy1 with rfl | hy2
        · exact Nat.le_refl _
        · have := hl2 y hy2; omega
    · intro y hy
      have := hl1 y hy; omega

/-- C15 witness: candidate with id 1 against the worked scenario: the members
with ids 0 and 3 are both at the maximal distance 1, and the antagonist is the
first of them, id 0. -/
theorem C15_antagonist_first_maximal_witness :
    compute_candidate_statistics HAMMING_table 2 2 ⟨0, 0, 0, 0, 2, 0, 1⟩ scenario3
        = .ok ⟨0, 8, 2, 8, 2, 0, 1⟩ ∧
      ∃ r, compute_candidate_statistics HAMMING_table 2 2 ⟨0, 0, 0, 0, 2, 0, 1⟩ scenario3
          = .ok r ∧
        ∃ l1 x l2, scenario3 = l1 ++ x :: l2 ∧ r.hitler = x.id ∧
          (∀ y ∈ scenario3, distance HAMMING_table 2 1 y.id
            ≤ distance HAMMING_table 2 1 x.id) ∧
          (∀ y ∈ l1, distance HAMMING_table 2 1 y.id < distance HAMMING_table 2 1 x.id) :=
  ⟨by decide,
    C15_antagonist_first_maximal HAMMING_table 2 (Or.inr rfl) HAMMING_table_popcount 2
      ⟨0, 0, 0, 0, 2, 0, 1⟩ scenario3 (by decide) (by decide) (by decide)⟩

/-- C17: for every `pool_size ≥ 1` and every stream of draws on which
`perform_election` returns, the returned `num_candidates` is at most
`pool_size`, every emitted candidate has `votes ≥ 1`, `num_candidates ≥ 1`
whenever `voters_left ≥ 1`, and `num_candidates = 0` when `voters_left = 0`
(in which case the call returns on every stream). -/
theorem C17_perform_election_candidate_count (RAND_MAX voters_left pool_size : Nat)
    (candidates : List Candidate) (draws : List Nat) (st : ElectionState)
    (hpool : 1 ≤ pool_size)
    (hret : perform_election RAND_MAX voters_left pool_size candidates draws = .ok st) :
    st.num_candidates ≤ pool_size ∧
      st.active.length = st.num_candidates ∧
      (∀ c ∈ st.active, 1 ≤ c.votes) ∧
      (1 ≤ voters_left → 1 ≤ st.num_candidates) ∧
      (voters_left = 0 → st.num_candidates = 0) ∧
      ∃ st0, perform_election RAND_MAX 0 pool_size candidates draws = .ok st0 ∧
        st0.num_candidates = 0 := by
  obtain ⟨h1, h2, h3⟩ :=
    perform_election_count RAND_MAX voters_left pool_size candidates draws st hpool hret
  have hsum := perform_election_votes RAND_MAX voters_left pool_size candidates draws st hret
  refine ⟨h1, h2, h3, ?_, ?_, ?_⟩
  · intro hv
    rw [← h2]
    cases hact : st.active with
    | nil => rw [hact] at hsum; simp at hsum; omega
    | cons x xs => simp
  · intro hv
    subst hv
    rw [perform_election_no_voters] at hret
    injection hret with hret
    subst hret
    rfl
  · exact ⟨_, perform_election_no_voters RAND_MAX pool_size candidates draws, rfl⟩

/-- C17 witness: the run of 10 voters over a pool of 4 emits 2 candidates with
6 and 4 votes. -/
theorem C17_perform_election_candidate_count_witness :
    perform_election 32767 10 4 pool4 draws9 = .ok run4 ∧
      run4.num_candidates = 2 ∧
      (run4.num_candidates ≤ 4 ∧
      run4.active.length = run4.num_candidates ∧
      (∀ c ∈ run4.active, 1 ≤ c.votes) ∧
      (1 ≤ 10 → 1 ≤ run4.num_candidates) ∧
      (10 = 0 → run4.num_candidates = 0) ∧
      ∃ st0, perform_election 32767 0 4 pool4 draws9 = .ok st0 ∧
        st0.num_candidates = 0) :=
  ⟨by decide, by decide,
    C17_perform_election_candidate_count 32767 10 4 pool4 draws9 run4 (by decide)
      (by decide)⟩

/-- C19 (as amended): the comparator `sort_candidates` orders candidates by
votes descending and by nothing else: it returns -1 exactly when `a` has more
votes than `b`, 1 exactly when `a` has fewer, and 0 whenever the votes are
equal, whatever the two ids are. -/
theorem C19_sort_candidates_by_votes_only (a b : Candidate) :
    (sort_candidates a b = -1 ↔ a.votes > b.votes) ∧
      (sort_candidates a b = 1 ↔ a.votes < b.votes) ∧
      (sort_candidates a b = 0 ↔ a.votes = b.votes) := by
  unfold sort_candidates
  refine ⟨?_, ?_, ?_⟩ <;> split_ifs <;> constructor <;> intro h <;>
    first | omega | (simp at h)

/-- C19 counterexample: two candidates with 5 votes each and ids 0 and 1: the
comparator returns 0 ("a and b match in ranking") and not -1, so it does not
order the candidate with the smaller id strictly before the other. -/
theorem C19_sort_candidates_no_tie_break_counterexample :
    (⟨0, 0, 0, 0, 5, 0, 0⟩ : Candidate).votes = (⟨0, 0, 0, 0, 5, 0, 1⟩ : Candidate).votes ∧
      (⟨0, 0, 0, 0, 5, 0, 0⟩ : Candidate).id < (⟨0, 0, 0, 0, 5, 0, 1⟩ : Candidate).id ∧
      sort_candidates ⟨0, 0, 0, 0, 5, 0, 0⟩ ⟨0, 0, 0, 0, 5, 0, 1⟩ = 0 ∧
      sort_candidates ⟨0, 0, 0, 0, 5, 0, 0⟩ ⟨0, 0, 0, 0, 5, 0, 1⟩ ≠ -1 := by
  decide

/-- C16: started on zeroed tallies with an active list whose votes sum to less
than `2^32` (in `main` they sum to `population_size`), and with at most 64
issues, `compute_election_statistics` returns and leaves `stance_poll[w]`, for
every `w < num_issues`, equal to the sum of the votes of the active candidates
whose id has bit `w` set, and `hitler_table[x]`, for every id `x`, equal to the
sum of the votes of the active candidates whose antagonist is `x`.  The
candidates it leaves in the array are the given ones, each with the statistics
`compute_candidate_statistics` computes for it against the given list. -/
theorem C16_election_statistics_tallies (HAMMING : Nat → Nat) (MAX_LOOKUP_SIZE : Nat)
    (hM : MAX_LOOKUP_SIZE = 1 ∨ MAX_LOOKUP_SIZE = 2) (num_issues : Nat)
    (hni : num_issues ≤ 64) (cs : List Candidate)
    (hvotes : (cs.map Candidate.votes).sum < UINT_MOD) :
    ∃ s, compute_election_statistics HAMMING MAX_LOOKUP_SIZE num_issues (fun _ => 0)
        (fun _ => 0) cs = .ok s ∧
      s.candidates.length = cs.length ∧
      (∀ (i : Nat) (c : Candidate), s.candidates[i]? = some c → ∃ c0, cs[i]? = some c0 ∧
        compute_candidate_statistics HAMMING MAX_LOOKUP_SIZE num_issues c0 cs = .ok c ∧
        c.id = c0.id ∧ c.votes = c0.votes) ∧
      (∀ w, w < num_issues → s.stance_poll w =
        ((cs.filter fun c => c.id.testBit w).map Candidate.votes).sum) ∧
      (∀ x, s.hitler_table x =
        ((s.candidates.filter fun c => decide (c.hitler = x)).map Candidate.votes).sum) := by
  obtain ⟨s, hs, hcand, hsp, hht⟩ := compute_election_statistics_spec HAMMING
    MAX_LOOKUP_SIZE hM num_issues hni (fun _ => 0) (fun _ => 0)
    (fun _ => show 0 < UINT_MOD by decide) (fun _ => show 0 < UINT_MOD by decide) cs
  have hsv : (s.candidates.map Candidate.votes).sum < UINT_MOD := by
    rw [hcand, map_score_votes]
    exact hvotes
  refine ⟨s, hs, by rw [hcand, List.length_map], ?_, ?_, ?_⟩
  · intro i c hic
    rw [hcand, List.getElem?_map] at hic
    cases hci : cs[i]? with
    | none => rw [hci] at hic; simp at hic
    | some c0 =>
      rw [hci] at hic
      simp only [Option.map_some', Option.some.injEq] at hic
      refine ⟨c0, rfl, ?_, ?_⟩
      · rw [← hic]
        exact compute_candidate_statistics_eq_score HAMMING MAX_LOOKUP_SIZE hM num_issues c0 cs
      · rw [← hic]
        exact score_id_votes HAMMING MAX_LOOKUP_SIZE num_issues cs c0
  · intro w hw
    rw [hsp w hw, Nat.zero_add]
    exact Nat.mod_eq_of_lt
      (Nat.lt_of_le_of_lt (sum_filter_le _ Candidate.votes cs) hvotes)
  · intro x
    rw [hht x, Nat.zero_add]
    exact Nat.mod_eq_of_lt
      (Nat.lt_of_le_of_lt (sum_filter_le _ Candidate.votes s.candidates) hsv)

/-- C16 witness: the worked scenario for two issues (ids 0, 1, 3 with 3, 2, 5
votes): issue 0 is supported by 7 voters and issue 1 by 5; the antagonist of
ids 0 and 1 is id 3 or id 0, so id 0 collects 7 entries and id 3 collects 3. -/
theorem C16_election_statistics_tallies_witness :
    (compute_election_statistics HAMMING_table 2 2 (fun _ => 0) (fun _ => 0) scenario3).map
        (fun s => (s.candidates, s.stance_poll 0, s.stance_poll 1,
          s.hitler_table 0, s.hitler_table 1, s.hitler_table 2, s.hitler_table 3))
      = .ok ([⟨5, 2, 3, 12, 3, 3, 0⟩, ⟨0, 8, 2, 8, 2, 0, 1⟩, ⟨3, 2, 5, 8, 5, 0, 3⟩],
          7, 5, 7, 0, 0, 3) ∧
    ∃ s, compute_election_statistics HAMMING_table 2 2 (fun _ => 0) (fun _ => 0) scenario3
        = .ok s ∧
      s.candidates.length = scenario3.length ∧
      (∀ (i : Nat) (c : Candidate), s.candidates[i]? = some c → ∃ c0, scenario3[i]? = some c0 ∧
        compute_candidate_statistics HAMMING_table 2 2 c0 scenario3 = .ok c ∧
        c.id = c0.id ∧ c.votes = c0.votes) ∧
      (∀ w, w < 2 → s.stance_poll w =
        ((scenario3.filter fun c => c.id.testBit w).map Candidate.votes).sum) ∧
      (∀ x, s.hitler_table x =
        ((s.candidates.filter fun c => decide (c.hitler = x)).map Candidate.votes).sum) :=
  ⟨rfl,
    C16_election_statistics_tallies HAMMING_table 2 (Or.inr rfl) 2 (by decide) scenario3
      (by decide)⟩

/-- C18: where the two poles of the two-party reduction come from.  After
`perform_election` has returned, the active list has been scored and sorted by
votes, `status_quo[0]` and `status_quo[1]` are copied from `candidates[0]` and
`candidates[1]`.  With at least two active candidates they are the first two
entries of the sorted active list: both carry ids of active candidates, the
first has the highest votes of all and the second the highest votes among the
others.  With a single active candidate `status_quo[0]` is that candidate and
`status_quo[1]` is read from array index 1, which is index `num_candidates`,
the first slot behind the active list (a fault in the embedding when the array
has no such slot): the claim fails there. -/
theorem C18_poles_are_top_two (RAND_MAX population_size pool_size : Nat)
    (candidates : List Candidate) (draws : List Nat) (st : ElectionState)
    (HAMMING : Nat → Nat) (MAX_LOOKUP_SIZE : Nat)
    (hM : MAX_LOOKUP_SIZE = 1 ∨ MAX_LOOKUP_SIZE = 2) (num_issues : Nat)
    (hni : num_issues ≤ 64) (stance_poll hitler_table : Nat → Nat)
    (hsp : ∀ w, stance_poll w < UINT_MOD) (hht : ∀ x, hitler_table x < UINT_MOD)
    (hpool : 1 ≤ pool_size)
    (hret : perform_election RAND_MAX population_size pool_size candidates draws = .ok st) :
    ∃ s, compute_election_statistics HAMMING MAX_LOOKUP_SIZE num_issues stance_poll
        hitler_table st.active = .ok s ∧
      ∀ sorted, qsort_result s.candidates sorted →
        (2 ≤ st.num_candidates →
          ∃ p0 p1 rest, sorted = p0 :: p1 :: rest ∧
            status_quo_init (sorted ++ st.candidates.drop st.num_candidates) = .ok (p0, p1) ∧
            p0.id ∈ st.active.map Candidate.id ∧ p1.id ∈ st.active.map Candidate.id ∧
            (∀ c ∈ sorted, c.votes ≤ p0.votes) ∧ (∀ c ∈ p1 :: rest, c.votes ≤ p1.votes)) ∧
        (st.num_candidates = 1 →
          ∃ p0, sorted = [p0] ∧ p0.id ∈ st.active.map Candidate.id ∧
            status_quo_init (sorted ++ st.candidates.drop st.num_candidates)
              = (read_at st.candidates st.num_candidates).map fun p1 => (p0, p1)) := by
  obtain ⟨-, hlen, -⟩ := perform_election_count RAND_MAX population_size pool_size
    candidates draws st hpool hret
  obtain ⟨s, hs, hcand, -, -⟩ := compute_election_statistics_spec HAMMING MAX_LOOKUP_SIZE hM
    num_issues hni stance_poll hitler_table hsp hht st.active
  refine ⟨s, hs, ?_⟩
  intro sorted hq
  rw [hcand] at hq
  obtain ⟨hslen, hmem⟩ := qsort_result_scored HAMMING MAX_LOOKUP_SIZE num_issues st.active
    sorted hq
  have hid : ∀ p ∈ sorted, p.id ∈ st.active.map Candidate.id := by
    intro p hp
    obtain ⟨c, hc, -, hpid, -⟩ := hmem p hp
    rw [hpid]
    exact List.mem_map_of_mem _ hc
  constructor
  · intro hn
    obtain ⟨p0, p1, rest, hsorted, hinit, h0, h1⟩ := status_quo_init_spec sorted
      (st.candidates.drop st.num_candidates) (by omega) (qsort_result_sorted hq)
    refine ⟨p0, p1, rest, hsorted, hinit, hid p0 ?_, hid p1 ?_, h0, h1⟩
    · rw [hsorted]; simp
    · rw [hsorted]; simp
  · intro hn
    obtain ⟨p0, rfl⟩ := List.length_eq_one.mp (show sorted.length = 1 by omega)
    refine ⟨p0, rfl, hid p0 (List.mem_singleton_self p0), ?_⟩
    rw [hn]
    unfold status_quo_init read_at
    simp only [List.singleton_append, List.getElem?_cons_zero, List.getElem?_cons_succ,
      List.getElem?_drop, Nat.add_zero]
    cases st.candidates[1]? <;> rfl

/-- C18 witness: the run of `perform_election(10, 4, ..)` on the identity pool
for two issues, which leaves two active candidates, and the run of
`perform_election(1, 2, ..)` on the identity pool for one issue, which leaves
one. -/
theorem C18_poles_are_top_two_witness :
    perform_election 32767 10 4 pool4 draws9 = .ok run4 ∧ 2 ≤ run4.num_candidates ∧
    (∃ s, compute_election_statistics HAMMING_table 2 2 (fun _ => 0) (fun _ => 0)
        run4.active = .ok s ∧
      ∀ sorted, qsort_result s.candidates sorted →
        ∃ p0 p1 rest, sorted = p0 :: p1 :: rest ∧
          status_quo_init (sorted ++ run4.candidates.drop run4.num_candidates)
            = .ok (p0, p1) ∧
          p0.id ∈ run4.active.map Candidate.id ∧ p1.id ∈ run4.active.map Candidate.id ∧
          (∀ c ∈ sorted, c.votes ≤ p0.votes) ∧ (∀ c ∈ p1 :: rest, c.votes ≤ p1.votes)) ∧
    perform_election 32767 1 2 pool2 [20000, 20000] = .ok run1 ∧ run1.num_candidates = 1 ∧
    read_at run1.candidates run1.num_candidates = .ok ⟨0, 0, 0, 0, 0, 0, 0⟩ ∧
    (∃ s, compute_election_statistics HAMMING_table 2 1 (fun _ => 0) (fun _ => 0)
        run1.active = .ok s ∧
      ∀ sorted, qsort_result s.candidates sorted →
        ∃ p0, sorted = [p0] ∧ p0.id ∈ run1.active.map Candidate.id ∧
          status_quo_init (sorted ++ run1.candidates.drop run1.num_candidates)
            = (read_at run1.candidates run1.num_candidates).map fun p1 => (p0, p1)) :=
  ⟨by decide, by decide,
    (C18_poles_are_top_two 32767 10 4 pool4 draws9 run4 HAMMING_table 2 (Or.inr rfl) 2
      (by decide) (fun _ => 0) (fun _ => 0) (fun _ => show 0 < UINT_MOD by decide)
      (fun _ => show 0 < UINT_MOD by decide) (by decide) (by decide)).imp
      fun _ h => ⟨h.1, fun sorted hq => (h.2 sorted hq).1 (by decide)⟩,
    by decide, rfl, by decide,
    (C18_poles_are_top_two 32767 1 2 pool2 [20000, 20000] run1 HAMMING_table 2 (Or.inr rfl) 1
      (by decide) (fun _ => 0) (fun _ => 0) (fun _ => show 0 < UINT_MOD by decide)
      (fun _ => show 0 < UINT_MOD by decide) (by decide) (by decide)).imp
      fun _ h => ⟨h.1, fun sorted hq => (h.2 sorted hq).2 rfl⟩⟩

/-- C18 counterexample: with one voter and one issue, `perform_election` can
leave a single active candidate, the one with id 1, while slot 1 of the array
holds the swapped-out id 0 with no votes.  The sorted active list is that
single candidate, so `status_quo[1]`, copied from `candidates[1]`, is the slot
behind the active list: its id 0 is not the id of any active candidate. -/
theorem C18_single_candidate_second_pole_counterexample :
    perform_election 32767 1 2 pool2 [20000, 20000] = .ok run1 ∧
    run1.num_candidates = 1 ∧
    (compute_election_statistics HAMMING_table 2 1 (fun _ => 0) (fun _ => 0)
        run1.active).map (fun s => s.candidates) = .ok scored1 ∧
    qsort_result scored1 scored1 ∧
    (∀ sorted, qsort_result scored1 sorted → sorted = scored1) ∧
    status_quo_init (scored1 ++ run1.candidates.drop run1.num_candidates)
      = .ok (⟨0, 0, 1, 0, 1, 1, 1⟩, ⟨0, 0, 0, 0, 0, 0, 0⟩) ∧
    (0 : Nat) ∉ run1.active.map Candidate.id :=
  ⟨by decide, rfl, rfl, ⟨List.Perm.refl _, List.pairwise_singleton _ _⟩,
    fun _ h => List.perm_singleton.mp h.1, by decide, by decide⟩

/-- C20: for every `population_size >= 1` (and every non-empty pool, so every
`num_issues`), in an iteration in which `perform_election` returns, the
statistics are computed and, however `qsort` orders ties, each of the three
winner lists (plurality, approval, antagonist method) is non-empty and every
entry is an index below `num_candidates`, so it refers to an active
candidate. -/
theorem C20_winner_lists_nonempty_in_range (RAND_MAX population_size pool_size : Nat)
    (candidates : List Candidate) (draws : List Nat) (st : ElectionState)
    (HAMMING : Nat → Nat) (MAX_LOOKUP_SIZE : Nat)
    (hM : MAX_LOOKUP_SIZE = 1 ∨ MAX_LOOKUP_SIZE = 2) (num_issues : Nat)
    (hni : num_issues ≤ 64) (stance_poll hitler_table : Nat → Nat)
    (hsp : ∀ w, stance_poll w < UINT_MOD) (hht : ∀ x, hitler_table x < UINT_MOD)
    (hpool : 1 ≤ pool_size) (hpop : 1 ≤ population_size)
    (hret : perform_election RAND_MAX population_size pool_size candidates draws = .ok st) :
    1 ≤ st.num_candidates ∧
    ∃ s, compute_election_statistics HAMMING MAX_LOOKUP_SIZE num_issues stance_poll
        hitler_table st.active = .ok s ∧
      ∀ sorted w0, qsort_result s.candidates sorted →
        (find_winners sorted s.hitler_table w0).traditional ≠ [] ∧
        (find_winners sorted s.hitler_table w0).approval ≠ [] ∧
        (find_winners sorted s.hitler_table w0).hitler ≠ [] ∧
        (∀ i ∈ (find_winners sorted s.hitler_table w0).traditional, i < st.num_candidates) ∧
        (∀ i ∈ (find_winners sorted s.hitler_table w0).approval, i < st.num_candidates) ∧
        (∀ i ∈ (find_winners sorted s.hitler_table w0).hitler, i < st.num_candidates) := by
  obtain ⟨-, hlen, -⟩ := perform_election_count RAND_MAX population_size pool_size
    candidates draws st hpool hret
  have hvotes := perform_election_votes RAND_MAX population_size pool_size candidates draws
    st hret
  have hn : 1 ≤ st.num_candidates := by
    rw [← hlen]
    cases hact : st.active with
    | nil => rw [hact] at hvotes; simp at hvotes; omega
    | cons c rest => simp
  refine ⟨hn, ?_⟩
  obtain ⟨s, hs, hcand, -, -⟩ := compute_election_statistics_spec HAMMING MAX_LOOKUP_SIZE hM
    num_issues hni stance_poll hitler_table hsp hht st.active
  refine ⟨s, hs, ?_⟩
  intro sorted w0 hq
  rw [hcand] at hq
  obtain ⟨hslen, -⟩ := qsort_result_scored HAMMING MAX_LOOKUP_SIZE num_issues st.active
    sorted hq
  have hne : sorted ≠ [] := by
    intro h
    rw [h, List.length_nil] at hslen
    omega
  have h := find_winners_in_range sorted s.hitler_table w0 hne
  rw [hslen, hlen] at h
  exact h

/-- C20 witness: the run of `perform_election(10, 4, ..)` on the identity pool
for two issues. -/
theorem C20_winner_lists_nonempty_in_range_witness :
    perform_election 32767 10 4 pool4 draws9 = .ok run4 ∧
    1 ≤ run4.num_candidates ∧
    ∃ s, compute_election_statistics HAMMING_table 2 2 (fun _ => 0) (fun _ => 0)
        run4.active = .ok s ∧
      ∀ sorted w0, qsort_result s.candidates sorted →
        (find_winners sorted s.hitler_table w0).traditional ≠ [] ∧
        (find_winners sorted s.hitler_table w0).approval ≠ [] ∧
        (find_winners sorted s.hitler_table w0).hitler ≠ [] ∧
        (∀ i ∈ (find_winners sorted s.hitler_table w0).traditional,
          i < run4.num_candidates) ∧
        (∀ i ∈ (find_winners sorted s.hitler_table w0).approval, i < run4.num_candidates) ∧
        (∀ i ∈ (find_winners sorted s.hitler_table w0).hitler, i < run4.num_candidates) :=
  ⟨by decide,
    C20_winner_lists_nonempty_in_range 32767 10 4 pool4 draws9 run4 HAMMING_table 2
      (Or.inr rfl) 2 (by decide) (fun _ => 0) (fun _ => 0)
      (fun _ => show 0 < UINT_MOD by decide) (fun _ => show 0 < UINT_MOD by decide)
      (by decide) (by decide) (by decide)⟩

/-- C21 (as amended): for `ceiling = 0` the call `rand_ceiling(ceiling)` ends
in a division by zero before anything is drawn, whatever the stream; for every
`ceiling > RAND_MAX + 1` it neither fails at once nor returns a value:
`reject` is 0, every raw value is rejected, and the loop keeps drawing, so it
uses up every finite stream. -/
theorem C21_rand_ceiling_precondition_violation (RAND_MAX ceiling : Nat)
    (hc : RAND_MAX + 1 < ceiling) :
    (∀ draws, rand_ceiling RAND_MAX 0 draws = .error .div_by_zero) ∧
      (∀ draws, rand_ceiling RAND_MAX ceiling draws = .error .out_of_draws) ∧
      (∀ draws v rest, rand_ceiling RAND_MAX ceiling draws ≠ .ok (v, rest)) := by
  refine ⟨rand_ceiling_zero RAND_MAX, rand_ceiling_above_range RAND_MAX ceiling hc, ?_⟩
  intro draws v rest h
  rw [rand_ceiling_above_range RAND_MAX ceiling hc draws] at h
  exact Except.noConfusion h

/-- C21 witness: `RAND_MAX = 9` and ceiling 11. -/
theorem C21_rand_ceiling_precondition_violation_witness :
    9 + 1 < 11 ∧
      ((∀ draws, rand_ceiling 9 0 draws = .error .div_by_zero) ∧
      (∀ draws, rand_ceiling 9 11 draws = .error .out_of_draws) ∧
      (∀ draws v rest, rand_ceiling 9 11 draws ≠ .ok (v, rest))) :=
  ⟨by decide, C21_rand_ceiling_precondition_violation 9 11 (by decide)⟩

/-- C21 counterexample: with `RAND_MAX = 9` the call `rand_ceiling(11)` does
not fail at once: on the stream 0, 5, 9 it draws and rejects all three values
(even 0 is not below `reject = 0`) and ends only because the stream is used
up; the same happens on a stream of six values. -/
theorem C21_rand_ceiling_above_range_keeps_drawing_counterexample :
    rand_ceiling 9 11 [0, 5, 9] = .error .out_of_draws ∧
      rand_ceiling 9 11 [0, 5, 9] ≠ .error .div_by_zero ∧
      rand_ceiling 9 11 [0, 5, 9, 0, 0, 0] = .error .out_of_draws := by
  decide

/-- C22: the worked scenario.  With `num_issues = 2`, a table `HAMMING` of bit
counts and the active list (id 0, 3 votes), (id 1, 2 votes), (id 3, 5 votes):
`distance(0,1) = 1`, `distance(0,3) = 2`, `distance(1,3) = 1`, and
`compute_candidate_statistics` for the candidate with id 0 gives `pro = 3`,
`medius = 2` (distance 1 is exactly half of 2 issues), `contra = 5`,
`sum_disapproval = 12` and antagonist 3. -/
theorem C22_worked_scenario (HAMMING : Nat → Nat) (MAX_LOOKUP_SIZE : Nat)
    (hM : MAX_LOOKUP_SIZE = 1 ∨ MAX_LOOKUP_SIZE = 2)
    (htab : ∀ i, i < 65536 → HAMMING i = popcount i) :
    distance HAMMING MAX_LOOKUP_SIZE 0 1 = 1 ∧
      distance HAMMING MAX_LOOKUP_SIZE 0 3 = 2 ∧
      distance HAMMING MAX_LOOKUP_SIZE 1 3 = 1 ∧
      ∃ r, compute_candidate_statistics HAMMING MAX_LOOKUP_SIZE 2 ⟨0, 0, 0, 0, 3, 0, 0⟩
          [⟨0, 0, 0, 0, 3, 0, 0⟩, ⟨0, 0, 0, 0, 2, 0, 1⟩, ⟨0, 0, 0, 0, 5, 0, 3⟩] = .ok r ∧
        r.pro = 3 ∧ r.medius = 2 ∧ r.contra = 5 ∧ r.sum_disapproval = 12 ∧ r.hitler = 3 := by
  have hw : ∀ n, n < 4 → hamming_weight HAMMING MAX_LOOKUP_SIZE n = .ok (bit_sum 2 n) := by
    intro n hn
    rw [hamming_weight_eq_popcount HAMMING MAX_LOOKUP_SIZE hM htab n,
      Nat.mod_eq_of_lt (show n < UINT_MOD by unfold UINT_MOD; omega),
      popcount_eq_bit_sum 2 n (by omega)]
  have h0 : hamming_weight HAMMING MAX_LOOKUP_SIZE 0 = .ok 0 := hw 0 (by decide)
  have h1 : hamming_weight HAMMING MAX_LOOKUP_SIZE 1 = .ok 1 := hw 1 (by decide)
  have h2 : hamming_weight HAMMING MAX_LOOKUP_SIZE 2 = .ok 1 := hw 2 (by decide)
  have h3 : hamming_weight HAMMING MAX_LOOKUP_SIZE 3 = .ok 2 := hw 3 (by decide)
  refine ⟨distance_of_ok h1, distance_of_ok h3, distance_of_ok h2, ?_⟩
  refine ⟨⟨5, 2, 3, 12, 3, 3, 0⟩, ?_, rfl, rfl, rfl, rfl, rfl⟩
  have b0 : compute_candidate_statistics_body 2 0 ⟨0, 0, 0, 0, 3, 0, 0⟩
      ⟨0, 0, 0, 0, 3, 0, 0⟩ 0 = (⟨0, 0, 3, 0, 3, 0, 0⟩, 0) := by decide
  have b1 : compute_candidate_statistics_body 2 1 ⟨0, 0, 0, 0, 2, 0, 1⟩
      ⟨0, 0, 3, 0, 3, 0, 0⟩ 0 = (⟨0, 2, 3, 2, 3, 1, 0⟩, 1) := by decide
  have b2 : compute_candidate_statistics_body 2 2 ⟨0, 0, 0, 0, 5, 0, 3⟩
      ⟨0, 2, 3, 2, 3, 1, 0⟩ 1 = (⟨5, 2, 3, 12, 3, 3, 0⟩, 2) := by decide
  unfold compute_candidate_statistics
  rw [compute_candidate_statistics_loop_cons 2 _ _ _ 0 0 h0, b0,
    compute_candidate_statistics_loop_cons 2 _ _ _ 0 1 h1, b1,
    compute_candidate_statistics_loop_cons 2 _ _ _ 1 2 h3, b2]
  rfl

/-- C22 witness: the scenario with the table `HAMMING_table` and
`MAX_LOOKUP_SIZE = 2`. -/
theorem C22_worked_scenario_witness :
    compute_candidate_statistics HAMMING_table 2 2 ⟨0, 0, 0, 0, 3, 0, 0⟩ scenario3
        = .ok ⟨5, 2, 3, 12, 3, 3, 0⟩ ∧
      (distance HAMMING_table 2 0 1 = 1 ∧
      distance HAMMING_table 2 0 3 = 2 ∧
      distance HAMMING_table 2 1 3 = 1 ∧
      ∃ r, compute_candidate_statistics HAMMING_table 2 2 ⟨0, 0, 0, 0, 3, 0, 0⟩
          [⟨0, 0, 0, 0, 3, 0, 0⟩, ⟨0, 0, 0, 0, 2, 0, 1⟩, ⟨0, 0, 0, 0, 5, 0, 3⟩] = .ok r ∧
        r.pro = 3 ∧ r.medius = 2 ∧ r.contra = 5 ∧ r.sum_disapproval = 12 ∧ r.hitler = 3) :=
  ⟨by decide, C22_worked_scenario HAMMING_table 2 (Or.inr rfl) HAMMING_table_popcount⟩

/-- C23: for every active list with at least two candidates, scored by
`compute_election_statistics` and sorted, the `pro`, `contra`, `medius` and
`sum_disapproval` that each of the two poles carries (copied with the pole from
the scoring done before the sort) equal the values that
`compute_candidate_statistics` gives for that pole against the sorted active
list: these sums do not depend on the order of the comparison list. -/
theorem C23_pole_statistics_match_recomputation (HAMMING : Nat → Nat)
    (MAX_LOOKUP_SIZE : Nat) (hM : MAX_LOOKUP_SIZE = 1 ∨ MAX_LOOKUP_SIZE = 2)
    (num_issues : Nat) (hni : num_issues ≤ 64) (stance_poll hitler_table : Nat → Nat)
    (hsp : ∀ w, stance_poll w < UINT_MOD) (hht : ∀ x, hitler_table x < UINT_MOD)
    (cs : List Candidate) (h2 : 2 ≤ cs.length) :
    ∃ s, compute_election_statistics HAMMING MAX_LOOKUP_SIZE num_issues stance_poll
        hitler_table cs = .ok s ∧
      ∀ sorted tail, qsort_result s.candidates sorted →
        ∃ q0 q1, two_party_block HAMMING MAX_LOOKUP_SIZE sorted.length (sorted ++ tail)
            = .ok (sorted ++ tail, q0, q1) ∧
          ∀ poles, qsort_result [q0, q1] poles → ∀ q ∈ poles,
            ∃ r, compute_candidate_statistics HAMMING MAX_LOOKUP_SIZE num_issues q sorted
                = .ok r ∧
              r.pro = q.pro ∧ r.contra = q.contra ∧ r.medius = q.medius ∧
              r.sum_disapproval = q.sum_disapproval := by
  obtain ⟨s, hs, hcand, -, -⟩ := compute_election_statistics_spec HAMMING MAX_LOOKUP_SIZE hM
    num_issues hni stance_poll hitler_table hsp hht cs
  refine ⟨s, hs, ?_⟩
  intro sorted tail hq
  rw [hcand] at hq
  obtain ⟨hslen, -⟩ := qsort_result_scored HAMMING MAX_LOOKUP_SIZE num_issues cs sorted hq
  obtain ⟨p0, p1, rest, v0, v1, hc, -, -, hblock⟩ := two_party_block_spec HAMMING
    MAX_LOOKUP_SIZE hM sorted.length (sorted ++ tail)
    (by rw [List.length_append]; omega)
  have hmem : p0 ∈ sorted ∧ p1 ∈ sorted :=
    head_two_of_append sorted tail rest p0 p1 (by omega) hc
  refine ⟨_, _, hblock, ?_⟩
  intro poles hpoles q hqmem
  have hq01 := (hpoles.1.mem_iff).mp hqmem
  rcases List.mem_cons.mp hq01 with h | h
  · rw [h]
    exact sorted_entry_rescored HAMMING MAX_LOOKUP_SIZE hM num_issues cs sorted hq p0
      hmem.1 v0
  · rw [List.mem_singleton.mp h]
    exact sorted_entry_rescored HAMMING MAX_LOOKUP_SIZE hM num_issues cs sorted hq p1
      hmem.2 v1

/-- C23 witness: the worked scenario for two issues. -/
theorem C23_pole_statistics_match_recomputation_witness :
    2 ≤ scenario3.length ∧
    ∃ s, compute_election_statistics HAMMING_table 2 2 (fun _ => 0) (fun _ => 0) scenario3
        = .ok s ∧
      ∀ sorted tail, qsort_result s.candidates sorted →
        ∃ q0 q1, two_party_block HAMMING_table 2 sorted.length (sorted ++ tail)
            = .ok (sorted ++ tail, q0, q1) ∧
          ∀ poles, qsort_result [q0, q1] poles → ∀ q ∈ poles,
            ∃ r, compute_candidate_statistics HAMMING_table 2 2 q sorted = .ok r ∧
              r.pro = q.pro ∧ r.contra = q.contra ∧ r.medius = q.medius ∧
              r.sum_disapproval = q.sum_disapproval :=
  ⟨by decide,
    C23_pole_statistics_match_recomputation HAMMING_table 2 (Or.inr rfl) 2 (by decide)
      (fun _ => 0) (fun _ => 0) (fun _ => show 0 < UINT_MOD by decide)
      (fun _ => show 0 < UINT_MOD by decide) scenario3 (by decide)⟩

/-- C24: the two-party reduction preserves pole identity and leaves the active
list untouched.  On every array with at least two entries (the poles are
copies of `candidates[0]` and `candidates[1]`) and every number of active
candidates, the block returns, the array `candidates` is as it was before
(every entry keeps its votes and statistics, the two entries the poles were
copied from included), the poles differ from the entries they were copied from
in nothing but `votes`, and after the sort of the two poles they carry the
same two ids as before, possibly swapped, the first with `votes` at least those
of the second. -/
theorem C24_two_party_preserves_poles_and_list (HAMMING : Nat → Nat)
    (MAX_LOOKUP_SIZE : Nat) (hM : MAX_LOOKUP_SIZE = 1 ∨ MAX_LOOKUP_SIZE = 2)
    (num_candidates : Nat) (candidates : List Candidate) (h2 : 2 ≤ candidates.length) :
    ∃ p0 p1 q0 q1 after, status_quo_init candidates = .ok (p0, p1) ∧
      two_party_block HAMMING MAX_LOOKUP_SIZE num_candidates candidates
        = .ok (after, q0, q1) ∧
      after = candidates ∧
      read_at after 0 = .ok p0 ∧ read_at after 1 = .ok p1 ∧
      q0 = { p0 with votes := q0.votes } ∧ q1 = { p1 with votes := q1.votes } ∧
      ∀ poles, qsort_result [q0, q1] poles →
        ∃ a b, poles = [a, b] ∧ b.votes ≤ a.votes ∧
          ((a.id = p0.id ∧ b.id = p1.id) ∨ (a.id = p1.id ∧ b.id = p0.id)) := by
  obtain ⟨p0, p1, rest, v0, v1, hc, hinit, -, hblock⟩ := two_party_block_spec HAMMING
    MAX_LOOKUP_SIZE hM num_candidates candidates h2
  refine ⟨p0, p1, _, _, candidates, hinit, hblock, rfl, ?_, ?_, rfl, rfl, ?_⟩
  · rw [hc]; simp [read_at]
  · rw [hc]; simp [read_at]
  · intro poles hq
    obtain ⟨a, b, hp, hv, hab⟩ := qsort_result_pair _ _ poles hq
    refine ⟨a, b, hp, hv, ?_⟩
    rcases hab with ⟨ha, hb⟩ | ⟨ha, hb⟩
    · left; rw [ha, hb]; exact ⟨rfl, rfl⟩
    · right; rw [ha, hb]; exact ⟨rfl, rfl⟩

/-- C24 witness: the scored and sorted worked scenario (ids 3, 0, 1 with 5, 3
and 2 votes): the poles are ids 3 and 0; id 0 collects its own 3 votes, id 3
its own 5 votes, and the 2 votes of id 1, which is at distance 1 from both,
are discarded. -/
theorem C24_two_party_preserves_poles_and_list_witness :
    two_party_block HAMMING_table 2 3
        [⟨3, 2, 5, 8, 5, 0, 3⟩, ⟨5, 2, 3, 12, 3, 3, 0⟩, ⟨0, 8, 2, 8, 2, 0, 1⟩]
      = .ok ([⟨3, 2, 5, 8, 5, 0, 3⟩, ⟨5, 2, 3, 12, 3, 3, 0⟩, ⟨0, 8, 2, 8, 2, 0, 1⟩],
          ⟨3, 2, 5, 8, 5, 0, 3⟩, ⟨5, 2, 3, 12, 3, 3, 0⟩) ∧
    ∃ p0 p1 q0 q1 after,
      status_quo_init
          [⟨3, 2, 5, 8, 5, 0, 3⟩, ⟨5, 2, 3, 12, 3, 3, 0⟩, ⟨0, 8, 2, 8, 2, 0, 1⟩]
        = .ok (p0, p1) ∧
      two_party_block HAMMING_table 2 3
          [⟨3, 2, 5, 8, 5, 0, 3⟩, ⟨5, 2, 3, 12, 3, 3, 0⟩, ⟨0, 8, 2, 8, 2, 0, 1⟩]
        = .ok (after, q0, q1) ∧
      after = [⟨3, 2, 5, 8, 5, 0, 3⟩, ⟨5, 2, 3, 12, 3, 3, 0⟩, ⟨0, 8, 2, 8, 2, 0, 1⟩] ∧
      read_at after 0 = .ok p0 ∧ read_at after 1 = .ok p1 ∧
      q0 = { p0 with votes := q0.votes } ∧ q1 = { p1 with votes := q1.votes } ∧
      ∀ poles, qsort_result [q0, q1] poles →
        ∃ a b, poles = [a, b] ∧ b.votes ≤ a.votes ∧
          ((a.id = p0.id ∧ b.id = p1.id) ∨ (a.id = p1.id ∧ b.id = p0.id)) :=
  ⟨by decide,
    C24_two_party_preserves_poles_and_list HAMMING_table 2 (Or.inr rfl) 3
      [⟨3, 2, 5, 8, 5, 0, 3⟩, ⟨5, 2, 3, 12, 3, 3, 0⟩, ⟨0, 8, 2, 8, 2, 0, 1⟩] (by decide)⟩

/-- C25: how far the reported results of an iteration are free of state from
earlier iterations.  For fixed `population_size` and `num_issues` and a fixed
sequence of random draws, take two runs of one iteration started from
different prior contents of the buffers `candidates`, `hitler_table` and
`stance_poll` (and of the winner arrays), such that in one of them the pool is
initialised and `perform_election` returns with at least one active
candidate.  If `num_candidates ≥ 2`, the two runs give the same result: the
same active list with statistics, the same winner lists, the same consensus
candidate and the same two poles with their votes and statistics (or the same
fault).  In every case the two runs end with the same fault, or with reports
that agree in `num_candidates`, the active list with statistics, the winner
lists and the consensus candidate, and whose arrays `status_quo` hold one
common pole and a second pole with the same id and votes; the statistics of
that second pole, copied from the slot behind a single active candidate, are
all that the prior contents can change, and there the claim fails.
(`candidates` has its `2 ^ num_issues` entries, `num_issues ≤ 30`, the tallies
hold `unsigned` values, and `qsort` sorts.) -/
theorem C25_prior_buffers_reach_only_pole_statistics (RAND_MAX : Nat) (HAMMING : Nat → Nat)
    (MAX_LOOKUP_SIZE : Nat) (hM : MAX_LOOKUP_SIZE = 1 ∨ MAX_LOOKUP_SIZE = 2)
    (qsort : List Candidate → List Candidate) (hqsort : ∀ l, qsort_result l (qsort l))
    (population_size num_issues : Nat) (hni : num_issues ≤ 30)
    (hpop : population_size + 1 < UINT_MOD) (washington : Candidate)
    (c1 c2 : List Candidate) (ht1 ht2 sp1 sp2 : Nat → Nat) (w1 w2 : Winners)
    (draws : List Nat)
    (hl1 : c1.length = 2 ^ num_issues) (hl2 : c2.length = 2 ^ num_issues)
    (hb1 : ∀ x, ht1 x < UINT_MOD) (hb2 : ∀ x, ht2 x < UINT_MOD)
    (hs1 : ∀ w, sp1 w < UINT_MOD) (hs2 : ∀ w, sp2 w < UINT_MOD)
    (D1 : List Candidate) (st1 : ElectionState)
    (hD1 : init_pool (List.range' 0 (2 ^ num_issues)) c1 = .ok D1)
    (hP1 : perform_election RAND_MAX population_size (2 ^ num_issues) D1 draws = .ok st1)
    (hn : 1 ≤ st1.num_candidates) :
    (2 ≤ st1.num_candidates →
      main_iteration RAND_MAX HAMMING MAX_LOOKUP_SIZE qsort population_size num_issues
          washington c2 ht2 sp2 w2 draws
        = main_iteration RAND_MAX HAMMING MAX_LOOKUP_SIZE qsort population_size num_issues
          washington c1 ht1 sp1 w1 draws) ∧
    (∀ e, main_iteration RAND_MAX HAMMING MAX_LOOKUP_SIZE qsort population_size num_issues
        washington c1 ht1 sp1 w1 draws = .error e →
      main_iteration RAND_MAX HAMMING MAX_LOOKUP_SIZE qsort population_size num_issues
        washington c2 ht2 sp2 w2 draws = .error e) ∧
    (∀ r1, main_iteration RAND_MAX HAMMING MAX_LOOKUP_SIZE qsort population_size num_issues
        washington c1 ht1 sp1 w1 draws = .ok r1 →
      ∃ r2, main_iteration RAND_MAX HAMMING MAX_LOOKUP_SIZE qsort population_size num_issues
          washington c2 ht2 sp2 w2 draws = .ok r2 ∧ r1.agree_up_to_pole_statistics r2) :=
  ⟨fun h2 => main_iteration_congr RAND_MAX HAMMING MAX_LOOKUP_SIZE hM qsort hqsort
      population_size num_issues hni hpop washington c1 c2 ht1 ht2 sp1 sp2 w1 w2 draws hl1 hl2
      hb1 hb2 hs1 hs2 D1 st1 hD1 hP1 h2,
    main_iteration_rel RAND_MAX HAMMING MAX_LOOKUP_SIZE hM qsort hqsort population_size
      num_issues hni hpop washington c1 c2 ht1 ht2 sp1 sp2 w1 w2 draws hl1 hl2 hb1 hb2 hs1 hs2
      D1 st1 hD1 hP1 hn⟩

/-- C25 witness: 10 voters and two issues on the stream `draws9`, where
`perform_election` leaves two active candidates, and one voter and one issue
on a stream that leaves one active candidate, each once from clean buffers and
once from buffers that hold the leftovers of an earlier election. -/
theorem C25_prior_buffers_reach_only_pole_statistics_witness :
    (init_pool (List.range' 0 (2 ^ 2)) pool4 = .ok pool4 ∧
      perform_election 32767 10 (2 ^ 2) pool4 draws9 = .ok run4 ∧
      2 ≤ run4.num_candidates ∧
      main_iteration 32767 HAMMING_table 2 insertion_qsort 10 2 default stale_pool4
          (fun _ => 5) (fun _ => 6) stale_winners draws9
        = main_iteration 32767 HAMMING_table 2 insertion_qsort 10 2 default pool4
          (fun _ => 0) (fun _ => 0) stale_winners draws9) ∧
    (init_pool (List.range' 0 (2 ^ 1)) pool2 = .ok pool2 ∧
      perform_election 32767 1 (2 ^ 1) pool2 [20000, 20000] = .ok run1 ∧
      run1.num_candidates = 1 ∧
      ∀ r1, main_iteration 32767 HAMMING_table 2 insertion_qsort 1 1 default pool2
          (fun _ => 0) (fun _ => 0) stale_winners [20000, 20000] = .ok r1 →
        ∃ r2, main_iteration 32767 HAMMING_table 2 insertion_qsort 1 1 default stale_pool2
            (fun _ => 5) (fun _ => 6) stale_winners [20000, 20000] = .ok r2 ∧
          r1.agree_up_to_pole_statistics r2) :=
  ⟨⟨by decide, by decide, by decide,
      (C25_prior_buffers_reach_only_pole_statistics 32767 HAMMING_table 2 (Or.inr rfl)
        insertion_qsort insertion_qsort_result 10 2 (by decide) (by decide) default pool4
        stale_pool4 (fun _ => 0) (fun _ => 5) (fun _ => 0) (fun _ => 6) stale_winners
        stale_winners draws9 (by decide) (by decide)
        (fun _ => show 0 < UINT_MOD by decide) (fun _ => show 5 < UINT_MOD by decide)
        (fun _ => show 0 < UINT_MOD by decide) (fun _ => show 6 < UINT_MOD by decide)
        pool4 run4 (by decide) (by decide) (by decide)).1 (by decide)⟩,
    ⟨by decide, by decide, rfl,
      (C25_prior_buffers_reach_only_pole_statistics 32767 HAMMING_table 2 (Or.inr rfl)
        insertion_qsort insertion_qsort_result 1 1 (by decide) (by decide) default pool2
        stale_pool2 (fun _ => 0) (fun _ => 5) (fun _ => 0) (fun _ => 6) stale_winners
        stale_winners [20000, 20000] (by decide) (by decide)
        (fun _ => show 0 < UINT_MOD by decide) (fun _ => show 5 < UINT_MOD by decide)
        (fun _ => show 0 < UINT_MOD by decide) (fun _ => show 6 < UINT_MOD by decide)
        pool2 run1 (by decide) (by decide) (by decide)).2.2⟩⟩

/-- C25 counterexample: one voter and one issue on a stream that gives the
voter to the candidate with id 1, so that `num_candidates = 1`.  Started from
clean buffers the iteration reports a second pole with id 0 and statistics 0;
started from a buffer whose slot 1 holds the statistics of an earlier election
it reports a second pole with id 0 and those earlier statistics
(`contra = 4`, `medius = 1`, `pro = 3`, `sum_disapproval = 9`): the slot behind
the active list, from which `status_quo[1]` is copied, is not recomputed. -/
theorem C25_single_candidate_pole_keeps_stale_statistics_counterexample :
    main_iteration 32767 HAMMING_table 2 insertion_qsort 1 1 default pool2 (fun _ => 0)
        (fun _ => 0) stale_winners [20000, 20000]
      = .ok { num_candidates := 1, candidates := [⟨0, 0, 1, 0, 1, 1, 1⟩],
              elected := [0], elected_a := [0], elected_h := [0],
              washington := ⟨0, 0, 1, 0, 0, 1, 1⟩,
              status_quo := [⟨0, 0, 1, 0, 1, 1, 1⟩, ⟨0, 0, 0, 0, 0, 0, 0⟩] } ∧
    main_iteration 32767 HAMMING_table 2 insertion_qsort 1 1 default stale_pool2
        (fun _ => 0) (fun _ => 0) stale_winners [20000, 20000]
      = .ok { num_candidates := 1, candidates := [⟨0, 0, 1, 0, 1, 1, 1⟩],
              elected := [0], elected_a := [0], elected_h := [0],
              washington := ⟨0, 0, 1, 0, 0, 1, 1⟩,
              status_quo := [⟨0, 0, 1, 0, 1, 1, 1⟩, ⟨4, 1, 3, 9, 0, 1, 0⟩] } ∧
    (⟨0, 0, 0, 0, 0, 0, 0⟩ : Candidate) ≠ ⟨4, 1, 3, 9, 0, 1, 0⟩ := by
  decide

/-- C27: for every ceiling with `0 < ceiling ≤ R` (`R = RAND_MAX + 1`, which
fits in an `unsigned`) and every raw stream that contains a value below
`reject = ceiling * (R / ceiling)` (such a value exists only when
`ceiling ≤ R`, so that bound is not a separate hypothesis), `rand_ceiling`
returns: the stream splits
into the draws before the first value `r < reject`, all of them `≥ reject` and
discarded, the value `r`, and the rest, which is left undrawn; the result is
`r / (R / ceiling)`. -/
theorem C27_rand_ceiling_first_accepted (RAND_MAX ceiling : Nat) (draws : List Nat)
    (hR : RAND_MAX + 1 < UINT_MOD) (hc : 0 < ceiling)
    (hex : ∃ x ∈ draws, x < ceiling * ((RAND_MAX + 1) / ceiling)) :
    ∃ skipped r rest, draws = skipped ++ r :: rest ∧
      (∀ x ∈ skipped, ceiling * ((RAND_MAX + 1) / ceiling) ≤ x) ∧
      r < ceiling * ((RAND_MAX + 1) / ceiling) ∧
      rand_ceiling RAND_MAX ceiling draws = .ok (r / ((RAND_MAX + 1) / ceiling), rest) := by
  have hle : ceiling * ((RAND_MAX + 1) / ceiling) ≤ RAND_MAX + 1 := Nat.mul_div_le _ _
  unfold rand_ceiling
  rw [if_neg (by omega)]
  simp only [Nat.mod_eq_of_lt hR, Nat.mod_eq_of_lt (Nat.lt_of_le_of_lt hle hR)]
  exact rand_ceiling_loop_first _ _ draws hex

/-- C27 witness: `RAND_MAX = 32767`, ceiling 10 (`reject = 32760`): the first
draw 32765 is discarded, the second draw 12345 is accepted and gives 3, and the
third value stays in the stream. -/
theorem C27_rand_ceiling_first_accepted_witness :
    rand_ceiling 32767 10 [32765, 12345, 7] = .ok (3, [7]) ∧
    ∃ skipped r rest, [32765, 12345, 7] = skipped ++ r :: rest ∧
      (∀ x ∈ skipped, 10 * ((32767 + 1) / 10) ≤ x) ∧
      r < 10 * ((32767 + 1) / 10) ∧
      rand_ceiling 32767 10 [32765, 12345, 7] = .ok (r / ((32767 + 1) / 10), rest) :=
  ⟨by decide,
    C27_rand_ceiling_first_accepted 32767 10 [32765, 12345, 7] (by decide) (by decide)
      ⟨7, by simp, by decide⟩⟩

/-- C28: the configuration limits keep the sampler within its precondition.
With `RAND_MAX + 1` representable as an `unsigned` and a table `HAMMING` of bit
counts, for every `MAX_POPULATION = m ≥ 1` with `m * m ≤ RAND_MAX` the derived
`MAX_ISSUES` (`hamming_weight(m)` when `m | (m>>1) = m`, otherwise
`bit_count(m>>1)`) is computed and satisfies `2 ^ MAX_ISSUES ≤ m + 1`, and for
every `num_issues` in `[1, MAX_ISSUES]`, every population in `[1, m]`, every
array and every stream of draws, every ceiling passed to `rand_ceiling` during
`perform_election(population, 2 ^ num_issues)` (`pool_size - i` and
`voters_left + 1`) satisfies `0 < ceiling ≤ RAND_MAX + 1`. -/
theorem C28_limits_keep_sampler_in_range (HAMMING : Nat → Nat) (MAX_LOOKUP_SIZE : Nat)
    (hM : MAX_LOOKUP_SIZE = 1 ∨ MAX_LOOKUP_SIZE = 2)
    (htab : ∀ i, i < 65536 → HAMMING i = popcount i) (RAND_MAX m : Nat)
    (hR : RAND_MAX + 1 < UINT_MOD) (hm1 : 1 ≤ m) (hmm : m * m ≤ RAND_MAX) :
    ∃ MAX_ISSUES, max_issues HAMMING MAX_LOOKUP_SIZE m = .ok MAX_ISSUES ∧
      2 ^ MAX_ISSUES ≤ m + 1 ∧
      ∀ num_issues population, 1 ≤ num_issues → num_issues ≤ MAX_ISSUES →
        1 ≤ population → population ≤ m →
        ∀ (candidates : List Candidate) (draws : List Nat),
          ∀ c ∈ perform_election_ceilings RAND_MAX (2 ^ num_issues) (draws.length + 1) 0
              { voters_left := population, num_candidates := 0,
                candidates := candidates, draws := draws },
            0 < c ∧ c ≤ RAND_MAX + 1 := by
  have hmle : m ≤ m * m := Nat.le_mul_of_pos_left m hm1
  have hM32 : UINT_MOD = 2 ^ 32 := rfl
  obtain ⟨k, hk, hpow⟩ := max_issues_spec HAMMING MAX_LOOKUP_SIZE hM htab m (by omega)
  refine ⟨k, hk, hpow, ?_⟩
  intro num_issues population _ hni _ hpop candidates draws
  have hpool : 2 ^ num_issues ≤ 2 ^ k := Nat.pow_le_pow_right (by decide) hni
  exact perform_election_ceilings_bound RAND_MAX (2 ^ num_issues) m hR (by omega)
    (Nat.one_le_two_pow) (by omega) _ 0 _ hpop

/-- C28 witness: `RAND_MAX = 32767` gives `MAX_POPULATION = 181` and
`MAX_ISSUES = bit_count(90) = 7`, and `2 ^ 7 = 128 ≤ 182`; in the run of
`perform_election(10, 4)` the ceilings passed are 4, 11, 3, 5, 2 and 5. -/
theorem C28_limits_keep_sampler_in_range_witness :
    max_issues HAMMING_table 2 181 = .ok 7 ∧
    perform_election_ceilings 32767 4 (draws9.length + 1) 0
        { voters_left := 10, num_candidates := 0, candidates := pool4, draws := draws9 }
      = [4, 11, 3, 5, 2, 5] ∧
    ∃ MAX_ISSUES, max_issues HAMMING_table 2 181 = .ok MAX_ISSUES ∧
      2 ^ MAX_ISSUES ≤ 181 + 1 ∧
      ∀ num_issues population, 1 ≤ num_issues → num_issues ≤ MAX_ISSUES →
        1 ≤ population → population ≤ 181 →
        ∀ (candidates : List Candidate) (draws : List Nat),
          ∀ c ∈ perform_election_ceilings 32767 (2 ^ num_issues) (draws.length + 1) 0
              { voters_left := population, num_candidates := 0,
                candidates := candidates, draws := draws },
            0 < c ∧ c ≤ 32767 + 1 :=
  ⟨by decide, by decide,
    C28_limits_keep_sampler_in_range HAMMING_table 2 (Or.inr rfl) HAMMING_table_popcount
      32767 181 (by decide) (by decide) (by decide)⟩

/-- C29: the consensus (washington) candidate is approval-optimal.  For a
table `HAMMING` of bit counts and every active list with ids below
`2 ^ num_issues` whose votes sum to `population_size` (with
`population_size * num_issues` below `2^32` and `num_issues ≤ 30`, as the
limits of `main` ensure): the statistics are computed, the washington id is
built and is below `2 ^ num_issues`, and for every order the sort gives the
list, the `sum_disapproval` computed for the washington id against the list is
at most the `sum_disapproval` computed for any candidate with id below
`2 ^ num_issues`, and at most the `sum_disapproval` field of every active
candidate, so of every approval winner. -/
theorem C29_washington_approval_optimal (HAMMING : Nat → Nat) (MAX_LOOKUP_SIZE : Nat)
    (hM : MAX_LOOKUP_SIZE = 1 ∨ MAX_LOOKUP_SIZE = 2)
    (htab : ∀ i, i < 65536 → HAMMING i = popcount i) (num_issues population_size : Nat)
    (hni : num_issues ≤ 30) (cs : List Candidate)
    (hids : ∀ h ∈ cs, h.id < 2 ^ num_issues)
    (hpop : (cs.map Candidate.votes).sum = population_size)
    (hfit : population_size * num_issues < UINT_MOD) (washington : Candidate) :
    ∃ s wid, compute_election_statistics HAMMING MAX_LOOKUP_SIZE num_issues (fun _ => 0)
        (fun _ => 0) cs = .ok s ∧
      find_washington population_size num_issues s.stance_poll = .ok wid ∧
      wid < 2 ^ num_issues ∧
      ∀ sorted, qsort_result s.candidates sorted →
        ∃ rw, compute_candidate_statistics HAMMING MAX_LOOKUP_SIZE num_issues
            { washington with id := wid } sorted = .ok rw ∧
          (∀ c : Candidate, c.id < 2 ^ num_issues →
            ∃ r, compute_candidate_statistics HAMMING MAX_LOOKUP_SIZE num_issues c sorted
                = .ok r ∧ rw.sum_disapproval ≤ r.sum_disapproval) ∧
          (∀ c ∈ sorted, rw.sum_disapproval ≤ c.sum_disapproval) := by
  subst hpop
  obtain ⟨s, hs, hcand, hsp, -⟩ := compute_election_statistics_spec HAMMING MAX_LOOKUP_SIZE hM
    num_issues (by omega) (fun _ => 0) (fun _ => 0)
    (fun _ => show 0 < UINT_MOD by decide) (fun _ => show 0 < UINT_MOD by decide) cs
  have hexact := stance_poll_exact cs num_issues s.stance_poll hfit hsp
  obtain ⟨wid, hwid, hwlt, hbits⟩ := find_washington_loop_spec
    (cs.map Candidate.votes).sum s.stance_poll num_issues 0 0 (by decide) (by omega)
    (fun w hw => by
      rw [hexact w (by omega)]
      exact stance_votes_le cs w)
  rw [Nat.zero_add] at hwlt
  have hbits2 : ∀ w, wid.testBit w = decide (w < num_issues ∧
      stance_votes cs w ≥ (cs.map Candidate.votes).sum - stance_votes cs w) := by
    intro w
    rw [hbits w, if_neg (Nat.not_lt_zero w), Nat.zero_add]
    by_cases hw : w < num_issues
    · rw [hexact w hw]
    · simp [hw]
  refine ⟨s, wid, hs, hwid, hwlt, ?_⟩
  intro sorted hq
  rw [hcand] at hq
  have hperm := ballot_sorted_scored HAMMING MAX_LOOKUP_SIZE num_issues cs sorted hq
  obtain ⟨rw, hrw, hrwsum⟩ := sum_disapproval_by_issue HAMMING MAX_LOOKUP_SIZE hM htab
    num_issues (by omega) cs hids hfit { washington with id := wid } hwlt sorted hperm
  have hmin : ∀ c : Candidate, c.id < 2 ^ num_issues →
      ∃ r, compute_candidate_statistics HAMMING MAX_LOOKUP_SIZE num_issues c sorted
          = .ok r ∧ rw.sum_disapproval ≤ r.sum_disapproval := by
    intro c hc
    obtain ⟨r, hr, hrsum⟩ := sum_disapproval_by_issue HAMMING MAX_LOOKUP_SIZE hM htab
      num_issues (by omega) cs hids hfit c hc sorted hperm
    refine ⟨r, hr, ?_⟩
    rw [hrwsum, hrsum]
    exact washington_terms_le _ (stance_votes cs) num_issues wid c.id hbits2
  refine ⟨rw, hrw, hmin, ?_⟩
  intro c hc
  obtain ⟨-, hmem⟩ := qsort_result_scored HAMMING MAX_LOOKUP_SIZE num_issues cs sorted hq
  obtain ⟨c0, hc0, hcs, hcid, -⟩ := hmem c hc
  have hc0lt : c.id < 2 ^ num_issues := by rw [hcid]; exact hids c0 hc0
  obtain ⟨r, hr, hle⟩ := hmin c hc0lt
  have hscore := compute_candidate_statistics_eq_score HAMMING MAX_LOOKUP_SIZE hM num_issues
    c0 cs
  rw [← hcs] at hscore
  have hp := compute_candidate_statistics_perm HAMMING MAX_LOOKUP_SIZE num_issues c c0
    sorted cs r c hcid hperm hr hscore
  rw [← hp.2.2.2]
  exact hle

/-- C29 witness: the worked scenario for two issues with 10 voters: the stance
tally is 7, 5, the washington id is 3, and its `sum_disapproval` 8 is the
smallest possible. -/
theorem C29_washington_approval_optimal_witness :
    (compute_election_statistics HAMMING_table 2 2 (fun _ => 0) (fun _ => 0) scenario3).map
        (fun s => (find_washington 10 2 s.stance_poll, s.stance_poll 0, s.stance_poll 1))
      = .ok (.ok 3, 7, 5) ∧
    ∃ s wid, compute_election_statistics HAMMING_table 2 2 (fun _ => 0) (fun _ => 0) scenario3
        = .ok s ∧
      find_washington 10 2 s.stance_poll = .ok wid ∧
      wid < 2 ^ 2 ∧
      ∀ sorted, qsort_result s.candidates sorted →
        ∃ rw, compute_candidate_statistics HAMMING_table 2 2
            { (default : Candidate) with id := wid } sorted = .ok rw ∧
          (∀ c : Candidate, c.id < 2 ^ 2 →
            ∃ r, compute_candidate_statistics HAMMING_table 2 2 c sorted
                = .ok r ∧ rw.sum_disapproval ≤ r.sum_disapproval) ∧
          (∀ c ∈ sorted, rw.sum_disapproval ≤ c.sum_disapproval) :=
  ⟨rfl,
    C29_washington_approval_optimal HAMMING_table 2 (Or.inr rfl) HAMMING_table_popcount 2 10
      (by decide) scenario3 (by decide) (by decide) (by decide) default⟩

/-- C30: `sum_disapproval` agrees with the stance tally issue by issue.  For a
table `HAMMING` of bit counts, every candidate `c` with id below
`2 ^ num_issues` and every active list with ids below `2 ^ num_issues` and
total votes `T` (with `T * num_issues` below `2^32`, so that no counter wraps,
and `num_issues ≤ 32`), the `sum_disapproval` that
`compute_candidate_statistics` gives `c` is the sum over `w < num_issues` of
`T - stance_poll[w]` when bit `w` of `c.id` is 1 and of `stance_poll[w]` when
it is 0, with `stance_poll` as `compute_election_statistics` leaves it when
started from zero. -/
theorem C30_sum_disapproval_matches_stance_tally (HAMMING : Nat → Nat)
    (MAX_LOOKUP_SIZE : Nat) (hM : MAX_LOOKUP_SIZE = 1 ∨ MAX_LOOKUP_SIZE = 2)
    (htab : ∀ i, i < 65536 → HAMMING i = popcount i) (num_issues : Nat)
    (hni : num_issues ≤ 32) (cs : List Candidate)
    (hids : ∀ h ∈ cs, h.id < 2 ^ num_issues)
    (hfit : (cs.map Candidate.votes).sum * num_issues < UINT_MOD)
    (c : Candidate) (hc : c.id < 2 ^ num_issues) :
    ∃ s r, compute_election_statistics HAMMING MAX_LOOKUP_SIZE num_issues (fun _ => 0)
        (fun _ => 0) cs = .ok s ∧
      compute_candidate_statistics HAMMING MAX_LOOKUP_SIZE num_issues c cs = .ok r ∧
      r.sum_disapproval = ((List.range num_issues).map fun w =>
        if c.id.testBit w then (cs.map Candidate.votes).sum - s.stance_poll w
        else s.stance_poll w).sum := by
  obtain ⟨s, hs, -, hsp, -⟩ := compute_election_statistics_spec HAMMING MAX_LOOKUP_SIZE hM
    num_issues (by omega) (fun _ => 0) (fun _ => 0)
    (fun _ => show 0 < UINT_MOD by decide) (fun _ => show 0 < UINT_MOD by decide) cs
  have hexact := stance_poll_exact cs num_issues s.stance_poll hfit hsp
  obtain ⟨r, hr, hsum⟩ := sum_disapproval_by_issue HAMMING MAX_LOOKUP_SIZE hM htab
    num_issues hni cs hids hfit c hc cs (List.Perm.refl _)
  refine ⟨s, r, hs, hr, ?_⟩
  rw [hsum]
  congr 1
  apply List.map_congr_left
  intro w hw
  rw [hexact w (List.mem_range.mp hw)]

/-- C30 witness: the worked scenario for two issues (3, 2 and 5 votes for the
ids 0, 1 and 3, so `T = 10` and the stance tally is 7, 5) and the candidate
with id 1: `sum_disapproval = (10 - 7) + 5 = 8`. -/
theorem C30_sum_disapproval_matches_stance_tally_witness :
    compute_candidate_statistics HAMMING_table 2 2 ⟨0, 0, 0, 0, 2, 0, 1⟩ scenario3
        = .ok ⟨0, 8, 2, 8, 2, 0, 1⟩ ∧
    ∃ s r, compute_election_statistics HAMMING_table 2 2 (fun _ => 0) (fun _ => 0) scenario3
        = .ok s ∧
      compute_candidate_statistics HAMMING_table 2 2 ⟨0, 0, 0, 0, 2, 0, 1⟩ scenario3
        = .ok r ∧
      r.sum_disapproval = ((List.range 2).map fun w =>
        if (⟨0, 0, 0, 0, 2, 0, 1⟩ : Candidate).id.testBit w
        then (scenario3.map Candidate.votes).sum - s.stance_poll w
        else s.stance_poll w).sum :=
  ⟨by decide,
    C30_sum_disapproval_matches_stance_tally HAMMING_table 2 (Or.inr rfl)
      HAMMING_table_popcount 2 (by decide) scenario3 (by decide) (by decide)
      ⟨0, 0, 0, 0, 2, 0, 1⟩ (by decide)⟩

/-- C31: every vote is counted exactly once in the antagonist tally, and only
on initialised entries.  For every active list (empty or not) with distinct ids whose votes
sum to less than `2^32`, with `hitler_table` zeroed only at the ids of the
active candidates (as `main` does) and holding any `unsigned` values
elsewhere: `compute_election_statistics` returns, every antagonist it records
is the id of an active candidate, the sum of `hitler_table[c.id]` over the
active candidates equals the total active votes, and the entries at the other
ids are left as they were. -/
theorem C31_antagonist_tally_counts_every_vote (HAMMING : Nat → Nat)
    (MAX_LOOKUP_SIZE : Nat) (hM : MAX_LOOKUP_SIZE = 1 ∨ MAX_LOOKUP_SIZE = 2)
    (num_issues : Nat) (hni : num_issues ≤ 64) (stance_poll hitler_table : Nat → Nat)
    (hsp : ∀ w, stance_poll w < UINT_MOD) (hht : ∀ x, hitler_table x < UINT_MOD)
    (cs : List Candidate) (hnd : (cs.map Candidate.id).Nodup)
    (hvotes : (cs.map Candidate.votes).sum < UINT_MOD) :
    ∃ s, compute_election_statistics HAMMING MAX_LOOKUP_SIZE num_issues stance_poll
        (zero_hitler_table cs hitler_table) cs = .ok s ∧
      (∀ c ∈ s.candidates, c.hitler ∈ cs.map Candidate.id) ∧
      (cs.map fun c => s.hitler_table c.id).sum = (cs.map Candidate.votes).sum ∧
      (∀ x, x ∉ cs.map Candidate.id → s.hitler_table x = hitler_table x) :=
  hitler_table_counts_every_vote HAMMING MAX_LOOKUP_SIZE hM num_issues hni stance_poll
    hitler_table hsp hht cs hnd hvotes

/-- C31 witness: the worked scenario for two issues on a hitler table that
holds 5 everywhere before it is zeroed at the ids 0, 1 and 3: the entries at
these ids become 7, 0 and 3, which add up to the 10 votes, and the entry at
id 2 still is 5. -/
theorem C31_antagonist_tally_counts_every_vote_witness :
    (compute_election_statistics HAMMING_table 2 2 (fun _ => 0)
        (zero_hitler_table scenario3 (fun _ => 5)) scenario3).map
        (fun s => (s.hitler_table 0, s.hitler_table 1, s.hitler_table 2, s.hitler_table 3))
      = .ok (7, 0, 5, 3) ∧
    ∃ s, compute_election_statistics HAMMING_table 2 2 (fun _ => 0)
        (zero_hitler_table scenario3 (fun _ => 5)) scenario3 = .ok s ∧
      (∀ c ∈ s.candidates, c.hitler ∈ scenario3.map Candidate.id) ∧
      (scenario3.map fun c => s.hitler_table c.id).sum
        = (scenario3.map Candidate.votes).sum ∧
      (∀ x, x ∉ scenario3.map Candidate.id → s.hitler_table x = (fun _ => 5) x) :=
  ⟨rfl,
    C31_antagonist_tally_counts_every_vote HAMMING_table 2 (Or.inr rfl) 2 (by decide)
      (fun _ => 0) (fun _ => 5) (fun _ => show 0 < UINT_MOD by decide)
      (fun _ => show 5 < UINT_MOD by decide) scenario3 (by decide) (by decide)⟩

/-- C32: the disapproval sum is bounded and its accumulation does not wrap.
For a table `HAMMING` of bit counts, every candidate with id below
`2 ^ num_issues` and every comparison list with ids below `2 ^ num_issues`,
`compute_candidate_statistics` returns with
`sum_disapproval ≤ num_issues * (total votes of the list)`.  Hence, with
`RAND_MAX + 1` representable as an `unsigned`, `MAX_POPULATION = m` with
`m * m ≤ RAND_MAX`, the derived `MAX_ISSUES`, `1 ≤ num_issues ≤ MAX_ISSUES` and
total votes `= population_size` in `[1, m]`: the exact sum of
`disapproval * votes` over every prefix of the list is below `2^32` (the
`unsigned` accumulation never wraps), `sum_disapproval` is the exact sum, the
divisor `population_size*num_issues` does not wrap and is positive, and the
approval value `(1 - sum_disapproval / (population_size*num_issues)) * 100`,
taken in exact arithmetic, lies in `[0, 100]`. -/
theorem C32_sum_disapproval_never_wraps (HAMMING : Nat → Nat) (MAX_LOOKUP_SIZE : Nat)
    (hM : MAX_LOOKUP_SIZE = 1 ∨ MAX_LOOKUP_SIZE = 2)
    (htab : ∀ i, i < 65536 → HAMMING i = popcount i) (num_issues : Nat) (c : Candidate)
    (cs : List Candidate) (hc : c.id < 2 ^ num_issues)
    (hcs : ∀ x ∈ cs, x.id < 2 ^ num_issues) :
    ∃ r, compute_candidate_statistics HAMMING MAX_LOOKUP_SIZE num_issues c cs = .ok r ∧
      r.sum_disapproval ≤ num_issues * (cs.map Candidate.votes).sum ∧
      ∀ RAND_MAX m MAX_ISSUES population_size : Nat, RAND_MAX + 1 < UINT_MOD →
        m * m ≤ RAND_MAX → max_issues HAMMING MAX_LOOKUP_SIZE m = .ok MAX_ISSUES →
        1 ≤ num_issues → num_issues ≤ MAX_ISSUES →
        (cs.map Candidate.votes).sum = population_size →
        1 ≤ population_size → population_size ≤ m →
        (∀ k, ((cs.take k).map fun h =>
            distance HAMMING MAX_LOOKUP_SIZE c.id h.id * h.votes).sum < UINT_MOD) ∧
        r.sum_disapproval
          = (cs.map fun h => distance HAMMING MAX_LOOKUP_SIZE c.id h.id * h.votes).sum ∧
        max_sum_disapproval population_size num_issues = population_size * num_issues ∧
        0 < max_sum_disapproval population_size num_issues ∧
        r.sum_disapproval ≤ max_sum_disapproval population_size num_issues ∧
        0 ≤ approval population_size num_issues r ∧
        approval population_size num_issues r ≤ 100 :=
  sum_disapproval_in_range HAMMING MAX_LOOKUP_SIZE hM htab num_issues c cs hc hcs

/-- C32 witness: the candidate with id 3 of the worked scenario for two issues
(ten votes, `RAND_MAX = 32767`, `MAX_POPULATION = 181`, `MAX_ISSUES = 7`) has
`sum_disapproval = 8 ≤ 2 * 10`, with every limit of the configuration met. -/
theorem C32_sum_disapproval_never_wraps_witness :
    (compute_candidate_statistics HAMMING_table 2 2 ⟨0, 0, 0, 0, 5, 0, 3⟩ scenario3).map
        Candidate.sum_disapproval = .ok 8 ∧
    max_issues HAMMING_table 2 181 = .ok 7 ∧
    ∃ r, compute_candidate_statistics HAMMING_table 2 2 ⟨0, 0, 0, 0, 5, 0, 3⟩ scenario3
        = .ok r ∧
      r.sum_disapproval ≤ 2 * (scenario3.map Candidate.votes).sum ∧
      (∀ k, ((scenario3.take k).map fun h =>
          distance HAMMING_table 2 (3 : Nat) h.id * h.votes).sum < UINT_MOD) ∧
      r.sum_disapproval
        = (scenario3.map fun h => distance HAMMING_table 2 (3 : Nat) h.id * h.votes).sum ∧
      max_sum_disapproval 10 2 = 10 * 2 ∧
      0 < max_sum_disapproval 10 2 ∧
      r.sum_disapproval ≤ max_sum_disapproval 10 2 ∧
      0 ≤ approval 10 2 r ∧ approval 10 2 r ≤ 100 :=
  ⟨by decide, by decide,
    (C32_sum_disapproval_never_wraps HAMMING_table 2 (Or.inr rfl) HAMMING_table_popcount 2
      ⟨0, 0, 0, 0, 5, 0, 3⟩ scenario3 (by decide) (by decide)).imp
      fun _ h => ⟨h.1, h.2.1,
        h.2.2 32767 181 7 10 (by decide) (by decide) (by decide) (by decide) (by decide)
          (by decide) (by decide) (by decide)⟩⟩

/-- C33: in the two-party reduction, when the two poles are copies of two
active candidates with distinct ids, each pole ends with at least the votes
that candidate has in the active list (its own voters are at distance 0 from
it and at a positive distance from the other pole), so the two poles together
receive at least the sum of their original votes.  The ids of the two poles
fit in an `unsigned`, `HAMMING` is a table of bit counts, and the votes of the
list sum to less than `2^32`. -/
theorem C33_poles_keep_their_own_votes (HAMMING : Nat → Nat) (MAX_LOOKUP_SIZE : Nat)
    (hM : MAX_LOOKUP_SIZE = 1 ∨ MAX_LOOKUP_SIZE = 2)
    (htab : ∀ i, i < 65536 → HAMMING i = popcount i) (cs : List Candidate)
    (p0 p1 : Candidate) (h0 : p0 ∈ cs) (h1 : p1 ∈ cs) (hne : p0.id ≠ p1.id)
    (hid0 : p0.id < 2 ^ 32) (hid1 : p1.id < 2 ^ 32)
    (hvotes : (cs.map Candidate.votes).sum < UINT_MOD) :
    ∃ q0 q1, two_party HAMMING MAX_LOOKUP_SIZE p0 p1 cs = .ok (q0, q1) ∧
      q0.id = p0.id ∧ q1.id = p1.id ∧
      p0.votes ≤ q0.votes ∧ p1.votes ≤ q1.votes ∧
      p0.votes + p1.votes ≤ q0.votes + q1.votes := by
  have hspec := two_party_loop_spec HAMMING MAX_LOOKUP_SIZE hM cs
    { p0 with votes := 0 } { p1 with votes := 0 }
    (show (0 : Nat) < UINT_MOD by decide) (show (0 : Nat) < UINT_MOD by decide)
  have d00 : distance HAMMING MAX_LOOKUP_SIZE p0.id p0.id = 0 :=
    (distance_eq_zero_iff HAMMING MAX_LOOKUP_SIZE hM htab _ _ hid0 hid0).mpr rfl
  have d11 : distance HAMMING MAX_LOOKUP_SIZE p1.id p1.id = 0 :=
    (distance_eq_zero_iff HAMMING MAX_LOOKUP_SIZE hM htab _ _ hid1 hid1).mpr rfl
  have d10 : 0 < distance HAMMING MAX_LOOKUP_SIZE p1.id p0.id := by
    apply Nat.pos_of_ne_zero
    intro h
    exact hne ((distance_eq_zero_iff HAMMING MAX_LOOKUP_SIZE hM htab _ _ hid1 hid0).mp h).symm
  have d01 : 0 < distance HAMMING MAX_LOOKUP_SIZE p0.id p1.id := by
    apply Nat.pos_of_ne_zero
    intro h
    exact hne ((distance_eq_zero_iff HAMMING MAX_LOOKUP_SIZE hM htab _ _ hid0 hid1).mp h)
  have s0 := le_sum_of_mem (fun c : Candidate =>
    if distance HAMMING MAX_LOOKUP_SIZE p0.id c.id
      < distance HAMMING MAX_LOOKUP_SIZE p1.id c.id then c.votes else 0) cs p0 h0
  have s1 := le_sum_of_mem (fun c : Candidate =>
    if distance HAMMING MAX_LOOKUP_SIZE p0.id c.id
      > distance HAMMING MAX_LOOKUP_SIZE p1.id c.id then c.votes else 0) cs p1 h1
  dsimp only at s0 s1
  rw [d00, if_pos d10] at s0
  rw [d11, if_pos d01] at s1
  have b0 := sum_ite_le (fun c : Candidate => distance HAMMING MAX_LOOKUP_SIZE p0.id c.id
    < distance HAMMING MAX_LOOKUP_SIZE p1.id c.id) cs
  have b1 := sum_ite_le (fun c : Candidate => distance HAMMING MAX_LOOKUP_SIZE p0.id c.id
    > distance HAMMING MAX_LOOKUP_SIZE p1.id c.id) cs
  unfold two_party
  rw [hspec]
  refine ⟨_, _, rfl, rfl, rfl, ?_, ?_, ?_⟩
  · show p0.votes ≤ (0 + _) % UINT_MOD
    rw [Nat.zero_add, Nat.mod_eq_of_lt (Nat.lt_of_le_of_lt b0 hvotes)]
    exact s0
  · show p1.votes ≤ (0 + _) % UINT_MOD
    rw [Nat.zero_add, Nat.mod_eq_of_lt (Nat.lt_of_le_of_lt b1 hvotes)]
    exact s1
  · show p0.votes + p1.votes ≤ (0 + _) % UINT_MOD + (0 + _) % UINT_MOD
    rw [Nat.zero_add, Nat.zero_add, Nat.mod_eq_of_lt (Nat.lt_of_le_of_lt b0 hvotes),
      Nat.mod_eq_of_lt (Nat.lt_of_le_of_lt b1 hvotes)]
    omega

/-- C33 witness: the scored and sorted worked scenario (ids 3, 0, 1 with 5, 3
and 2 votes) with the poles 3 and 0: they end with 5 and 3 votes, their own. -/
theorem C33_poles_keep_their_own_votes_witness :
    two_party HAMMING_table 2 ⟨3, 2, 5, 8, 5, 0, 3⟩ ⟨5, 2, 3, 12, 3, 3, 0⟩
        [⟨3, 2, 5, 8, 5, 0, 3⟩, ⟨5, 2, 3, 12, 3, 3, 0⟩, ⟨0, 8, 2, 8, 2, 0, 1⟩]
      = .ok (⟨3, 2, 5, 8, 5, 0, 3⟩, ⟨5, 2, 3, 12, 3, 3, 0⟩) ∧
    ∃ q0 q1, two_party HAMMING_table 2 ⟨3, 2, 5, 8, 5, 0, 3⟩ ⟨5, 2, 3, 12, 3, 3, 0⟩
        [⟨3, 2, 5, 8, 5, 0, 3⟩, ⟨5, 2, 3, 12, 3, 3, 0⟩, ⟨0, 8, 2, 8, 2, 0, 1⟩]
        = .ok (q0, q1) ∧
      q0.id = (⟨3, 2, 5, 8, 5, 0, 3⟩ : Candidate).id ∧
      q1.id = (⟨5, 2, 3, 12, 3, 3, 0⟩ : Candidate).id ∧
      (⟨3, 2, 5, 8, 5, 0, 3⟩ : Candidate).votes ≤ q0.votes ∧
      (⟨5, 2, 3, 12, 3, 3, 0⟩ : Candidate).votes ≤ q1.votes ∧
      (⟨3, 2, 5, 8, 5, 0, 3⟩ : Candidate).votes + (⟨5, 2, 3, 12, 3, 3, 0⟩ : Candidate).votes
        ≤ q0.votes + q1.votes :=
  ⟨by decide,
    C33_poles_keep_their_own_votes HAMMING_table 2 (Or.inr rfl) HAMMING_table_popcount
      [⟨3, 2, 5, 8, 5, 0, 3⟩, ⟨5, 2, 3, 12, 3, 3, 0⟩, ⟨0, 8, 2, 8, 2, 0, 1⟩]
      ⟨3, 2, 5, 8, 5, 0, 3⟩ ⟨5, 2, 3, 12, 3, 3, 0⟩ (by decide) (by decide) (by decide)
      (by decide) (by decide) (by decide)⟩

/-- C34 (as amended): table indexing in `hamming_weight` stays inside the
65536-entry table `HAMMING` for `MAX_LOOKUP_SIZE` in {1, 2}: the mask is 255
or 65535, so every index `num & mask` is below 65536, and for every `num` the
loop terminates and the call returns. -/
theorem C34_hamming_weight_index_in_table (HAMMING : Nat → Nat) (MAX_LOOKUP_SIZE : Nat)
    (hM : MAX_LOOKUP_SIZE = 1 ∨ MAX_LOOKUP_SIZE = 2) (num : Nat) :
    (UINT_MOD - 1) - ((UINT_MOD - 1) <<< (MAX_LOOKUP_SIZE * 8)) % UINT_MOD < 65536 ∧
      (∀ x, x &&& ((UINT_MOD - 1) - ((UINT_MOD - 1) <<< (MAX_LOOKUP_SIZE * 8)) % UINT_MOD)
        < 65536) ∧
      ∃ d, hamming_weight HAMMING MAX_LOOKUP_SIZE num = .ok d := by
  have hmask : (UINT_MOD - 1) - ((UINT_MOD - 1) <<< (MAX_LOOKUP_SIZE * 8)) % UINT_MOD
      < 65536 := by
    rcases hM with h | h <;> subst h <;> decide
  exact ⟨hmask, fun x => Nat.lt_of_le_of_lt Nat.and_le_right hmask,
    hamming_weight_ok HAMMING MAX_LOOKUP_SIZE hM num⟩

/-- C34 witness: `MAX_LOOKUP_SIZE = 2` and the word `0xF0F0F0F1`. -/
theorem C34_hamming_weight_index_in_table_witness :
    hamming_weight HAMMING_table 2 4042322161 = .ok 17 ∧
    ((UINT_MOD - 1) - ((UINT_MOD - 1) <<< (2 * 8)) % UINT_MOD < 65536 ∧
      (∀ x, x &&& ((UINT_MOD - 1) - ((UINT_MOD - 1) <<< (2 * 8)) % UINT_MOD) < 65536) ∧
      ∃ d, hamming_weight HAMMING_table 2 4042322161 = .ok d) :=
  ⟨by decide, C34_hamming_weight_index_in_table HAMMING_table 2 (Or.inr rfl) 4042322161⟩

/-- C34 counterexample: the clamp at the top of `hamming_weight` leaves
`MAX_LOOKUP_SIZE = 3` as it is and turns 4 into 3; the mask is then
`2^24 - 1`, and for the word 65536 the index `num & mask` is 65536, the first
index behind the table.  (With `MAX_LOOKUP_SIZE = 0`, which the clamp also
leaves, the loop shifts by 0 bits and does not end for the word 1.) -/
theorem C34_clamped_lookup_size_leaves_table_counterexample :
    hamming_weight HAMMING_table 3 65536 = .error .out_of_bounds ∧
      hamming_weight HAMMING_table 4 65536 = .error .out_of_bounds ∧
      (UINT_MOD - 1) - ((UINT_MOD - 1) <<< (3 * 8)) % UINT_MOD = 2 ^ 24 - 1 ∧
      ¬ (65536 &&& (2 ^ 24 - 1) < 65536) ∧
      hamming_weight HAMMING_table 0 1 = .error .out_of_fuel := by
  decide

end VoteSim
